import Mathlib

/-!
Verification of the async-4x-sim simulation core against its specification.

The Python source is embedded shallowly: mutable objects become records,
in-place mutation becomes explicit state passing, Python `dict`s (which
iterate in insertion order) become association lists, Python `set`s used
only through sorted iteration or membership become lists, and fallible
code returns `Except`.  Machine integers are `Int` (Python ints are
unbounded, so no modular arithmetic is needed).
-/

namespace AsyncSim

/-! ## Hex coordinates (sim/hexgrid.py) -/

/-- Axial hex coordinate, `Hex` in sim/hexgrid.py. -/
structure Hex where
  q : Int
  r : Int
deriving DecidableEq, Repr

/-- Python `repr` of a Hex: `({q},{r})`. -/
def hexStr (h : Hex) : String :=
  "(" ++ toString h.q ++ "," ++ toString h.r ++ ")"

/-- `hex_distance` in sim/hexgrid.py: axial distance via cube coordinates;
the result of the Python function is a non-negative int, given here as `Nat`. -/
def hexDistance (a b : Hex) : Nat :=
  max (a.q - b.q).natAbs (max ((b.q + b.r) - (a.q + a.r)).natAbs (a.r - b.r).natAbs)

/-- The fixed neighbor order `DIRS` in sim/pathfinding.py (identical to the
`directions` list in `Hex.neighbors`). -/
def DIRS : List (Int × Int) :=
  [(1, 0), (1, -1), (0, -1), (-1, 0), (-1, 1), (0, 1)]

/-- `ordered_neighbors` in sim/pathfinding.py. -/
def orderedNeighbors (h : Hex) : List Hex :=
  DIRS.map (fun d => ⟨h.q + d.1, h.r + d.2⟩)

/-! ## Map (sim/map.py) -/

/-- `HexContent` lives in sim/map_content.py, which is not part of the
source snapshot (only its callers are).  Modelled from the spec: the
per-hex terrain content tag with members homeworld, standard planet,
barren planet, minerals, supernova-hazard, horror-hazard and clear
(default clear); `.name` is the Python enum member name. -/
inductive HexContent where
  | HOMEWORLD
  | PLANET_STANDARD
  | PLANET_BARREN
  | MINERALS
  | SUPERNOVA
  | HORROR
  | CLEAR
deriving DecidableEq, Repr

def HexContent.name : HexContent → String
  | .HOMEWORLD => "HOMEWORLD"
  | .PLANET_STANDARD => "PLANET_STANDARD"
  | .PLANET_BARREN => "PLANET_BARREN"
  | .MINERALS => "MINERALS"
  | .SUPERNOVA => "SUPERNOVA"
  | .HORROR => "HORROR"
  | .CLEAR => "CLEAR"

/-- `GameMap` in sim/map.py.  The Python sets `blocked` and `explored`
are duplicate-free lists; `hex_contents` is an association list. -/
structure GameMap where
  qMin : Int
  qMax : Int
  rMin : Int
  rMax : Int
  blocked : List Hex
  explored : List Hex
  hexContents : List (Hex × HexContent)
deriving DecidableEq, Repr

def GameMap.in_bounds (m : GameMap) (h : Hex) : Bool :=
  decide (m.qMin ≤ h.q) && decide (h.q ≤ m.qMax) &&
  decide (m.rMin ≤ h.r) && decide (h.r ≤ m.rMax)

def GameMap.is_blocked (m : GameMap) (h : Hex) : Bool :=
  h ∈ m.blocked

def GameMap.is_passable (m : GameMap) (h : Hex) : Bool :=
  m.in_bounds h && !(m.is_blocked h)

/-- `GameMap.block`: add to the blocked set, no-op outside bounds. -/
def GameMap.block (m : GameMap) (h : Hex) : GameMap :=
  if m.in_bounds h then
    if h ∈ m.blocked then m else { m with blocked := m.blocked ++ [h] }
  else m

def GameMap.is_explored (m : GameMap) (h : Hex) : Bool :=
  h ∈ m.explored

/-- `GameMap.set_explored`: add to the explored set, no-op outside bounds. -/
def GameMap.set_explored (m : GameMap) (h : Hex) : GameMap :=
  if m.in_bounds h then
    if h ∈ m.explored then m else { m with explored := m.explored ++ [h] }
  else m

/-- Association-list update with Python-dict semantics: replace in place
if the key exists, else append. -/
def alistPut {α β : Type} [DecidableEq α] (l : List (α × β)) (k : α) (v : β) :
    List (α × β) :=
  match l with
  | [] => [(k, v)]
  | (k0, v0) :: rest =>
    if k0 = k then (k0, v) :: rest else (k0, v0) :: alistPut rest k v

def alistGet? {α β : Type} [DecidableEq α] (l : List (α × β)) (k : α) : Option β :=
  match l with
  | [] => none
  | (k0, v0) :: rest => if k0 = k then some v0 else alistGet? rest k

def alistGetD {α β : Type} [DecidableEq α] (l : List (α × β)) (k : α) (d : β) : β :=
  (alistGet? l k).getD d

/-- Association-list delete (Python `dict.pop(k, None)`). -/
def alistDrop {α β : Type} [DecidableEq α] (l : List (α × β)) (k : α) :
    List (α × β) :=
  match l with
  | [] => []
  | (k0, v0) :: rest =>
    if k0 = k then rest else (k0, v0) :: alistDrop rest k

def GameMap.set_hex_content (m : GameMap) (h : Hex) (c : HexContent) : GameMap :=
  { m with hexContents := alistPut m.hexContents h c }

def GameMap.get_hex_content (m : GameMap) (h : Hex) : HexContent :=
  alistGetD m.hexContents h .CLEAR

/-! ## Pathfinding (sim/pathfinding.py)

`bfs_path` keeps a FIFO frontier and a `came_from` parent map.  The
Python `while frontier:` loop terminates because each hex enters
`came_from` (and hence the frontier) at most once and the map is finite;
the embedding makes this a fuel argument with provably sufficient fuel
`bfsFuel`. -/

abbrev CameFrom := List (Hex × Option Hex)

/-- One pass of the inner `for nxt in ordered_neighbors(current)` loop:
returns the extended `came_from` map and the newly appended frontier
entries, in order. -/
def expandNode (m : GameMap) (cur : Hex) (cf : CameFrom) :
    CameFrom × List Hex :=
  (orderedNeighbors cur).foldl
    (fun acc nxt =>
      let (cf, adds) := acc
      if !(m.is_passable nxt) then (cf, adds)
      else if (alistGet? cf nxt).isSome then (cf, adds)
      else (cf ++ [(nxt, some cur)], adds ++ [nxt]))
    (cf, [])

/-- The `while frontier:` loop of `bfs_path`.  Returns the final
`came_from` map. -/
def bfsLoop (m : GameMap) (goal : Hex) :
    Nat → List Hex → CameFrom → CameFrom
  | 0, _, cf => cf
  | _ + 1, [], cf => cf
  | fuel + 1, cur :: rest, cf =>
    if cur = goal then cf
    else
      let (cf2, adds) := expandNode m cur cf
      bfsLoop m goal fuel (rest ++ adds) cf2

/-- Number of in-bounds hexes of the map. -/
def inBoundsCount (m : GameMap) : Nat :=
  (m.qMax - m.qMin + 1).toNat * (m.rMax - m.rMin + 1).toNat

/-- Sufficient fuel for `bfsLoop`: each iteration either discovers a new
hex (at most `inBoundsCount` of them) or only shrinks the frontier. -/
def bfsFuel (m : GameMap) : Nat :=
  2 * (inBoundsCount m + 2)

/-- The backwards path reconstruction loop of `bfs_path` (building
`path_rev`), with fuel; under the BFS invariant the parent chain always
reaches `start` within `cf.length` steps. -/
def reconstruct (cf : CameFrom) (start : Hex) :
    Nat → Hex → List Hex → List Hex
  | 0, _, acc => acc
  | fuel + 1, cur, acc =>
    if cur = start then acc
    else
      match alistGet? cf cur with
      | some (some p) => reconstruct cf start fuel p (cur :: acc)
      | _ => acc

/-- `bfs_path` in sim/pathfinding.py: path excluding start, including
goal; `none` when no path exists or an endpoint is impassable. -/
def bfs_path (m : GameMap) (start goal : Hex) : Option (List Hex) :=
  if start = goal then some []
  else if !(m.is_passable start) then none
  else if !(m.is_passable goal) then none
  else
    let cf := bfsLoop m goal (bfsFuel m) [start] [(start, none)]
    match alistGet? cf goal with
    | none => none
    | some _ => some (reconstruct cf start (cf.length + 1) goal [])

/-! ## Unit model (sim/units.py)

`PlayerID` is a value object wrapping a name; it is embedded as the name
string itself (equality and hashing are by name). -/

abbrev PlayerID := String

/-- `UnitType` in sim/units.py.  `upkeep_per_hull` and `cargo_minerals`
are attributes that Python code sets dynamically on some instances;
absence is modelled by `Option`. -/
structure UnitType where
  name : String
  maxGroups : Int
  movement : Int
  isCombatant : Bool
  initiative : String
  attack : Int
  defense : Int
  hull : Int
  builtinCloak : Int
  builtinSensors : Int
  canColonize : Bool
  canMine : Bool
  typeCargoMinerals : Int
  upkeepPerHull : Option Int
deriving DecidableEq, Repr

/-- `UnitGroup` in sim/units.py.  `cargo_minerals` is not set by
`__init__`; it appears on an instance only once mining (or the
deserializer) sets it, hence `Option Int` with `none` = attribute
absent. -/
structure UnitGroup where
  groupId : String
  owner : PlayerID
  unitType : UnitType
  count : Int
  location : Hex
  tactics : Int
  cloakBonus : Int
  sensorsBonus : Int
  attackBonus : Int
  defenseBonus : Int
  damage : Int
  cargoMinerals : Option Int
deriving DecidableEq, Repr

def UnitGroup.initiative (g : UnitGroup) : String := g.unitType.initiative

def UnitGroup.attack (g : UnitGroup) : Int := g.unitType.attack + g.attackBonus

def UnitGroup.defense (g : UnitGroup) : Int := g.unitType.defense + g.defenseBonus

def UnitGroup.hull (g : UnitGroup) : Int := max 1 g.unitType.hull

def UnitGroup.cloak_level (g : UnitGroup) : Int :=
  g.unitType.builtinCloak + g.cloakBonus

def UnitGroup.sensor_level (g : UnitGroup) : Int :=
  g.unitType.builtinSensors + g.sensorsBonus

def UnitGroup.movement (g : UnitGroup) : Int := g.unitType.movement

/-! ## Combat helpers (sim/combat/utils.py) -/

/-- `INIT_ORDER.get(letter, 99)`, i.e. `init_rank` in sim/combat/utils.py. -/
def initRank (letter : String) : Nat :=
  if letter = "A" then 0
  else if letter = "B" then 1
  else if letter = "C" then 2
  else if letter = "D" then 3
  else if letter = "E" then 4
  else 99

/-- `volley_sort_key` in sim/combat/utils.py. -/
def volleySortKey (g : UnitGroup) : Nat × Int × String :=
  (initRank g.initiative, -g.tactics, g.groupId)

/-- Comparison used to embed Python `list.sort(key=volley_sort_key)`:
lexicographic on (init rank, -tactics, group id). -/
def volleyKeyLe (a b : UnitGroup) : Bool :=
  let ka := volleySortKey a
  let kb := volleySortKey b
  decide (ka.1 < kb.1) ||
    (decide (ka.1 = kb.1) &&
      (decide (ka.2.1 < kb.2.1) ||
        (decide (ka.2.1 = kb.2.1) && decide (ka.2.2 ≤ kb.2.2))))

/-- `apply_hits_to_group` in sim/combat/utils.py.  The Python `while`
loop counts down `hits`, so the embedding recurses on the hit count
(`hits` entering the function is a non-negative accumulated tally).
Returns (updated group, ships destroyed, remaining unused hits). -/
def apply_hits_to_group (g : UnitGroup) (hits : Nat) : UnitGroup × Nat × Nat :=
  applyLoop g hits 0
where
  applyLoop (g : UnitGroup) : Nat → Nat → UnitGroup × Nat × Nat
    | 0, destroyed => (g, destroyed, 0)
    | hits + 1, destroyed =>
      if 0 < g.count then
        let g := { g with damage := g.damage + 1 }
        if g.hull ≤ g.damage then
          applyLoop { g with count := g.count - 1, damage := 0 } hits (destroyed + 1)
        else
          applyLoop g hits destroyed
      else (g, destroyed, hits + 1)

/-! ## Random number model

`resolve_combat` builds `random.Random(seed_material)` and consumes it
only through `rng.randint(1, 10)`.  The library generator is a
deterministic pure function of its seed; it is modelled here by a
concrete deterministic stream of d10 rolls derived from the seed string
(the exact numeric values of Python's Mersenne Twister are irrelevant to
every claim, which depend only on determinism and the 1..10 range). -/

/-- A stream of future d10 rolls. -/
abbrev Rng := Nat → Nat

def seedOfString (s : String) : Nat :=
  s.data.foldl (fun a c => (a * 131 + c.toNat) % 4294967296) 7

def lcgStep (x : Nat) : Nat := (x * 1103515245 + 12345) % 2147483648

/-- Model of `random.Random(seed).randint(1, 10)` call number `i`. -/
def mkRolls (seed : String) : Rng :=
  fun i => lcgStep^[i + 1] (seedOfString seed) % 10 + 1

/-- Take one roll off the stream. -/
def rngNext (s : Rng) : Nat × Rng :=
  (s 0, fun i => s (i + 1))

/-- The per-attacker dice loop of `resolve_combat` (resolver.py lines
191-195): each of `shots` ships rolls one d10; a roll at or above
`toHit` is a hit.  Returns the hit count and the advanced stream. -/
def countHits (toHit : Int) : Nat → Rng → Nat × Rng
  | 0, rng => (0, rng)
  | shots + 1, rng =>
    let (roll, rng) := rngNext rng
    let (rest, rng) := countHits toHit shots rng
    ((if toHit ≤ (roll : Int) then 1 else 0) + rest, rng)

/-! ## Decimal rendering

Python `str(n)` / f-string formatting of an int, embedded directly as
the standard decimal algorithm (most significant digit first, a leading
minus sign for negatives). -/

def natDigitsAux : Nat → Nat → List Char
  | 0, _ => []
  | fuel + 1, n =>
    if n < 10 then [Nat.digitChar n]
    else natDigitsAux fuel (n / 10) ++ [Nat.digitChar (n % 10)]

/-- Decimal digits of `n`, most significant first (`n + 1` fuel always
suffices since the number of digits is at most `n + 1`). -/
def natDigits (n : Nat) : List Char := natDigitsAux (n + 1) n

def natStr (n : Nat) : String := ⟨natDigits n⟩

def intStr (n : Int) : String :=
  if n < 0 then "-" ++ natStr (-n).toNat else natStr n.toNat

/-! ## Colonies (sim/colonies.py) -/

/-- `Colony` in sim/colonies.py; `minerals_delivered` is set by
`__init__`, so it is a plain field. -/
structure Colony where
  owner : PlayerID
  level : Int
  homeworld : Bool
  mineralsDelivered : Int
deriving DecidableEq, Repr

/-! ## Orders (sim/orders.py) -/

inductive Order where
  | move (groupId : String) (dest : Hex)
  | colonizeOrd (groupId : String)
  | mineOrd (groupId : String)
deriving DecidableEq, Repr

/-- Python `str(order)` (only MoveOrder reaches event strings in the
embedded pipeline). -/
def orderStr : Order → String
  | .move gid d => "move " ++ gid ++ " " ++ toString d.q ++ " " ++ toString d.r
  | .colonizeOrd gid => "colonize " ++ gid
  | .mineOrd gid => "mine " ++ gid

/-! ## Fog-of-war and marker registry (sim/turn_engine.py fields
`revealed_to`, `marker_for_viewer`, `group_for_viewer_marker`,
`next_marker_index`) -/

structure Fog where
  revealedTo : List (PlayerID × List String)
  markerFor : List (PlayerID × List (String × String))
  groupFor : List (PlayerID × List (String × String))
  nextMarkerIdx : List (PlayerID × Int)
deriving DecidableEq, Repr

def Fog.initial : Fog := ⟨[], [], [], []⟩

/-- `_ensure_viewer_tables`. -/
def ensureViewer (f : Fog) (v : PlayerID) : Fog :=
  { revealedTo :=
      if (alistGet? f.revealedTo v).isSome then f.revealedTo
      else f.revealedTo ++ [(v, [])]
    markerFor :=
      if (alistGet? f.markerFor v).isSome then f.markerFor
      else f.markerFor ++ [(v, [])]
    groupFor :=
      if (alistGet? f.groupFor v).isSome then f.groupFor
      else f.groupFor ++ [(v, [])]
    nextMarkerIdx :=
      if (alistGet? f.nextMarkerIdx v).isSome then f.nextMarkerIdx
      else f.nextMarkerIdx ++ [(v, 1)] }

/-- `is_revealed` (after `_ensure_viewer_tables`, whose only effect on
the answer is the empty default). -/
def isRevealed (f : Fog) (v : PlayerID) (gid : String) : Bool :=
  gid ∈ alistGetD f.revealedTo v []

/-- Python `set.add` on a set embedded as a duplicate-free list. -/
def listAdd {α : Type} [DecidableEq α] (l : List α) (x : α) : List α :=
  if x ∈ l then l else l ++ [x]

/-- `reveal_group_to`: reveal, then retire any marker for that
(viewer, group) pair.  Python tests the popped marker with `if m:`
(truthiness); allocated markers are never the empty string, so this is
`Option` matching. -/
def revealGroupTo (f : Fog) (v : PlayerID) (gid : String) : Fog :=
  let f := ensureViewer f v
  let f := { f with revealedTo := alistPut f.revealedTo v (listAdd (alistGetD f.revealedTo v []) gid) }
  match alistGet? (alistGetD f.markerFor v []) gid with
  | none => f
  | some m =>
    { f with
      markerFor := alistPut f.markerFor v (alistDrop (alistGetD f.markerFor v []) gid)
      groupFor := alistPut f.groupFor v (alistDrop (alistGetD f.groupFor v []) m) }

/-- ASCII uppercase, the embedding of Python `str.upper()` on the ASCII
strings that reach it. -/
def charUpper (c : Char) : Char :=
  if 97 ≤ c.toNat ∧ c.toNat ≤ 122 then Char.ofNat (c.toNat - 32) else c

def strUpper (s : String) : String := ⟨s.data.map charUpper⟩

/-- The marker token f"M{n}". -/
def markerStr (n : Int) : String := "M" ++ intStr n

/-- `get_marker_id`: return the existing marker for (viewer, group) or
allocate a fresh one.  Returns the token and the updated fog tables.
Python tests the existing marker with `if existing:`; allocated markers
are never empty, so this is `Option` matching. -/
def getMarkerId (f : Fog) (v : PlayerID) (gid : String) : String × Fog :=
  let f := ensureViewer f v
  match alistGet? (alistGetD f.markerFor v []) gid with
  | some m => (m, f)
  | none =>
    let n := alistGetD f.nextMarkerIdx v 1
    let marker := markerStr n
    let f := { f with nextMarkerIdx := alistPut f.nextMarkerIdx v (n + 1) }
    let f := { f with markerFor := alistPut f.markerFor v (alistPut (alistGetD f.markerFor v []) gid marker) }
    let f := { f with groupFor := alistPut f.groupFor v (alistPut (alistGetD f.groupFor v []) (strUpper marker) gid) }
    (marker, f)

/-! ## Game state (sim/turn_engine.py `GameState`) -/

structure GameState where
  players : List PlayerID
  activePlayer : Option PlayerID
  unitGroups : List UnitGroup
  colonies : List (Hex × Colony)
  turnNumber : Int
  log : List String
  fog : Fog
  pendingOrders : List (PlayerID × List Order)
  gameMap : GameMap
  /-- `credits` is not set by `GameState.__init__`; code that reads it
  (persistence, some tests) requires the attribute to have been added
  dynamically, hence `Option`. -/
  credits : Option (List (PlayerID × Int))
  nextGroupId : List (PlayerID × Int)
deriving Repr

def getGroup (reg : List UnitGroup) (gid : String) : Option UnitGroup :=
  reg.find? (fun g => g.groupId = gid)

def removeGroup (reg : List UnitGroup) (gid : String) : List UnitGroup :=
  reg.filter (fun g => g.groupId ≠ gid)

/-- In-place mutation of the registry entry with `g`'s id. -/
def updateGroup (reg : List UnitGroup) (g : UnitGroup) : List UnitGroup :=
  reg.map (fun g0 => if g0.groupId = g.groupId then g else g0)

/-- `groups_at`: all registry groups at a hex, in registry (insertion)
order. -/
def groupsAtReg (reg : List UnitGroup) (hx : Hex) : List UnitGroup :=
  reg.filter (fun g => g.location = hx)

def GameState.get_group (s : GameState) (gid : String) : Option UnitGroup :=
  getGroup s.unitGroups gid

def GameState.groups_at (s : GameState) (hx : Hex) : List UnitGroup :=
  groupsAtReg s.unitGroups hx

/-- The fog mutation of one viewer step of `reveal_hex_to_players`:
ensure tables, then reveal each not-yet-revealed group at the hex. -/
def revealFog (reg : List UnitGroup) (hx : Hex) (v : PlayerID) (f : Fog) : Fog :=
  (groupsAtReg reg hx).foldl
    (fun f g => if isRevealed f v g.groupId then f else revealGroupTo f v g.groupId)
    (ensureViewer f v)

/-- The per-viewer summary line of `reveal_hex_to_players`. -/
def revealSummary (reg : List UnitGroup) (hx : Hex) (v : PlayerID) : String :=
  "REVEAL to " ++ v ++ " at " ++ hexStr hx ++ ": " ++
    String.intercalate ", "
      ((groupsAtReg reg hx).map
        (fun g => g.groupId ++ ":" ++ g.unitType.name ++ "x" ++ intStr g.count))

/-- One viewer step of `reveal_hex_to_players`: reveal every group at
the hex to the viewer, then append the summary line when the hex is
occupied. -/
def revealStep (reg : List UnitGroup) (hx : Hex) (acc : List String × Fog)
    (v : PlayerID) : List String × Fog :=
  if (groupsAtReg reg hx).isEmpty then (acc.1, revealFog reg hx v acc.2)
  else (acc.1 ++ [revealSummary reg hx v], revealFog reg hx v acc.2)

/-- `reveal_hex_to_players`: reveal every group at the hex to each
viewer and emit one summary line per viewer (when the hex is occupied). -/
def revealHexToPlayers (f : Fog) (reg : List UnitGroup) (hx : Hex)
    (viewers : List PlayerID) : List String × Fog :=
  viewers.foldl (revealStep reg hx) ([], f)

/-! ## Combat resolver (sim/combat/resolver.py) -/

/-- Stable insertion sort, the embedding of Python's stable
`list.sort(key=...)`: an element is inserted before the first already
placed element it does not compare strictly after. -/
def sortedInsert {α : Type} (le : α → α → Bool) (x : α) : List α → List α
  | [] => [x]
  | y :: ys => if le x y then x :: y :: ys else y :: sortedInsert le x ys

def sortBy {α : Type} (le : α → α → Bool) : List α → List α
  | [] => []
  | x :: xs => sortedInsert le x (sortBy le xs)

/-- `alive_groups()` inside `resolve_combat`. -/
def aliveGroups (reg : List UnitGroup) (hx : Hex) : List UnitGroup :=
  (groupsAtReg reg hx).filter (fun g => 0 < g.count)

/-- `owners_present`, a Python set of owners.  Only its size and its
membership are semantically consumed (its iteration order, used for the
reveal viewer list, is unspecified hash order in Python; it is modelled
as deterministic first-occurrence order). -/
def ownersPresent (gs : List UnitGroup) : List PlayerID :=
  gs.foldl (fun acc g => listAdd acc g.owner) []

/-- The focus-fire target key: (remaining hull, defense, -attack,
group id); `focus_fire` in sim/targeting.py and the identical inline
fallback in `resolve_combat`. -/
def ffKey (g : UnitGroup) : Int × Int × Int × String :=
  (max 0 (g.hull - g.damage), g.defense, -g.attack, g.groupId)

def ffLt (a b : Int × Int × Int × String) : Bool :=
  decide (a.1 < b.1) ||
    (decide (a.1 = b.1) &&
      (decide (a.2.1 < b.2.1) ||
        (decide (a.2.1 = b.2.1) &&
          (decide (a.2.2.1 < b.2.2.1) ||
            (decide (a.2.2.1 = b.2.2.1) && decide (a.2.2.2 < b.2.2.2))))))

/-- `focus_fire` (sim/targeting.py): Python `min` with the focus-fire
key, returning the first minimum.  `GameState.__init__` installs this as
`targeting_policy`, which `resolve_combat` always finds callable. -/
def focus_fire (enemies : List UnitGroup) : Option UnitGroup :=
  match enemies with
  | [] => none
  | e :: rest => some (rest.foldl (fun best g => if ffLt (ffKey g) (ffKey best) then g else best) e)

/-- `seed_material` in `resolve_combat`:
f"{turn_number}|{q},{r}|{owner}". -/
def combatSeed (turn : Int) (hx : Hex) (owner : PlayerID) : String :=
  intStr turn ++ "|" ++ intStr hx.q ++ "," ++ intStr hx.r ++ "|" ++ owner

/-- defaultdict(int) accumulation `hits_map[tid] += hits` (entry created
even for zero hits, iteration in first-insertion order). -/
def addHits : List (String × Nat) → String → Nat → List (String × Nat)
  | [], k, n => [(k, n)]
  | (k0, v) :: rest, k, n =>
    if k0 = k then (k0, v + n) :: rest else (k0, v) :: addHits rest k n

/-- The firing half of a volley (resolver.py lines 175-201): each
attacker re-fetched live, enemies taken from the volley-start snapshot,
target chosen by the targeting policy, `count` d10 rolls consumed. -/
def volleyFire (reg snapshot : List UnitGroup) :
    List UnitGroup → Rng → List (String × Nat) → List String →
      List (String × Nat) × List String × Rng
  | [], rng, hm, ev => (hm, ev, rng)
  | a :: rest, rng, hm, ev =>
    match getGroup reg a.groupId with
    | none => volleyFire reg snapshot rest rng hm ev
    | some aLive =>
      if aLive.count ≤ 0 then volleyFire reg snapshot rest rng hm ev
      else
        let enemies := snapshot.filter (fun g => g.owner ≠ aLive.owner && 0 < g.count)
        if enemies.isEmpty then volleyFire reg snapshot rest rng hm ev
        else
          match focus_fire enemies with
          | none => volleyFire reg snapshot rest rng hm ev
          | some target =>
            let toHit := max 1 (aLive.attack - target.defense)
            let (hits, rng) := countHits toHit aLive.count.toNat rng
            let hm := addHits hm target.groupId hits
            let ev := ev ++
              ["    " ++ aLive.groupId ++ " -> " ++ target.groupId ++ ": " ++
                intStr aLive.count ++ " shot(s), to-hit " ++ intStr toHit ++
                " on d10, hits=" ++ natStr hits]
            volleyFire reg snapshot rest rng hm ev

/-- The damage-application half of a volley (resolver.py lines
203-220): accumulated hits applied per target, destruction removing the
group from the registry. -/
def applyVolleyHits : List (String × Nat) → List UnitGroup → List String →
    List UnitGroup × List String
  | [], reg, ev => (reg, ev)
  | (tid, hits) :: rest, reg, ev =>
    match getGroup reg tid with
    | none => applyVolleyHits rest reg ev
    | some t =>
      if t.count ≤ 0 then applyVolleyHits rest reg ev
      else
        let beforeCount := t.count
        let beforeDamage := t.damage
        let (t2, _destroyed, _unused) := apply_hits_to_group t hits
        let reg := updateGroup reg t2
        let ev := ev ++
          ["    " ++ tid ++ " takes " ++ natStr hits ++ " hit(s): ships " ++
            intStr beforeCount ++ "->" ++ intStr t2.count ++ ", damage " ++
            intStr beforeDamage ++ "->" ++ intStr t2.damage]
        if t2.count ≤ 0 then
          applyVolleyHits rest (removeGroup reg tid) (ev ++ ["    " ++ tid ++ " destroyed."])
        else
          applyVolleyHits rest reg ev

/-- The inner `while True` volley loop of `resolve_combat`.  The Python
loop terminates because every iteration removes at least one id from the
roster; fuel `roster.length + 1` is therefore sufficient. -/
def volleyLoop (hx : Hex) :
    Nat → List String → Nat → List UnitGroup → Rng → List String →
      List String × List UnitGroup × Rng
  | 0, _, _, reg, rng, ev => (ev, reg, rng)
  | fuel + 1, roster, vn, reg, rng, ev =>
    let roster := roster.filter (fun gid =>
      match getGroup reg gid with
      | some g => 0 < g.count
      | none => false)
    if roster.isEmpty then (ev, reg, rng)
    else if (ownersPresent (aliveGroups reg hx)).length < 2 then (ev, reg, rng)
    else
      let rosterGroups := (roster.filterMap (getGroup reg)).filter (fun g => 0 < g.count)
      match sortBy volleyKeyLe rosterGroups with
      | [] => (ev, reg, rng)
      | g0 :: tl =>
        let nextKey : Nat × Int := (initRank g0.initiative, -g0.tactics)
        let volley := (g0 :: tl).filter
          (fun g => decide ((initRank g.initiative, -g.tactics) = nextKey))
        let roster := roster.filter (fun gid => !(volley.any (fun g => g.groupId = gid)))
        let vn := vn + 1
        let header :=
          match volley with
          | [] => []
          | v0 :: _ =>
            ["  Volley " ++ natStr vn ++ ": Initiative " ++ v0.initiative ++
              ", Tactics " ++ intStr v0.tactics ++ " (" ++ natStr volley.length ++ " group(s))"]
        let ev := ev ++ header
        let snapshot := aliveGroups reg hx
        let (hm, ev, rng) := volleyFire reg snapshot volley rng [] ev
        let (reg, ev) := applyVolleyHits hm reg ev
        volleyLoop hx fuel roster vn reg rng ev

/-- The outer round loop of `resolve_combat`: rounds run until fewer
than two owners remain or the 50-round safety cap trips; fuel 51 covers
every reachable iteration. -/
def roundsLoop (hx : Hex) :
    Nat → Nat → List UnitGroup → Rng → List String →
      List String × List UnitGroup × Rng
  | 0, _, reg, rng, ev => (ev, reg, rng)
  | fuel + 1, roundNum, reg, rng, ev =>
    if (ownersPresent (aliveGroups reg hx)).length < 2 then (ev, reg, rng)
    else
      let roundNum := roundNum + 1
      if 50 < roundNum then
        (ev ++ ["Combat at " ++ hexStr hx ++ " aborted after 50 rounds (safety stop)."],
          reg, rng)
      else
        let ev := ev ++ ["Round " ++ natStr roundNum ++ " begins."]
        let roster := (aliveGroups reg hx).map (fun g => g.groupId)
        let (ev, reg, rng) := volleyLoop hx (roster.length + 1) roster 0 reg rng ev
        roundsLoop hx fuel roundNum reg rng (ev ++ ["Round " ++ natStr roundNum ++ " ends."])

/-- The combat core: everything `resolve_combat` does after the reveal,
a function of the turn number, the registry, the triggering owner and
the hex only. -/
def combatCore (turn : Int) (reg : List UnitGroup) (attackerOwner : PlayerID)
    (hx : Hex) : List String × List UnitGroup :=
  ((roundsLoop hx 51 0 reg (mkRolls (combatSeed turn hx attackerOwner)) []).1 ++
      ["Combat at " ++ hexStr hx ++ " ends."],
    (roundsLoop hx 51 0 reg (mkRolls (combatSeed turn hx attackerOwner)) []).2.1)

/-- `resolve_combat` in sim/combat/resolver.py (as called through
`GameState.resolve_combat`): returns the event list and the updated
state.  The reveal touches only the fog tables and its events depend
only on the groups present; the rounds read only the turn number (seed)
and the registry. -/
def resolve_combat (s : GameState) (attackerOwner : PlayerID) (hx : Hex) :
    List String × GameState :=
  if (ownersPresent (aliveGroups s.unitGroups hx)).length < 2 then
    (["Combat at " ++ hexStr hx ++ " had no opposing sides."], s)
  else
    ((revealHexToPlayers s.fog s.unitGroups hx
        (ownersPresent (aliveGroups s.unitGroups hx))).1 ++
      (combatCore s.turnNumber s.unitGroups attackerOwner hx).1,
      { s with
        unitGroups := (combatCore s.turnNumber s.unitGroups attackerOwner hx).2
        fog := (revealHexToPlayers s.fog s.unitGroups hx
          (ownersPresent (aliveGroups s.unitGroups hx))).2 })

/-- A battle collected by `collect_battles` (sim/combat/resolver.py). -/
structure Battle where
  location : Hex
  owners : List PlayerID
  groupsByOwner : List (PlayerID × List UnitGroup)
deriving Repr

/-- Python `sorted(combat_sites, key=lambda h: (h.q, h.r))`. -/
def hexLe (a b : Hex) : Bool :=
  decide (a.q < b.q) || (decide (a.q = b.q) && decide (a.r ≤ b.r))

/-- `groups_by_owner.setdefault(owner, []).append(g)` accumulation. -/
def groupsByOwnerOf (gs : List UnitGroup) : List (PlayerID × List UnitGroup) :=
  gs.foldl (fun acc g => alistPut acc g.owner (alistGetD acc g.owner [] ++ [g])) []

/-- `collect_battles`: per contested hex (in sorted order), a battle
only when at least two distinct owners have a combatant group present.
The Python `combatant_owners` set is modelled in first-occurrence
order. -/
def collect_battles (s : GameState) (combatSites : List Hex) : List Battle :=
  (sortBy hexLe combatSites).foldl
    (fun battles hx =>
      let groups := s.groups_at hx
      if groups.isEmpty then battles
      else
        let byOwner := groupsByOwnerOf groups
        let combatantOwners :=
          (byOwner.filter (fun ow => ow.2.any (fun g => g.unitType.isCombatant))).map
            (fun ow => ow.1)
        if combatantOwners.length < 2 then battles
        else battles ++ [⟨hx, combatantOwners, byOwner⟩])
    []

/-! ## Interception and the movement phase (sim/turn_engine.py) -/

inductive InterceptionOutcome where
  | STOP_AND_MARK_COMBAT
  | PASS_THROUGH
  | PASS_THROUGH_DESTROY_NONCOMBAT
deriving DecidableEq, Repr

/-- `_all_noncombat`. -/
def allNoncombat (gs : List UnitGroup) : Bool :=
  gs.all (fun g => !g.unitType.isCombatant)

/-- `max((g.sensor_level for g in enemy_groups), default=0)`: the
default applies only to an empty sequence; a nonempty maximum starts
from the first element. -/
def maxSensorLevel (gs : List UnitGroup) : Int :=
  match gs with
  | [] => 0
  | g :: rest => rest.foldl (fun m x => max m x.sensor_level) g.sensor_level

/-- `GameState.interception_policy`. -/
def interception_policy (mover : UnitGroup) (enemyGroups : List UnitGroup) :
    InterceptionOutcome :=
  if allNoncombat enemyGroups then .PASS_THROUGH_DESTROY_NONCOMBAT
  else if maxSensorLevel enemyGroups < mover.cloak_level then .PASS_THROUGH
  else .STOP_AND_MARK_COMBAT

/-- Python `repr` of a list of hexes, e.g. `[(1,0), (2,0)]`. -/
def listHexStr (p : List Hex) : String :=
  "[" ++ String.intercalate ", " (p.map hexStr) ++ "]"

/-- Python `repr` of a list of strings (single-quoted items). -/
def pyStrListStr (xs : List String) : String :=
  let quote := String.singleton (Char.ofNat 39)
  "[" ++ String.intercalate ", " (xs.map (fun x => quote ++ x ++ quote)) ++ "]"

/-- Result tuple of `apply_move_movement_phase`. -/
structure MoveOut where
  ok : Bool
  msg : String
  finalHex : Hex
  combatSites : List Hex
  notes : List String
deriving DecidableEq, Repr

/-- The step-by-step walk inside `apply_move_movement_phase` (lines
319-350): one hex per step, debug log lines, interception policy on
enemy contact. -/
def walkSteps (mover : UnitGroup) (start dest : Hex)
    (pathLine : String) : List Hex → List String → GameState →
      MoveOut × GameState
  | [], notes, s =>
    (⟨true, "Moved " ++ mover.groupId ++ " to " ++ hexStr dest ++ ".", dest, [], notes⟩,
      { s with log := s.log ++
          [mover.groupId ++ " moved from " ++ hexStr start ++ " to " ++ hexStr dest ++ "."] })
  | stepHex :: rest, notes, s =>
    let mover := { mover with location := stepHex }
    let reg := updateGroup s.unitGroups mover
    let s := { s with unitGroups := reg }
    let occ := (groupsAtReg reg stepHex).map (fun g => g.groupId)
    let s := { s with log := s.log ++
        ["DEBUG path " ++ mover.groupId ++ ": " ++ pathLine,
         "DEBUG step=" ++ hexStr stepHex ++ " occ=" ++ pyStrListStr occ] }
    let enemiesHere := (groupsAtReg reg stepHex).filter (fun x => x.owner ≠ mover.owner)
    if enemiesHere.isEmpty then
      walkSteps mover start dest pathLine rest notes s
    else
      match interception_policy mover enemiesHere with
      | .PASS_THROUGH =>
        walkSteps mover start dest pathLine rest notes s
      | .PASS_THROUGH_DESTROY_NONCOMBAT =>
        let destroyNotes := enemiesHere.map (fun e =>
          e.groupId ++ " destroyed during interception at " ++ hexStr stepHex ++ ".")
        let s := { s with
          log := s.log ++ destroyNotes
          unitGroups := enemiesHere.foldl (fun r e => removeGroup r e.groupId) s.unitGroups }
        walkSteps mover start dest pathLine rest (notes ++ destroyNotes) s
      | .STOP_AND_MARK_COMBAT =>
        (⟨true, mover.groupId ++ " halted at " ++ hexStr stepHex ++ " (combat pending).",
            stepHex, [stepHex], notes⟩,
          { s with log := s.log ++
              [mover.groupId ++ " halted by enemy contact at " ++ hexStr stepHex ++
                " (combat pending)."] })

/-- `apply_move_movement_phase`: BFS path, may stop on enemy contact,
never resolves combat. -/
def apply_move_movement_phase (s : GameState) (gid : String) (dest : Hex) :
    MoveOut × GameState :=
  match getGroup s.unitGroups gid with
  | none => (⟨false, "No such group.", dest, [], []⟩, s)
  | some g =>
    if s.activePlayer ≠ some g.owner then
      (⟨false, "You don't control that group.", g.location, [], []⟩, s)
    else
      let start := g.location
      if start = dest then
        (⟨false, g.groupId ++ " is already at " ++ hexStr dest ++ ".", start, [], []⟩, s)
      else
        match bfs_path s.gameMap start dest with
        | none =>
          (⟨false, "No path to " ++ hexStr dest ++ " (blocked or out of bounds).",
              start, [], []⟩, s)
        | some path =>
          if g.movement < (path.length : Int) then
            (⟨false, "Out of range via path (steps " ++ natStr path.length ++
                ", movement " ++ intStr g.movement ++ ").", start, [], []⟩, s)
          else
            walkSteps g start dest (listHexStr path) path [] s

/-! ## Exploration and end-of-turn actions (sim/turn_engine.py) -/

/-- `GameState.try_colonize`.  Threads the still-live Python object `g`
(aliased with its registry slot while present) beside the state. -/
def tryColonize (g : UnitGroup) (hx : Hex) (content : HexContent)
    (s : GameState) : List String × UnitGroup × GameState :=
  if !g.unitType.canColonize then ([], g, s)
  else if content ≠ .PLANET_STANDARD && content ≠ .PLANET_BARREN then ([], g, s)
  else if (alistGet? s.colonies hx).isSome then ([], g, s)
  else if content = .PLANET_BARREN then ([], g, s)  -- player_has_terraforming is always False
  else
    let s := { s with colonies := alistPut s.colonies hx ⟨g.owner, 0, false, 0⟩ }
    let g := { g with count := g.count - 1 }
    let s := { s with unitGroups := updateGroup s.unitGroups g }
    let ev := [g.groupId ++ " colonized " ++ hexStr hx ++
      ": colony established (Level 0), 1 ship consumed."]
    if g.count ≤ 0 then
      (ev ++ [g.groupId ++ " removed (no ships remain)."], g,
        { s with unitGroups := removeGroup s.unitGroups g.groupId })
    else (ev, g, s)

/-- `GameState.try_pickup_minerals`. -/
def tryPickupMinerals (g : UnitGroup) (hx : Hex) (content : HexContent)
    (s : GameState) : List String × UnitGroup × GameState :=
  if !g.unitType.canMine then ([], g, s)
  else if content ≠ .MINERALS then ([], g, s)
  else
    let cargo := g.cargoMinerals.getD 0
    let capacity := max 0 g.count
    if capacity ≤ cargo then ([], g, s)
    else
      let g := { g with cargoMinerals := some (cargo + 1) }
      let s := { s with unitGroups := updateGroup s.unitGroups g }
      let s := { s with gameMap := s.gameMap.set_hex_content hx .CLEAR }
      ([g.groupId ++ " picked up minerals at " ++ hexStr hx ++ " (cargo " ++
          intStr (cargo + 1) ++ "/" ++ intStr capacity ++ ")."], g, s)

/-- `GameState.try_deliver_minerals`. -/
def tryDeliverMinerals (g : UnitGroup) (hx : Hex) (s : GameState) :
    List String × UnitGroup × GameState :=
  let cargo := g.cargoMinerals.getD 0
  if cargo ≤ 0 then ([], g, s)
  else
    match alistGet? s.colonies hx with
    | none => ([], g, s)
    | some col =>
      if col.owner ≠ g.owner then ([], g, s)
      else
        let col := { col with mineralsDelivered := col.mineralsDelivered + cargo }
        let s := { s with colonies := alistPut s.colonies hx col }
        let g := { g with cargoMinerals := some 0 }
        let s := { s with unitGroups := updateGroup s.unitGroups g }
        ([g.groupId ++ " delivered " ++ intStr cargo ++ " mineral load(s) to colony at " ++
            hexStr hx ++ "."], g, s)

/-- `GameState.resolve_end_of_turn_hex_actions` (auto colonize, auto
mine, auto deliver; the should hooks always answer yes). -/
def resolveEndOfTurnHexActions (g : UnitGroup) (s : GameState) :
    List String × GameState :=
  let hx := g.location
  if !(s.gameMap.is_explored hx) then ([], s)
  else
    let content := s.gameMap.get_hex_content hx
    let (ev1, g, s) := tryColonize g hx content s
    let (ev2, g, s) := tryPickupMinerals g hx content s
    let (ev3, _g, s) := tryDeliverMinerals g hx s
    (ev1 ++ ev2 ++ ev3, s)

/-- `GameState.resolve_exploration_hex`.  The supernova branch calls
`self.get_previous_hex(explorer)` and `self.game_map.block_hex(hex_)`;
neither method exists anywhere in the repository (GameState and GameMap
are fully defined in src and define neither, and nothing stores a
previous hex), so reaching it raises `AttributeError`, embedded as
`Except.error`. -/
def resolveExplorationHex (s : GameState) (hx : Hex) :
    Except String (List String × GameState) :=
  let content := s.gameMap.get_hex_content hx
  let ev0 := ["Exploration at " ++ hexStr hx ++ ": " ++ content.name]
  match content with
  | .HOMEWORLD => .ok (ev0, s)
  | .PLANET_STANDARD => .ok (ev0 ++ ["  Discovered habitable planet."], s)
  | .PLANET_BARREN => .ok (ev0 ++ ["  Discovered barren planet."], s)
  | .SUPERNOVA =>
    .error "AttributeError: GameState object has no attribute get_previous_hex"
  | .MINERALS => .ok (ev0 ++ ["  Mineral deposit discovered."], s)
  | .HORROR =>
    let doomed := (groupsAtReg s.unitGroups hx).map (fun g => g.groupId)
    let s := { s with unitGroups := doomed.foldl removeGroup s.unitGroups }
    .ok (ev0 ++ ["  HORROR! All units destroyed."],
      { s with gameMap := s.gameMap.set_hex_content hx .CLEAR })
  | .CLEAR => .ok (ev0 ++ ["  Empty space."], s)

/-- The body of `resolve_exploration_phase`, iterating over a snapshot
of the registry ids. -/
def explorationGo : List String → GameState → List Hex →
    Except String (List Hex × GameState)
  | [], s, acc => .ok (acc, s)
  | gid :: rest, s, acc =>
    match getGroup s.unitGroups gid with
    | none => explorationGo rest s acc
    | some g =>
      let hx := g.location
      let step : Except String (List Hex × GameState) :=
        if !(s.gameMap.is_explored hx) then
          match resolveExplorationHex s hx with
          | .error e => .error e
          | .ok (ev, s) =>
            .ok (acc ++ [hx],
              { s with gameMap := s.gameMap.set_explored hx, log := s.log ++ ev })
        else .ok (acc, s)
      match step with
      | .error e => .error e
      | .ok (acc, s) =>
        match getGroup s.unitGroups gid with
        | none => explorationGo rest s acc
        | some gLive =>
          let (ev, s) := resolveEndOfTurnHexActions gLive s
          explorationGo rest { s with log := s.log ++ ev } acc

/-- `GameState.resolve_exploration_phase`. -/
def resolveExplorationPhase (s : GameState) :
    Except String (List Hex × GameState) :=
  explorationGo (s.unitGroups.map (fun g => g.groupId)) s []

/-! ## Turn rotation and submission (sim/turn_engine.py) -/

/-- `GameState.end_turn`: advance the active player; bump the turn
counter when wrapping to the first player.  `players.index` raises when
the active player is missing, embedded as `Except.error`. -/
def end_turn (s : GameState) : Except String GameState :=
  match s.activePlayer with
  | none => .error "ValueError: None is not in list"
  | some a =>
    match s.players.indexOf? a with
    | none => .error "ValueError: player is not in list"
    | some idx =>
      let nxt := s.players.get! ((idx + 1) % s.players.length)
      let s := { s with activePlayer := some nxt }
      if s.players.head? = some nxt then
        .ok { s with turnNumber := s.turnNumber + 1 }
      else .ok s

/-- `GameState.find_contested_hexes`: hexes occupied by two or more
owners, in first-occupancy order (the Python result is a set consumed
only through a sorted iteration downstream). -/
def findContestedHexes (s : GameState) : List Hex :=
  let byHex := s.unitGroups.foldl
    (fun acc g => alistPut acc g.location (listAdd (alistGetD acc g.location []) g.owner))
    ([] : List (Hex × List PlayerID))
  (byHex.filter (fun p => 2 ≤ p.2.length)).map (fun p => p.1)

/-- The movement-phase fold of `submit_orders` over the queued orders
(only Move orders act; others are silently skipped by the
`isinstance` check). -/
def movementPhase : List Order → Nat → GameState → List String → List Hex →
    GameState × List String × List Hex
  | [], _, s, ev, sites => (s, ev, sites)
  | o :: rest, idx, s, ev, sites =>
    match o with
    | .move gid dest =>
      let (out, s) := apply_move_movement_phase s gid dest
      let ev := ev ++ ["  " ++ natStr idx ++ ". " ++ orderStr o ++ " -> " ++ out.msg]
      let ev := ev ++ out.notes.map (fun n => "     " ++ n)
      movementPhase rest (idx + 1) s ev (out.combatSites.foldl listAdd sites)
    | _ => movementPhase rest (idx + 1) s ev sites

/-- The phased pipeline of `submit_orders` past the empty-queue check:
movement, combat convergence and resolution, exploration, rotation. -/
def submitBody (s : GameState) (a : PlayerID) (orders : List Order) :
    Except String (List String × GameState) :=
  let ev := ["SUBMIT: " ++ a ++ " (" ++ natStr orders.length ++ " order(s))",
             "PHASE: Movement"]
  let (s, ev, moveSites) := movementPhase orders 1 s ev []
  let s := { s with pendingOrders := alistPut s.pendingOrders a [] }
  let contested := findContestedHexes s
  let combatSites := contested.foldl listAdd moveSites
  let ev := ev ++ ["PHASE: Combat"]
  let battles := collect_battles s combatSites
  let (s, ev) :=
    if battles.isEmpty then (s, ev ++ ["  (no battles)"])
    else
      battles.foldl
        (fun acc b =>
          let (s, ev) := acc
          let ev := ev ++ ["  Combat at " ++ hexStr b.location]
          let (cev, s) := resolve_combat s a b.location
          (s, ev ++ cev.map (fun e => "    " ++ e)))
        (s, ev)
  let ev := ev ++ ["PHASE: Exploration"]
  match resolveExplorationPhase s with
  | .error e => .error e
  | .ok (explored, s) =>
    let ev := ev ++ explored.map (fun hx => "  Explored " ++ hexStr hx)
    let s := { s with log := s.log ++ ev }
    match end_turn s with
    | .error e => .error e
    | .ok s =>
      .ok (ev ++ ["Now active: " ++ (s.activePlayer.getD "")], s)

/-- `GameState.submit_orders`: the phased pipeline (movement, combat,
exploration, rotation).  An empty queue returns early.  Exploration can
raise (supernova), propagating out of the submission. -/
def submit_orders (s : GameState) : Except String (List String × GameState) :=
  match s.activePlayer with
  | none => .ok (["No orders to submit."], s)
  | some a =>
    let s :=
      if (alistGet? s.pendingOrders a).isSome then s
      else { s with pendingOrders := s.pendingOrders ++ [(a, [])] }
    let orders := alistGetD s.pendingOrders a []
    if orders.isEmpty then .ok (["No orders to submit."], s)
    else submitBody s a orders

/-! ## Persistence (sim/persistence.py)

The JSON dict produced by `game_to_dict` is embedded as the typed
`Snapshot` structure below (each Python dict key is a field).  String
keys for hexes keep the `f"{q},{r}"` encoding. -/

def hexKey (h : Hex) : String := intStr h.q ++ "," ++ intStr h.r

/-- `_hex_from_key`: `s.split(",", 1)` then `int(...)`.  Total model:
the serializer only ever produces well-formed `q,r` keys, on which
`String.toInt?` succeeds; the `getD 0` default is unreachable from
serializer output. -/
def hexFromKey (s : String) : Hex :=
  match s.splitOn "," with
  | [a, b] => ⟨(a.toInt?).getD 0, (b.toInt?).getD 0⟩
  | a :: rest => ⟨(a.toInt?).getD 0, ((String.intercalate "," rest).toInt?).getD 0⟩
  | _ => ⟨0, 0⟩

structure UnitTypeDict where
  name : String
  maxGroups : Int
  movement : Int
  isCombatant : Bool
  initiative : String
  attack : Int
  defense : Int
  hull : Int
  builtinCloak : Int
  builtinSensors : Int
  canColonize : Bool
  canMine : Bool
  upkeepPerHull : Int
deriving DecidableEq, Repr

/-- `_unit_type_to_dict`. -/
def unitTypeToDict (ut : UnitType) : UnitTypeDict :=
  { name := ut.name, maxGroups := ut.maxGroups, movement := ut.movement
    isCombatant := ut.isCombatant, initiative := ut.initiative
    attack := ut.attack, defense := ut.defense, hull := ut.hull
    builtinCloak := ut.builtinCloak, builtinSensors := ut.builtinSensors
    canColonize := ut.canColonize, canMine := ut.canMine
    upkeepPerHull := ut.upkeepPerHull.getD (if ut.isCombatant then 1 else 0) }

/-- `_unit_type_from_dict` (`upkeep_per_hull` is always present in
serializer output, so it is restored). -/
def unitTypeFromDict (d : UnitTypeDict) : UnitType :=
  { name := d.name, maxGroups := d.maxGroups, movement := d.movement
    isCombatant := d.isCombatant, initiative := d.initiative
    attack := d.attack, defense := d.defense, hull := d.hull
    builtinCloak := d.builtinCloak, builtinSensors := d.builtinSensors
    canColonize := d.canColonize, canMine := d.canMine
    typeCargoMinerals := 0
    upkeepPerHull := some d.upkeepPerHull }

structure GroupDict where
  groupId : String
  owner : String
  unitType : UnitTypeDict
  count : Int
  location : String
  tactics : Int
  cloakBonus : Int
  sensorsBonus : Int
  attackBonus : Int
  defenseBonus : Int
  damage : Int
  cargoMinerals : Int
deriving DecidableEq, Repr

/-- `_group_to_dict`: cargo falls back to the unit type's
`cargo_minerals` attribute when the group instance has none. -/
def groupToDict (g : UnitGroup) : GroupDict :=
  { groupId := g.groupId, owner := g.owner, unitType := unitTypeToDict g.unitType
    count := g.count, location := hexKey g.location
    tactics := g.tactics, cloakBonus := g.cloakBonus, sensorsBonus := g.sensorsBonus
    attackBonus := g.attackBonus, defenseBonus := g.defenseBonus
    damage := g.damage
    cargoMinerals := g.cargoMinerals.getD g.unitType.typeCargoMinerals }

/-- `_group_from_dict`: the fresh `UnitGroup` never has a
`cargo_minerals` attribute (sim/units.py `__init__` does not set one),
so the `if hasattr(g, "cargo_minerals")` restore branch never runs. -/
def groupFromDict (d : GroupDict) : UnitGroup :=
  let g : UnitGroup :=
    { groupId := d.groupId, owner := d.owner, unitType := unitTypeFromDict d.unitType
      count := d.count, location := hexFromKey d.location
      tactics := d.tactics, cloakBonus := d.cloakBonus, sensorsBonus := d.sensorsBonus
      attackBonus := d.attackBonus, defenseBonus := d.defenseBonus
      damage := 0, cargoMinerals := none }
  let g := { g with damage := d.damage }
  if g.cargoMinerals.isSome then { g with cargoMinerals := some d.cargoMinerals } else g

structure MapDict where
  qMin : Int
  qMax : Int
  rMin : Int
  rMax : Int
  blocked : List String
  explored : List String
  hexContents : List (String × String)
deriving DecidableEq, Repr

def strLe (a b : String) : Bool := decide (a < b) || decide (a = b)

/-- `_map_to_dict` (blocked/explored sorted; contents in dict order). -/
def mapToDict (m : GameMap) : MapDict :=
  { qMin := m.qMin, qMax := m.qMax, rMin := m.rMin, rMax := m.rMax
    blocked := sortBy strLe (m.blocked.map hexKey)
    explored := sortBy strLe (m.explored.map hexKey)
    hexContents := m.hexContents.map (fun p => (hexKey p.1, p.2.name)) }

def contentFromName (s : String) : Option HexContent :=
  if s = "HOMEWORLD" then some .HOMEWORLD
  else if s = "PLANET_STANDARD" then some .PLANET_STANDARD
  else if s = "PLANET_BARREN" then some .PLANET_BARREN
  else if s = "MINERALS" then some .MINERALS
  else if s = "SUPERNOVA" then some .SUPERNOVA
  else if s = "HORROR" then some .HORROR
  else if s = "CLEAR" then some .CLEAR
  else none

/-- `_map_from_dict` (`HexContent[v]` raises `KeyError` on an unknown
name). -/
def mapFromDict (d : MapDict) : Except String GameMap :=
  let m : GameMap :=
    { qMin := d.qMin, qMax := d.qMax, rMin := d.rMin, rMax := d.rMax
      blocked := [], explored := [], hexContents := [] }
  let m := { m with blocked := d.blocked.foldl (fun l s => listAdd l (hexFromKey s)) [] }
  let m := { m with explored := d.explored.foldl (fun l s => listAdd l (hexFromKey s)) [] }
  d.hexContents.foldl
    (fun acc p =>
      match acc with
      | .error e => .error e
      | .ok m =>
        match contentFromName p.2 with
        | none => .error ("KeyError: " ++ p.2)
        | some c => .ok { m with hexContents := alistPut m.hexContents (hexFromKey p.1) c })
    (.ok m)

structure ColonyDict where
  location : String
  owner : String
  level : Int
  homeworld : Bool
  mineralsDelivered : Int
deriving DecidableEq, Repr

def colonyToDict (loc : Hex) (c : Colony) : ColonyDict :=
  { location := hexKey loc, owner := c.owner, level := c.level
    homeworld := c.homeworld, mineralsDelivered := c.mineralsDelivered }

/-- `_colony_from_dict` (Colony.__init__ always sets
`minerals_delivered`, so the restore guard passes). -/
def colonyFromDict (d : ColonyDict) : Hex × Colony :=
  (hexFromKey d.location,
    { owner := d.owner, level := d.level, homeworld := d.homeworld
      mineralsDelivered := d.mineralsDelivered })

structure OrderDict where
  type : String
  groupId : String
  dest : Option String
deriving DecidableEq, Repr

/-- `_orders_to_list`. -/
def ordersToList (orders : List Order) : List OrderDict :=
  orders.map (fun o =>
    match o with
    | .move gid dest => ⟨"move", gid, some (hexKey dest)⟩
    | .colonizeOrd gid => ⟨"colonize", gid, none⟩
    | .mineOrd gid => ⟨"mine", gid, none⟩)

/-- `_orders_from_list` (ColonizeOrder and MineOrder both exist in
sim/orders.py, so their branches succeed; unknown types are dropped). -/
def ordersFromList (items : List OrderDict) : List Order :=
  items.foldl
    (fun acc it =>
      if it.type = "move" then acc ++ [.move it.groupId (hexFromKey (it.dest.getD ""))]
      else if it.type = "colonize" then acc ++ [.colonizeOrd it.groupId]
      else if it.type = "mine" then acc ++ [.mineOrd it.groupId]
      else acc)
    []

structure Snapshot where
  schemaVersion : Int
  players : List String
  activePlayer : String
  turnNumber : Int
  roundNumber : Int
  credits : List (String × Int)
  map : MapDict
  groups : List GroupDict
  colonies : List ColonyDict
  revealedTo : List (String × List String)
  markerFor : List (String × List (String × String))
  groupFor : List (String × List (String × String))
  nextMarkerIdx : List (String × Int)
  pendingOrders : List (String × List OrderDict)
  log : List String
  nextGroupId : List (String × Int)
  nextUnitGroupId : List (String × Int)
deriving Repr

/-- `game_to_dict`: raises when `active_player` is unset and reads
`game.credits`, which `GameState.__init__` never creates (AttributeError
unless a collaborator added it).  `round_number` and
`next_unit_group_id` are likewise absent from GameState, so their
`getattr` defaults (1 and `{}`) are serialized. -/
def game_to_dict (s : GameState) : Except String Snapshot :=
  match s.activePlayer with
  | none => .error "ValueError: GameState.active_player must be set to serialize."
  | some active =>
    match s.credits with
    | none => .error "AttributeError: GameState object has no attribute credits"
    | some credits =>
      .ok
        { schemaVersion := 1
          players := s.players
          activePlayer := active
          turnNumber := s.turnNumber
          roundNumber := 1
          credits := credits
          map := mapToDict s.gameMap
          groups := (sortBy strLe (s.unitGroups.map (fun g => g.groupId))).filterMap
            (fun gid => (getGroup s.unitGroups gid).map groupToDict)
          colonies := (sortBy (fun a b => hexLe a.1 b.1) s.colonies).map
            (fun p => colonyToDict p.1 p.2)
          revealedTo := s.fog.revealedTo.map (fun p => (p.1, sortBy strLe p.2))
          markerFor := s.fog.markerFor
          groupFor := s.fog.groupFor
          nextMarkerIdx := s.fog.nextMarkerIdx
          pendingOrders := s.pendingOrders.map (fun p => (p.1, ordersToList p.2))
          log := s.log
          nextGroupId := s.nextGroupId
          nextUnitGroupId := [] }

/-- `game_from_dict`: rejects an unknown schema version, then rebuilds
a fresh GameState (whose `__init__` installs the default map and empty
tables) field by field. -/
def game_from_dict (d : Snapshot) : Except String GameState :=
  if d.schemaVersion ≠ 1 then
    .error ("Unsupported schema_version: " ++ intStr d.schemaVersion)
  else
    match mapFromDict d.map with
    | .error e => .error e
    | .ok gm =>
      .ok
        { players := d.players
          activePlayer := some d.activePlayer
          turnNumber := d.turnNumber
          unitGroups := d.groups.map groupFromDict
          colonies := d.colonies.foldl
            (fun acc cd =>
              let (loc, c) := colonyFromDict cd
              alistPut acc loc c) []
          log := d.log
          fog :=
            { revealedTo := d.revealedTo
              markerFor := d.markerFor
              groupFor := d.groupFor
              nextMarkerIdx := d.nextMarkerIdx }
          pendingOrders := d.pendingOrders.map (fun p => (p.1, ordersFromList p.2))
          credits := some d.credits
          gameMap := gm
          nextGroupId := d.nextGroupId }

/-! ## Concrete fixtures used by witnesses and counterexamples -/

/-- Unit-type literal helper (all tests below share this shape). -/
def mkUT (nm : String) (combat : Bool) (init : String) (atk dfs hl : Int) : UnitType :=
  { name := nm, maxGroups := 99, movement := 3, isCombatant := combat
    initiative := init, attack := atk, defense := dfs, hull := hl
    builtinCloak := 0, builtinSensors := 0, canColonize := false, canMine := false
    typeCargoMinerals := 0, upkeepPerHull := none }

def mkGrp (gid : String) (ow : PlayerID) (ut : UnitType) (cnt : Int) (loc : Hex) :
    UnitGroup :=
  { groupId := gid, owner := ow, unitType := ut, count := cnt, location := loc
    tactics := 0, cloakBonus := 0, sensorsBonus := 0, attackBonus := 0
    defenseBonus := 0, damage := 0, cargoMinerals := none }

def emptyMap11 : GameMap :=
  { qMin := -5, qMax := 5, rMin := -5, rMax := 5
    blocked := [], explored := [], hexContents := [] }

/-- A fresh `GameState()` (sim/turn_engine.py `__init__`) with the given
players, active player and groups. -/
def mkState (ps : List PlayerID) (ap : Option PlayerID) (gs : List UnitGroup) :
    GameState :=
  { players := ps, activePlayer := ap, unitGroups := gs, colonies := []
    turnNumber := 1, log := [], fog := Fog.initial, pendingOrders := []
    gameMap := emptyMap11, credits := none, nextGroupId := [] }

/-- C2 fixture: a two-ship hull-3 group. -/
def fixC2 : UnitGroup := mkGrp "T1" "B" (mkUT "Battleship" true "A" 5 2 3) 2 ⟨0, 0⟩

/-- C8/C1 fixture: a combatant that can never hit (attack 11, to-hit 11
on a d10) against a non-combatant decoy whose attack 0 yields to-hit 1
(a guaranteed hit), so the battle transcript is independent of the
modelled roll values; hull 1 ends the battle in one round. -/
def fixA : UnitGroup := mkGrp "A1" "A" (mkUT "A_ship" true "A" 11 0 1) 1 ⟨0, 0⟩

def fixDecoy : UnitGroup := mkGrp "B1" "B" (mkUT "Decoy" false "E" 0 0 1) 1 ⟨0, 0⟩

def fixBattleState : GameState := mkState ["A", "B"] (some "A") [fixA, fixDecoy]

/-- Same turn number and registry as `fixBattleState` but different
log, fog tables, colonies and credits. -/
def fixBattleState2 : GameState :=
  { fixBattleState with
    log := ["noise"]
    fog := ensureViewer Fog.initial "C"
    credits := some [("A", 30)]
    colonies := [(⟨3, 3⟩, ⟨"A", 1, true, 0⟩)] }

/-- C9 fixture: a lone explorer sitting on an unexplored supernova
hex. -/
def fixSupernovaState : GameState :=
  let base := mkState ["A", "B"] (some "A") [mkGrp "A1" "A" (mkUT "Scout" true "E" 3 0 1) 1 ⟨1, 0⟩]
  { base with gameMap := { base.gameMap with hexContents := [(⟨1, 0⟩, .SUPERNOVA)] } }

/-- C7 fixture: two players, an empty pending queue for the active
player. -/
def fixEmptyQueueState : GameState :=
  let base := mkState ["A", "B"] (some "A")
    [mkGrp "A1" "A" (mkUT "Battleship" true "B" 4 3 3) 3 ⟨0, 0⟩,
     mkGrp "B1" "B" (mkUT "Decoy" false "E" 0 0 1) 1 ⟨2, 0⟩]
  { base with pendingOrders := [("A", [])] }

/-- Round trip through the serializer, `game_from_dict(game_to_dict(g))`. -/
def roundTrip (s : GameState) : Except String GameState :=
  (game_to_dict s).bind game_from_dict

/-- C6 fixture: a serializable state (active player and credits set)
whose group carries one mineral cargo load. -/
def fixCargoState : GameState :=
  let g := { mkGrp "A1" "A" (mkUT "Miner" false "E" 0 0 1) 2 ⟨0, 0⟩ with
    cargoMinerals := some 1 }
  { mkState ["A", "B"] (some "A") [g] with credits := some [("A", 5), ("B", 10)] }

/-- The error payload of an `Except`, if any. -/
def errOf {α : Type} : Except String α → Option String
  | .error e => some e
  | .ok _ => none

/-- Rewrites every group's combatant flag according to `f`; used to
state that combat resolution never consults the flag. -/
def setCombatFlag (f : String → Bool) (g : UnitGroup) : UnitGroup :=
  { g with unitType := { g.unitType with isCombatant := f g.groupId } }

/-! ## Marker operation traces

A `MarkerOp` is one viewer-level operation on the fog-of-war marker
tables: a `get_marker_id` query or a `reveal_group_to` call.  Traces of
these operations quantify over every reachable table state. -/

inductive MarkerOp where
  | query (v : PlayerID) (gid : String)
  | reveal (v : PlayerID) (gid : String)
deriving DecidableEq, Repr

def applyMarkerOp (f : Fog) : MarkerOp → Fog
  | .query v gid => (getMarkerId f v gid).2
  | .reveal v gid => revealGroupTo f v gid

def runMarkerOps (ops : List MarkerOp) : Fog :=
  ops.foldl applyMarkerOp Fog.initial

/-- The `(viewer, token, group)` allocation events of one operation: a
query allocates exactly when no marker for `(viewer, group)` exists. -/
def allocsOf (f : Fog) : MarkerOp → List (PlayerID × String × String)
  | .query v gid =>
    match alistGet? (alistGetD (ensureViewer f v).markerFor v []) gid with
    | some _ => []
    | none => [(v, (getMarkerId f v gid).1, gid)]
  | .reveal _ _ => []

def allocTrace : List MarkerOp → Fog → List (PlayerID × String × String)
  | [], _ => []
  | op :: rest, f => allocsOf f op ++ allocTrace rest (applyMarkerOp f op)

/-- All allocation events of a trace run from the empty tables. -/
def markerAllocs (ops : List MarkerOp) : List (PlayerID × String × String) :=
  allocTrace ops Fog.initial

/-- Number of entries of an association list carrying key `k`. -/
def countKey {α β : Type} [DecidableEq α] (l : List (α × β)) (k : α) : Nat :=
  (l.filter (fun p => decide (p.1 = k))).length

/-- The allocation branch of `get_marker_id`, written out explicitly
(the argument is the already-ensured fog). -/
def allocMarker (f : Fog) (v : PlayerID) (gid : String) : String × Fog :=
  (markerStr (alistGetD f.nextMarkerIdx v 1),
   { revealedTo := f.revealedTo
     markerFor := alistPut f.markerFor v
       (alistPut (alistGetD f.markerFor v []) gid
         (markerStr (alistGetD f.nextMarkerIdx v 1)))
     groupFor := alistPut f.groupFor v
       (alistPut (alistGetD f.groupFor v [])
         (strUpper (markerStr (alistGetD f.nextMarkerIdx v 1))) gid)
     nextMarkerIdx := alistPut f.nextMarkerIdx v
       (alistGetD f.nextMarkerIdx v 1 + 1) })

/-- The unconditional part of `reveal_group_to`: record the group id in
the viewer's revealed set (the argument is the already-ensured fog). -/
def revealBase (f : Fog) (v : PlayerID) (gid : String) : Fog :=
  { f with revealedTo :=
      alistPut f.revealedTo v (listAdd (alistGetD f.revealedTo v []) gid) }

/-- Decimal value of a digit string (left inverse of `natDigits`). -/
def digitsVal (l : List Char) : Nat :=
  l.foldl (fun a c => a * 10 + (c.toNat - 48)) 0

/-- Invariant of reachable fog tables: marker counters are at least 1
and each viewer's marker table has at most one entry per group id. -/
def MarkerInv (f : Fog) : Prop :=
  (∀ v, 1 ≤ alistGetD f.nextMarkerIdx v 1) ∧
  (∀ v g, countKey (alistGetD f.markerFor v []) g ≤ 1)

/-- Every recorded allocation token is `markerStr k` with `k` at least 1
and below the viewer's current counter. -/
def AllocBound (f : Fog) (as : List (PlayerID × String × String)) : Prop :=
  ∀ v t g, (v, t, g) ∈ as →
    ∃ k : Int, 1 ≤ k ∧ k < alistGetD f.nextMarkerIdx v 1 ∧ t = markerStr k

/-- No token is ever allocated to two different groups for one viewer. -/
def AllocFun (as : List (PlayerID × String × String)) : Prop :=
  ∀ v t g₁ g₂, (v, t, g₁) ∈ as → (v, t, g₂) ∈ as → g₁ = g₂

/-! ## Named intermediates of one walk step (C4)

These name the `let`-bound intermediates of the loop body of
`apply_move_movement_phase` (walkSteps): the mover advanced one hex, the
updated registry, the enemies present, the debug-logged state, and the
interception destruction notes. -/

def stepRegistry (s : GameState) (mover : UnitGroup) (stepHex : Hex) :
    List UnitGroup :=
  updateGroup s.unitGroups { mover with location := stepHex }

def stepEnemies (s : GameState) (mover : UnitGroup) (stepHex : Hex) :
    List UnitGroup :=
  (groupsAtReg (stepRegistry s mover stepHex) stepHex).filter
    (fun x => x.owner ≠ mover.owner)

def stepLogged (s : GameState) (mover : UnitGroup) (stepHex : Hex)
    (pathLine : String) : GameState :=
  { s with
    unitGroups := stepRegistry s mover stepHex
    log := s.log ++
      ["DEBUG path " ++ mover.groupId ++ ": " ++ pathLine,
       "DEBUG step=" ++ hexStr stepHex ++ " occ=" ++
         pyStrListStr ((groupsAtReg (stepRegistry s mover stepHex) stepHex).map
           (fun g => g.groupId))] }

def destroyNotesOf (E : List UnitGroup) (stepHex : Hex) : List String :=
  E.map (fun e =>
    e.groupId ++ " destroyed during interception at " ++ hexStr stepHex ++ ".")

/-- C4 fixtures: a combatant mover walking east, intercepted at (1,0). -/
def fixMover : UnitGroup := mkGrp "A1" "A" (mkUT "Cruiser" true "B" 4 2 2) 1 ⟨0, 0⟩

def fixBlocker : UnitGroup := mkGrp "B1" "B" (mkUT "Patrol" true "B" 3 1 2) 1 ⟨1, 0⟩

def fixNC : UnitGroup := mkGrp "B2" "B" (mkUT "Decoy" false "E" 0 0 1) 1 ⟨1, 0⟩

def fixInterceptState : GameState :=
  mkState ["A", "B"] (some "A") [fixMover, fixBlocker]

def fixInterceptState2 : GameState :=
  mkState ["A", "B"] (some "A") [fixMover, fixNC]

/-! ## Walks and BFS invariants (C3)

`validWalk m a p b` says `p` is a legal movement path from `a` to `b`:
it excludes `a`, ends exactly at `b`, every hex of `p` is passable and
consecutive hexes are axial neighbors.  This is the formalization of
"path" used to state that `bfs_path` returns a shortest one. -/

def isStep (m : GameMap) (a b : Hex) : Bool :=
  decide (b ∈ orderedNeighbors a) && m.is_passable b

def validWalk (m : GameMap) : Hex → List Hex → Hex → Bool
  | a, [], b => a = b
  | a, h :: rest, b => isStep m a h && validWalk m h rest b

/-- Some walk of length `k` from `start` to `h` exists. -/
def ReachW (m : GameMap) (start h : Hex) (k : Nat) : Prop :=
  ∃ p, validWalk m start p h = true ∧ p.length = k

def keysOf (cf : CameFrom) : List Hex := cf.map Prod.fst

/-- The BFS loop invariant: `P` are the processed hexes, `F` the queue,
`cf` the parent map and `dep` a ghost depth labeling.  Depths of
discovered hexes are exact shortest-walk distances, the queue is
depth-sorted with spread at most one, and processed hexes are fully
expanded. -/
structure BfsInv (m : GameMap) (start : Hex) (P F : List Hex)
    (cf : CameFrom) (dep : Hex → Nat) : Prop where
  keys_eq : keysOf cf = P ++ F
  keys_nodup : (keysOf cf).Nodup
  parent : ∀ e ∈ cf, (e.1 = start ∧ e.2 = none) ∨
    ∃ p, e.2 = some p ∧ isStep m p e.1 = true ∧ dep e.1 = dep p + 1 ∧
      p ∈ keysOf cf
  dep_bound : ∀ h ∈ keysOf cf, dep h ≤ cf.length
  dep_start : dep start = 0
  start_mem : start ∈ keysOf cf
  keys_passable : ∀ h ∈ keysOf cf, m.is_passable h = true
  dist : ∀ h ∈ keysOf cf, ReachW m start h (dep h) ∧
    ∀ k, ReachW m start h k → dep h ≤ k
  closure : ∀ p ∈ P, ∀ u, isStep m p u = true → u ∈ keysOf cf
  chainF : List.Chain' (fun a b => dep a ≤ dep b) F
  spreadF : ∀ f ∈ F, ∀ h0, F.head? = some h0 → dep f ≤ dep h0 + 1

/-- The inner neighbor loop of `expandNode` over an explicit candidate
list (equal to `expandNode` at `orderedNeighbors cur`). -/
def expandGo (m : GameMap) (cur : Hex) (ns : List Hex)
    (acc : CameFrom × List Hex) : CameFrom × List Hex :=
  ns.foldl
    (fun acc nxt =>
      let (cf, adds) := acc
      if !(m.is_passable nxt) then (cf, adds)
      else if (alistGet? cf nxt).isSome then (cf, adds)
      else (cf ++ [(nxt, some cur)], adds ++ [nxt]))
    acc

/-- One axial step from `a` toward `b`, used to build a shortest walk on
an open map. -/
def stepToward (a b : Hex) : Hex :=
  if a.q < b.q ∧ b.r < a.r then ⟨a.q + 1, a.r - 1⟩
  else if a.q < b.q then ⟨a.q + 1, a.r⟩
  else if b.q < a.q ∧ a.r < b.r then ⟨a.q - 1, a.r + 1⟩
  else if b.q < a.q then ⟨a.q - 1, a.r⟩
  else if a.r < b.r then ⟨a.q, a.r + 1⟩
  else ⟨a.q, a.r - 1⟩

/-! # Theorems -/

/-! ## Dice rolls -/

theorem lcgStep_lt (x : Nat) : lcgStep x < 2147483648 := by
  unfold lcgStep
  exact Nat.mod_lt _ (by norm_num)

theorem mkRolls_range (seed : String) (i : Nat) :
    1 ≤ mkRolls seed i ∧ mkRolls seed i ≤ 10 := by
  unfold mkRolls
  constructor
  · omega
  · have : lcgStep^[i + 1] (seedOfString seed) % 10 < 10 := Nat.mod_lt _ (by norm_num)
    omega

/-- C10 helper: with a to-hit threshold of 1 every d10 roll in 1..10
hits, so the whole group's shots all land. -/
theorem countHits_all_hit (rng : Rng) (hr : ∀ i, 1 ≤ rng i ∧ rng i ≤ 10) :
    ∀ n, (countHits 1 n rng).1 = n := by
  intro n
  induction n generalizing rng with
  | zero => rfl
  | succ n ih =>
    have h0 := hr 0
    have hshift : ∀ i, 1 ≤ (fun i => rng (i + 1)) i ∧ (fun i => rng (i + 1)) i ≤ 10 :=
      fun i => hr (i + 1)
    have hrest := ih (fun i => rng (i + 1)) hshift
    simp only [countHits, rngNext]
    have hroll : (1 : Int) ≤ (rng 0 : Int) := by exact_mod_cast h0.1
    simp only [if_pos hroll]
    omega

/-- C10: whenever the attacker's effective attack is at most the
target's effective defense plus one, the to-hit threshold
max(1, attack − defense) is 1, and every shot of every ship in the
firing group hits regardless of the roll stream (any stream of d10
values in 1..10, hence any RNG seed). -/
theorem C10_guaranteed_hits (atk dfs : Int) (h : atk ≤ dfs + 1)
    (rng : Rng) (hr : ∀ i, 1 ≤ rng i ∧ rng i ≤ 10) (shots : Nat) :
    max 1 (atk - dfs) = 1 ∧ (countHits (max 1 (atk - dfs)) shots rng).1 = shots := by
  have hth : max 1 (atk - dfs) = 1 := by omega
  refine ⟨hth, ?_⟩
  rw [hth]
  exact countHits_all_hit rng hr shots

/-- Witness for C10 at attack 0, defense 0, three shots, a combat seed
stream. -/
theorem C10_guaranteed_hits_witness :
    (0 : Int) ≤ 0 + 1 ∧
      max 1 ((0 : Int) - 0) = 1 ∧
        (countHits (max 1 ((0 : Int) - 0)) 3 (mkRolls "1|0,0|A")).1 = 3 :=
  ⟨by decide,
    C10_guaranteed_hits 0 0 (by decide) (mkRolls "1|0,0|A")
      (mkRolls_range "1|0,0|A") 3⟩

/-! ## Damage application (C2) -/

/-- The destruction counter of the `apply_hits_to_group` loop is an
accumulator. -/
theorem applyLoop_destroyed_acc (hits : Nat) :
    ∀ (g : UnitGroup) (k : Nat),
      apply_hits_to_group.applyLoop g hits k =
        ((apply_hits_to_group.applyLoop g hits 0).1,
          k + (apply_hits_to_group.applyLoop g hits 0).2.1,
          (apply_hits_to_group.applyLoop g hits 0).2.2) := by
  induction hits with
  | zero => intro g k; simp [apply_hits_to_group.applyLoop]
  | succ n ih =>
    intro g k
    simp only [apply_hits_to_group.applyLoop]
    split_ifs with hc hd
    · rw [ih _ (k + 1), ih _ 1]
      simp [Nat.add_assoc]
    · rw [ih _ k]
    · simp

/-- `apply_hits_to_group` only touches count/damage: the id (indeed
every other field) survives. -/
theorem applyLoop_groupId (hits : Nat) :
    ∀ (g : UnitGroup) (k : Nat),
      (apply_hits_to_group.applyLoop g hits k).1.groupId = g.groupId := by
  induction hits with
  | zero => intro g k; simp [apply_hits_to_group.applyLoop]
  | succ n ih =>
    intro g k
    simp only [apply_hits_to_group.applyLoop]
    split_ifs with hc hd
    · simpa using ih _ _
    · simpa using ih _ _
    · simp

theorem apply_hits_groupId (g : UnitGroup) (hits : Nat) :
    (apply_hits_to_group g hits).1.groupId = g.groupId :=
  applyLoop_groupId hits g 0

/-- A group with no ships left is never in the registry after
`applyVolleyHits` runs (the loop only updates or removes entries). -/
theorem applyVolleyHits_preserves_absence (hm : List (String × Nat)) :
    ∀ (reg : List UnitGroup) (ev : List String) (tid : String),
      getGroup reg tid = none →
        getGroup (applyVolleyHits hm reg ev).1 tid = none := by
  induction hm with
  | nil => intro reg ev tid h; exact h
  | cons p rest ih =>
    intro reg ev tid h
    obtain ⟨pid, hits⟩ := p
    simp only [applyVolleyHits]
    have habs : ∀ g, g ∈ reg → ¬ g.groupId = tid := by
      intro g hg
      intro hEq
      have : getGroup reg tid ≠ none := by
        unfold getGroup
        intro hfind
        rw [List.find?_eq_none] at hfind
        exact (hfind g hg) (by simp [hEq])
      exact this h
    match hfind : getGroup reg pid with
    | none => exact ih reg ev tid h
    | some t =>
      simp only []
      by_cases hcnt : t.count ≤ 0
      · simp only [if_pos hcnt]
        exact ih reg ev tid h
      · simp only [if_neg hcnt]
        have htmem : t ∈ reg := by
          unfold getGroup at hfind
          exact List.mem_of_find?_eq_some hfind
        have htid : t.groupId = pid := by
          unfold getGroup at hfind
          have := List.find?_some hfind
          simpa using this
        have hupd : getGroup (updateGroup reg (apply_hits_to_group t hits).1) tid = none := by
          unfold getGroup updateGroup
          rw [List.find?_eq_none]
          intro g hg
          rw [List.mem_map] at hg
          obtain ⟨g0, hg0, hmap⟩ := hg
          by_cases he : g0.groupId = (apply_hits_to_group t hits).1.groupId
          · rw [if_pos he] at hmap
            subst hmap
            have : (apply_hits_to_group t hits).1.groupId = t.groupId :=
              apply_hits_groupId t hits
            simp only [decide_eq_true_eq]
            rw [this, htid]
            intro hEq
            have := habs t htmem
            rw [htid] at this
            exact this (by rw [← hEq])
          · rw [if_neg he] at hmap
            subst hmap
            simpa using habs g0 hg0
        by_cases hdead : (apply_hits_to_group t hits).1.count ≤ 0
        · simp only [if_pos hdead]
          apply ih
          unfold getGroup removeGroup
          rw [List.find?_eq_none]
          intro g hg
          rw [List.mem_filter] at hg
          have := hupd
          unfold getGroup at this
          rw [List.find?_eq_none] at this
          exact this g hg.1
        · simp only [if_neg hdead]
          exact ih _ _ _ hupd

/-- Normalized step equation for the `apply_hits_to_group` loop (record
projections reduced). -/
theorem applyLoop_succ (g : UnitGroup) (n k : Nat) :
    apply_hits_to_group.applyLoop g (n + 1) k =
      if 0 < g.count then
        (if g.hull ≤ g.damage + 1 then
          apply_hits_to_group.applyLoop
            { g with count := g.count - 1, damage := 0 } n (k + 1)
         else apply_hits_to_group.applyLoop { g with damage := g.damage + 1 } n k)
      else (g, k, n + 1) := rfl

theorem applyLoop_zero (g : UnitGroup) (k : Nat) :
    apply_hits_to_group.applyLoop g 0 k = (g, k, 0) := rfl

theorem getGroup_remove_self (reg : List UnitGroup) (tid : String) :
    getGroup (removeGroup reg tid) tid = none := by
  unfold getGroup removeGroup
  rw [List.find?_eq_none]
  intro g hg
  rw [List.mem_filter] at hg
  simpa using hg.2

/-- C2: damage application is per-hit sequential.  (i) a single hit
advances the damage counter by one unless that reaches the effective
hull, in which case exactly one ship is destroyed and the counter
resets; (ii) a batch of hits is that single-hit step iterated; (iii) a
target whose ship count reaches zero is removed from the registry by the
resolver's damage-application loop; (iv) three hits on an undamaged
hull-3 group destroy exactly one ship. -/
theorem C2_damage_application (g : UnitGroup) (hc : 0 < g.count) :
    (apply_hits_to_group g 1 =
      if g.hull ≤ g.damage + 1 then ({ g with count := g.count - 1, damage := 0 }, 1, 0)
      else ({ g with damage := g.damage + 1 }, 0, 0))
    ∧ (∀ hits : Nat,
        apply_hits_to_group g (hits + 1) =
          ((apply_hits_to_group (apply_hits_to_group g 1).1 hits).1,
            (apply_hits_to_group g 1).2.1 +
              (apply_hits_to_group (apply_hits_to_group g 1).1 hits).2.1,
            (apply_hits_to_group (apply_hits_to_group g 1).1 hits).2.2))
    ∧ (∀ (reg : List UnitGroup) (ev : List String) (rest : List (String × Nat))
        (tid : String) (hits : Nat) (t : UnitGroup),
        getGroup reg tid = some t → 0 < t.count →
          (apply_hits_to_group t hits).1.count ≤ 0 →
          getGroup (applyVolleyHits ((tid, hits) :: rest) reg ev).1 tid = none)
    ∧ (g.unitType.hull = 3 → g.damage = 0 →
        (apply_hits_to_group g 3).2.1 = 1 ∧
          (apply_hits_to_group g 3).1.count = g.count - 1 ∧
          (apply_hits_to_group g 3).1.damage = 0) := by
  have hone : apply_hits_to_group g 1 =
      if g.hull ≤ g.damage + 1 then ({ g with count := g.count - 1, damage := 0 }, 1, 0)
      else ({ g with damage := g.damage + 1 }, 0, 0) := by
    unfold apply_hits_to_group
    rw [applyLoop_succ, if_pos hc]
    split_ifs with h
    · rw [applyLoop_zero]
    · rw [applyLoop_zero]
  refine ⟨hone, ?_, ?_, ?_⟩
  · intro hits
    rw [hone]
    unfold apply_hits_to_group
    rw [applyLoop_succ, if_pos hc]
    split_ifs with h
    · rw [applyLoop_destroyed_acc]
    · simp
  · intro reg ev rest tid hits t hfind hlive hdead
    simp only [applyVolleyHits, hfind]
    rw [if_neg (by omega)]
    rw [if_pos hdead]
    exact applyVolleyHits_preserves_absence rest _ _ tid (getGroup_remove_self _ tid)
  · intro hh hd
    have hhull : g.hull = 3 := by simp [UnitGroup.hull, hh]
    unfold apply_hits_to_group
    rw [applyLoop_succ, if_pos hc, if_neg (by omega)]
    rw [applyLoop_succ, if_pos (by simpa using hc), if_neg (by simp [UnitGroup.hull, hh, hd])]
    rw [applyLoop_succ, if_pos (by simpa using hc), if_pos (by simp [UnitGroup.hull, hh, hd])]
    rw [applyLoop_zero]
    simp

/-- Witness for C2 on a two-ship hull-3 group. -/
theorem C2_damage_application_witness :
    (0 : Int) < fixC2.count ∧
      ((apply_hits_to_group fixC2 3).2.1 = 1 ∧
        (apply_hits_to_group fixC2 3).1.count = fixC2.count - 1 ∧
        (apply_hits_to_group fixC2 3).1.damage = 0) :=
  ⟨by decide, (C2_damage_application fixC2 (by decide)).2.2.2 (by decide) (by decide)⟩

/-! ## Combat determinism (C1) -/

theorem revealStep_apply (reg : List UnitGroup) (hx : Hex)
    (acc : List String × Fog) (v : PlayerID) :
    revealStep reg hx acc v =
      if (groupsAtReg reg hx).isEmpty then (acc.1, revealFog reg hx v acc.2)
      else (acc.1 ++ [revealSummary reg hx v], revealFog reg hx v acc.2) := rfl

/-- The reveal events accumulate on the left of the fold. -/
theorem revealFold_append (reg : List UnitGroup) (hx : Hex) :
    ∀ (vs : List PlayerID) (ev : List String) (f : Fog),
      (vs.foldl (revealStep reg hx) (ev, f)).1 =
        ev ++ (vs.foldl (revealStep reg hx) ([], f)).1 := by
  intro vs
  induction vs with
  | nil => intro ev f; simp
  | cons v rest ih =>
    intro ev f
    rw [List.foldl_cons, List.foldl_cons, revealStep_apply, revealStep_apply reg hx ([], f) v]
    by_cases h : (groupsAtReg reg hx).isEmpty
    · rw [if_pos h, if_pos h]
      exact ih ev _
    · rw [if_neg h, if_neg h]
      rw [ih, ih ([] ++ [_])]
      simp

/-- The reveal event lines never depend on the incoming fog tables
(only on the groups present). -/
theorem revealFold_events_indep (reg : List UnitGroup) (hx : Hex) :
    ∀ (vs : List PlayerID) (f₁ f₂ : Fog),
      (vs.foldl (revealStep reg hx) ([], f₁)).1 =
        (vs.foldl (revealStep reg hx) ([], f₂)).1 := by
  intro vs
  induction vs with
  | nil => intro f₁ f₂; rfl
  | cons v rest ih =>
    intro f₁ f₂
    rw [List.foldl_cons, List.foldl_cons, revealStep_apply,
      revealStep_apply reg hx ([], f₂) v]
    by_cases h : (groupsAtReg reg hx).isEmpty
    · rw [if_pos h, if_pos h]
      exact ih _ _
    · rw [if_neg h, if_neg h]
      rw [revealFold_append, revealFold_append reg hx rest ([] ++ [_])]
      rw [ih (revealFog reg hx v f₁) (revealFog reg hx v f₂)]

/-- C1: `resolve_combat` is deterministic and draws on no state beyond
the claim's inputs: two game states with the same turn number and the
same unit-group registry (the fog tables, log, colonies, orders,
credits and anything else may differ) produce identical combat events
and identical resulting registries at every hex and triggering owner —
the RNG is seeded from (turn number, hex coordinates, triggering owner)
alone. -/
theorem C1_combat_deterministic (s₁ s₂ : GameState) (owner : PlayerID) (hx : Hex)
    (hT : s₁.turnNumber = s₂.turnNumber) (hG : s₁.unitGroups = s₂.unitGroups) :
    (resolve_combat s₁ owner hx).1 = (resolve_combat s₂ owner hx).1 ∧
      (resolve_combat s₁ owner hx).2.unitGroups =
        (resolve_combat s₂ owner hx).2.unitGroups := by
  unfold resolve_combat
  rw [hT, hG]
  by_cases h : (ownersPresent (aliveGroups s₂.unitGroups hx)).length < 2
  · simp only [if_pos h]
    exact ⟨trivial, hG⟩
  · simp only [if_neg h]
    constructor
    · have hi : (revealHexToPlayers s₁.fog s₂.unitGroups hx
          (ownersPresent (aliveGroups s₂.unitGroups hx))).1 =
          (revealHexToPlayers s₂.fog s₂.unitGroups hx
          (ownersPresent (aliveGroups s₂.unitGroups hx))).1 := by
        unfold revealHexToPlayers
        exact revealFold_events_indep s₂.unitGroups hx
          (ownersPresent (aliveGroups s₂.unitGroups hx)) s₁.fog s₂.fog
      rw [hi]
    · trivial

/-- Witness for C1: the same battle embedded in two states that differ
in log, fog, colonies and credits. -/
theorem C1_combat_deterministic_witness :
    (fixBattleState.turnNumber = fixBattleState2.turnNumber ∧
      fixBattleState.unitGroups = fixBattleState2.unitGroups) ∧
      (resolve_combat fixBattleState "A" ⟨0, 0⟩).1 =
        (resolve_combat fixBattleState2 "A" ⟨0, 0⟩).1 :=
  ⟨⟨rfl, rfl⟩,
    (C1_combat_deterministic fixBattleState fixBattleState2 "A" ⟨0, 0⟩ rfl rfl).1⟩

/-! ## Supernova exploration (C9) -/

/-- C9: exploring a supernova hex does not retreat the explorer and
block the hex — it raises `AttributeError`, because
`GameState.get_previous_hex` (and `GameMap.block_hex`) do not exist;
the error aborts the exploration phase and with it the submission. -/
theorem C9_supernova_raises (s : GameState) (hx : Hex)
    (h : s.gameMap.get_hex_content hx = .SUPERNOVA) :
    resolveExplorationHex s hx =
      .error "AttributeError: GameState object has no attribute get_previous_hex" := by
  unfold resolveExplorationHex
  rw [h]

/-- Witness for C9: a concrete explorer on an unexplored supernova hex;
the whole exploration phase errors out. -/
theorem C9_supernova_raises_witness :
    fixSupernovaState.gameMap.get_hex_content ⟨1, 0⟩ = .SUPERNOVA ∧
      resolveExplorationHex fixSupernovaState ⟨1, 0⟩ =
        .error "AttributeError: GameState object has no attribute get_previous_hex" ∧
      errOf (resolveExplorationPhase fixSupernovaState) =
        some "AttributeError: GameState object has no attribute get_previous_hex" :=
  ⟨by decide, C9_supernova_raises fixSupernovaState ⟨1, 0⟩ (by decide), by decide⟩

/-! ## Empty-queue submission (C7) -/

/-- C7: submitting with an empty order queue does not rotate the turn:
`submit_orders` returns early with "No orders to submit.", leaving the
state (in particular the active player and turn counter) unchanged. -/
theorem C7_empty_submit_no_rotation (s : GameState) (a : PlayerID)
    (ha : s.activePlayer = some a)
    (hq : alistGet? s.pendingOrders a = some []) :
    submit_orders s = .ok (["No orders to submit."], s) ∧
      (submit_orders s).toOption.map (fun r => r.2.activePlayer) =
        some s.activePlayer := by
  have hmain : submit_orders s = .ok (["No orders to submit."], s) := by
    have h1 : (alistGet? s.pendingOrders a).isSome = true := by rw [hq]; rfl
    have h2 : alistGetD s.pendingOrders a [] = [] := by
      unfold alistGetD
      rw [hq]
      rfl
    unfold submit_orders
    rw [ha]
    dsimp only
    rw [if_pos h1, h2]
    rfl
  exact ⟨hmain, by rw [hmain]; rfl⟩

/-- Witness for C7 on the concrete two-player fixture. -/
theorem C7_empty_submit_no_rotation_witness :
    (fixEmptyQueueState.activePlayer = some "A" ∧
      alistGet? fixEmptyQueueState.pendingOrders "A" = some []) ∧
      submit_orders fixEmptyQueueState =
        .ok (["No orders to submit."], fixEmptyQueueState) :=
  ⟨⟨rfl, by decide⟩,
    (C7_empty_submit_no_rotation fixEmptyQueueState "A" rfl (by decide)).1⟩

/-! ## Serialization round trip (C6) -/

/-- C6: the round trip loses group mineral cargo.  The serializer
writes `cargo_minerals`, but the deserializer's
`if hasattr(g, "cargo_minerals")` guard is always false on a freshly
constructed UnitGroup, so a group carrying one load comes back with
effective cargo 0. -/
theorem C6_roundtrip_drops_cargo :
    ((getGroup fixCargoState.unitGroups "A1").map
        (fun g => g.cargoMinerals.getD 0) = some 1) ∧
      ((roundTrip fixCargoState).toOption.map
        (fun s => (getGroup s.unitGroups "A1").map
          (fun g => g.cargoMinerals.getD 0)) = some (some 0)) := by
  constructor
  · decide
  · decide

/-! ## Non-combatants in combat (C8) -/

set_option maxRecDepth 8000

/-- C8 counterexample: in the concrete battle `fixBattleState` the
non-combatant decoy B1 is placed in a volley and fires — its shot line
appears in the transcript (with to-hit 1 it even hits with certainty)
and it destroys the combatant A1.  Its attacker A1 has to-hit 11 on a
d10, so the whole transcript is independent of the modelled roll
values. -/
theorem C8_counterexample_noncombatant_fires :
    fixDecoy.unitType.isCombatant = false ∧
      "    B1 -> A1: 1 shot(s), to-hit 1 on d10, hits=1" ∈
        (resolve_combat fixBattleState "A" ⟨0, 0⟩).1 ∧
      getGroup (resolve_combat fixBattleState "A" ⟨0, 0⟩).2.unitGroups "A1" = none := by
  refine ⟨rfl, ?_, ?_⟩
  · decide
  · decide

@[simp] theorem setFlag_groupId (f : String → Bool) (g : UnitGroup) :
    (setCombatFlag f g).groupId = g.groupId := rfl

@[simp] theorem setFlag_owner (f : String → Bool) (g : UnitGroup) :
    (setCombatFlag f g).owner = g.owner := rfl

@[simp] theorem setFlag_count (f : String → Bool) (g : UnitGroup) :
    (setCombatFlag f g).count = g.count := rfl

@[simp] theorem setFlag_damage (f : String → Bool) (g : UnitGroup) :
    (setCombatFlag f g).damage = g.damage := rfl

@[simp] theorem setFlag_location (f : String → Bool) (g : UnitGroup) :
    (setCombatFlag f g).location = g.location := rfl

@[simp] theorem setFlag_attack (f : String → Bool) (g : UnitGroup) :
    (setCombatFlag f g).attack = g.attack := rfl

@[simp] theorem setFlag_defense (f : String → Bool) (g : UnitGroup) :
    (setCombatFlag f g).defense = g.defense := rfl

@[simp] theorem setFlag_hull (f : String → Bool) (g : UnitGroup) :
    (setCombatFlag f g).hull = g.hull := rfl

@[simp] theorem setFlag_initiative (f : String → Bool) (g : UnitGroup) :
    (setCombatFlag f g).initiative = g.initiative := rfl

@[simp] theorem setFlag_tactics (f : String → Bool) (g : UnitGroup) :
    (setCombatFlag f g).tactics = g.tactics := rfl

@[simp] theorem setFlag_name (f : String → Bool) (g : UnitGroup) :
    (setCombatFlag f g).unitType.name = g.unitType.name := rfl

/-- `setCombatFlag` changes only the combatant flag: every stat the
combat resolver reads is untouched. -/
theorem setFlag_stats (f : String → Bool) (g : UnitGroup) :
    (setCombatFlag f g).groupId = g.groupId ∧
      (setCombatFlag f g).owner = g.owner ∧
      (setCombatFlag f g).count = g.count ∧
      (setCombatFlag f g).damage = g.damage ∧
      (setCombatFlag f g).location = g.location ∧
      (setCombatFlag f g).attack = g.attack ∧
      (setCombatFlag f g).defense = g.defense ∧
      (setCombatFlag f g).hull = g.hull ∧
      (setCombatFlag f g).initiative = g.initiative ∧
      (setCombatFlag f g).unitType.name = g.unitType.name :=
  ⟨rfl, rfl, rfl, rfl, rfl, rfl, rfl, rfl, rfl, rfl⟩

theorem getGroup_reflag (f : String → Bool) (reg : List UnitGroup) (gid : String) :
    getGroup (reg.map (setCombatFlag f)) gid =
      (getGroup reg gid).map (setCombatFlag f) := by
  unfold getGroup
  induction reg with
  | nil => rfl
  | cons g rest ih =>
    rw [List.map_cons, List.find?_cons, List.find?_cons]
    by_cases h : g.groupId = gid
    · have h1 : (decide ((setCombatFlag f g).groupId = gid)) = true := by
        simpa [setCombatFlag] using h
      have h2 : (decide (g.groupId = gid)) = true := by simpa using h
      rw [h1, h2]
      rfl
    · have h1 : (decide ((setCombatFlag f g).groupId = gid)) = false := by
        simpa [setCombatFlag] using h
      have h2 : (decide (g.groupId = gid)) = false := by simpa using h
      rw [h1, h2]
      exact ih

theorem removeGroup_reflag (f : String → Bool) (reg : List UnitGroup) (gid : String) :
    removeGroup (reg.map (setCombatFlag f)) gid =
      (removeGroup reg gid).map (setCombatFlag f) := by
  unfold removeGroup
  rw [List.filter_map]
  rfl

theorem updateGroup_reflag (f : String → Bool) (reg : List UnitGroup) (g : UnitGroup) :
    updateGroup (reg.map (setCombatFlag f)) (setCombatFlag f g) =
      (updateGroup reg g).map (setCombatFlag f) := by
  unfold updateGroup
  rw [List.map_map, List.map_map]
  apply List.map_congr_left
  intro x _
  simp only [Function.comp]
  by_cases h : x.groupId = g.groupId
  · rw [if_pos (by simpa [setCombatFlag] using h), if_pos h]
  · rw [if_neg (by simpa [setCombatFlag] using h), if_neg h]

theorem groupsAtReg_reflag (f : String → Bool) (reg : List UnitGroup) (hx : Hex) :
    groupsAtReg (reg.map (setCombatFlag f)) hx =
      (groupsAtReg reg hx).map (setCombatFlag f) := by
  unfold groupsAtReg
  rw [List.filter_map]
  rfl

theorem aliveGroups_reflag (f : String → Bool) (reg : List UnitGroup) (hx : Hex) :
    aliveGroups (reg.map (setCombatFlag f)) hx =
      (aliveGroups reg hx).map (setCombatFlag f) := by
  unfold aliveGroups
  rw [groupsAtReg_reflag, List.filter_map]
  rfl

theorem ownersPresent_reflag (f : String → Bool) (gs : List UnitGroup) :
    ownersPresent (gs.map (setCombatFlag f)) = ownersPresent gs := by
  unfold ownersPresent
  rw [List.foldl_map]
  rfl

theorem sortedInsert_reflag (f : String → Bool) (x : UnitGroup) :
    ∀ l : List UnitGroup,
      sortedInsert volleyKeyLe (setCombatFlag f x) (l.map (setCombatFlag f)) =
        (sortedInsert volleyKeyLe x l).map (setCombatFlag f) := by
  intro l
  induction l with
  | nil => rfl
  | cons y rest ih =>
    simp only [List.map_cons, sortedInsert]
    have : volleyKeyLe (setCombatFlag f x) (setCombatFlag f y) = volleyKeyLe x y := rfl
    rw [this]
    by_cases h : volleyKeyLe x y
    · rw [if_pos h, if_pos h]
      rfl
    · rw [if_neg (by simpa using h), if_neg (by simpa using h)]
      rw [ih]
      rfl

theorem sortBy_reflag (f : String → Bool) :
    ∀ l : List UnitGroup,
      sortBy volleyKeyLe (l.map (setCombatFlag f)) =
        (sortBy volleyKeyLe l).map (setCombatFlag f) := by
  intro l
  induction l with
  | nil => rfl
  | cons x rest ih =>
    simp only [List.map_cons, sortBy]
    rw [ih, sortedInsert_reflag]

theorem focus_fire_reflag (f : String → Bool) (enemies : List UnitGroup) :
    focus_fire (enemies.map (setCombatFlag f)) =
      (focus_fire enemies).map (setCombatFlag f) := by
  unfold focus_fire
  match enemies with
  | [] => rfl
  | e :: rest =>
    simp only [List.map_cons, Option.map_some']
    congr 1
    rw [List.foldl_map]
    induction rest generalizing e with
    | nil => rfl
    | cons y t ih =>
      rw [List.foldl_cons, List.foldl_cons]
      have h2 : ffLt (ffKey (setCombatFlag f y)) (ffKey (setCombatFlag f e)) =
          ffLt (ffKey y) (ffKey e) := rfl
      rw [h2]
      by_cases h : ffLt (ffKey y) (ffKey e)
      · rw [if_pos h, if_pos h]
        exact ih y
      · rw [if_neg (by simpa using h), if_neg (by simpa using h)]
        exact ih e

theorem applyLoop_reflag (f : String → Bool) (hits : Nat) :
    ∀ (g : UnitGroup) (k : Nat),
      apply_hits_to_group.applyLoop (setCombatFlag f g) hits k =
        (setCombatFlag f (apply_hits_to_group.applyLoop g hits k).1,
          (apply_hits_to_group.applyLoop g hits k).2) := by
  induction hits with
  | zero => intro g k; rfl
  | succ n ih =>
    intro g k
    rw [applyLoop_succ, applyLoop_succ]
    have hc : ((setCombatFlag f g).count) = g.count := rfl
    have hh : ((setCombatFlag f g).hull) = g.hull := rfl
    have hd : ((setCombatFlag f g).damage) = g.damage := rfl
    rw [hc, hh, hd]
    by_cases h1 : 0 < g.count
    · rw [if_pos h1, if_pos h1]
      by_cases h2 : g.hull ≤ g.damage + 1
      · rw [if_pos h2, if_pos h2]
        exact ih { g with count := g.count - 1, damage := 0 } (k + 1)
      · rw [if_neg h2, if_neg h2]
        exact ih { g with damage := g.damage + 1 } k
    · rw [if_neg h1, if_neg h1]

theorem apply_hits_reflag (f : String → Bool) (g : UnitGroup) (hits : Nat) :
    apply_hits_to_group (setCombatFlag f g) hits =
      (setCombatFlag f (apply_hits_to_group g hits).1,
        (apply_hits_to_group g hits).2) :=
  applyLoop_reflag f hits g 0

theorem volleyFire_reflag (f : String → Bool) (reg snapshot : List UnitGroup) :
    ∀ (vl : List UnitGroup) (rng : Rng) (hm : List (String × Nat)) (ev : List String),
      volleyFire (reg.map (setCombatFlag f)) (snapshot.map (setCombatFlag f))
          (vl.map (setCombatFlag f)) rng hm ev =
        volleyFire reg snapshot vl rng hm ev := by
  intro vl
  induction vl with
  | nil => intro rng hm ev; rfl
  | cons a rest ih =>
    intro rng hm ev
    rw [List.map_cons]
    unfold volleyFire
    rw [setFlag_groupId, getGroup_reflag]
    rcases hfind : getGroup reg a.groupId with _ | aLive
    · rw [Option.map_none']
      exact ih rng hm ev
    · rw [Option.map_some']
      dsimp only
      rw [setFlag_count]
      by_cases hcnt : aLive.count ≤ 0
      · rw [if_pos hcnt, if_pos hcnt]
        exact ih rng hm ev
      · rw [if_neg hcnt, if_neg hcnt]
        have hfilter :
            (snapshot.map (setCombatFlag f)).filter
                (fun g => g.owner ≠ (setCombatFlag f aLive).owner && 0 < g.count) =
              (snapshot.filter (fun g => g.owner ≠ aLive.owner && 0 < g.count)).map
                (setCombatFlag f) := by
          rw [List.filter_map]
          rfl
        rw [hfilter]
        have hie : ∀ (l : List UnitGroup),
            (l.map (setCombatFlag f)).isEmpty = l.isEmpty := by
          intro l; cases l <;> rfl
        rw [hie]
        by_cases hemp : (snapshot.filter (fun g => g.owner ≠ aLive.owner && 0 < g.count)).isEmpty
        · rw [if_pos hemp, if_pos hemp]
          exact ih rng hm ev
        · rw [if_neg hemp, if_neg hemp]
          rw [focus_fire_reflag]
          rcases htgt : focus_fire (snapshot.filter (fun g => g.owner ≠ aLive.owner && 0 < g.count)) with _ | target
          · rw [Option.map_none']
            exact ih rng hm ev
          · rw [Option.map_some']
            dsimp only
            rw [setFlag_defense, setFlag_groupId, setFlag_groupId]
            exact ih _ _ _

theorem applyVolleyHits_reflag (f : String → Bool) :
    ∀ (hm : List (String × Nat)) (reg : List UnitGroup) (ev : List String),
      applyVolleyHits hm (reg.map (setCombatFlag f)) ev =
        ((applyVolleyHits hm reg ev).1.map (setCombatFlag f),
          (applyVolleyHits hm reg ev).2) := by
  intro hm
  induction hm with
  | nil => intro reg ev; rfl
  | cons p rest ih =>
    intro reg ev
    obtain ⟨tid, hits⟩ := p
    unfold applyVolleyHits
    rw [getGroup_reflag]
    rcases hfind : getGroup reg tid with _ | t
    · rw [Option.map_none']
      exact ih reg ev
    · rw [Option.map_some']
      dsimp only
      rw [setFlag_count]
      by_cases hcnt : t.count ≤ 0
      · rw [if_pos hcnt, if_pos hcnt]
        exact ih reg ev
      · rw [if_neg hcnt, if_neg hcnt]
        simp only [apply_hits_reflag, setFlag_count, setFlag_damage,
          updateGroup_reflag, removeGroup_reflag]
        by_cases hdead : (apply_hits_to_group t hits).1.count ≤ 0
        · rw [if_pos hdead, if_pos hdead]
          exact ih _ _
        · rw [if_neg hdead, if_neg hdead]
          exact ih _ _

theorem volleyLoop_reflag (f : String → Bool) (hx : Hex) :
    ∀ (fuel : Nat) (roster : List String) (vn : Nat) (reg : List UnitGroup)
      (rng : Rng) (ev : List String),
      volleyLoop hx fuel roster vn (reg.map (setCombatFlag f)) rng ev =
        ((volleyLoop hx fuel roster vn reg rng ev).1,
          (volleyLoop hx fuel roster vn reg rng ev).2.1.map (setCombatFlag f),
          (volleyLoop hx fuel roster vn reg rng ev).2.2) := by
  intro fuel
  induction fuel with
  | zero => intro roster vn reg rng ev; rfl
  | succ n ih =>
    intro roster vn reg rng ev
    unfold volleyLoop
    dsimp only
    have hfilt :
        (roster.filter (fun gid =>
          match getGroup (reg.map (setCombatFlag f)) gid with
          | some g => 0 < g.count
          | none => false)) =
        (roster.filter (fun gid =>
          match getGroup reg gid with
          | some g => 0 < g.count
          | none => false)) := by
      apply List.filter_congr
      intro gid _
      rw [getGroup_reflag]
      rcases getGroup reg gid with _ | g
      · rfl
      · rfl
    rw [hfilt]
    set roster1 := roster.filter (fun gid =>
      match getGroup reg gid with
      | some g => 0 < g.count
      | none => false) with hroster1
    by_cases hemp : roster1.isEmpty
    · rw [if_pos hemp, if_pos hemp]
    · rw [if_neg hemp, if_neg hemp]
      rw [aliveGroups_reflag, ownersPresent_reflag]
      by_cases howners : (ownersPresent (aliveGroups reg hx)).length < 2
      · rw [if_pos howners, if_pos howners]
      · rw [if_neg howners, if_neg howners]
        have hrg :
            (roster1.filterMap (getGroup (reg.map (setCombatFlag f)))).filter
                (fun g => 0 < g.count) =
              ((roster1.filterMap (getGroup reg)).filter
                (fun g => 0 < g.count)).map (setCombatFlag f) := by
          have h1 : roster1.filterMap (getGroup (reg.map (setCombatFlag f))) =
              (roster1.filterMap (getGroup reg)).map (setCombatFlag f) := by
            induction roster1 with
            | nil => rfl
            | cons x xs ihx =>
              rw [List.filterMap_cons, List.filterMap_cons, getGroup_reflag]
              rcases getGroup reg x with _ | g
              · rw [Option.map_none']
                exact ihx
              · rw [Option.map_some', List.map_cons]
                rw [ihx]
          rw [h1, List.filter_map]
          rfl
        rw [hrg, sortBy_reflag]
        rcases hsort : sortBy volleyKeyLe
            ((roster1.filterMap (getGroup reg)).filter (fun g => 0 < g.count)) with _ | ⟨g0, tl⟩
        · rw [List.map_nil]
        · rw [List.map_cons]
          dsimp only
          rw [setFlag_initiative, setFlag_tactics]
          simp only [List.filter_cons, setFlag_initiative, setFlag_tactics,
            decide_eq_true_eq, eq_self_iff_true, if_true]
          have hfm : (tl.map (setCombatFlag f)).filter
              (fun g => decide ((initRank g.initiative, -g.tactics) =
                (initRank g0.initiative, -g0.tactics))) =
              (tl.filter (fun g => decide ((initRank g.initiative, -g.tactics) =
                (initRank g0.initiative, -g0.tactics)))).map (setCombatFlag f) := by
            rw [List.filter_map]
            rfl
          rw [hfm]
          have hany : (fun gid => !((setCombatFlag f g0 ::
              (tl.filter (fun g => decide ((initRank g.initiative, -g.tactics) =
                (initRank g0.initiative, -g0.tactics)))).map (setCombatFlag f)).any
              (fun g => decide (g.groupId = gid)))) =
              (fun gid => !((g0 :: tl.filter (fun g => decide ((initRank g.initiative, -g.tactics) =
                (initRank g0.initiative, -g0.tactics)))).any
                (fun g => decide (g.groupId = gid)))) := by
            funext gid
            rw [List.any_cons, List.any_cons, List.any_map]
            rfl
          rw [hany]
          rw [← List.map_cons]
          rw [List.length_map]
          simp only [aliveGroups_reflag, volleyFire_reflag, applyVolleyHits_reflag, ih]

theorem roundsLoop_reflag (f : String → Bool) (hx : Hex) :
    ∀ (fuel roundNum : Nat) (reg : List UnitGroup) (rng : Rng) (ev : List String),
      roundsLoop hx fuel roundNum (reg.map (setCombatFlag f)) rng ev =
        ((roundsLoop hx fuel roundNum reg rng ev).1,
          (roundsLoop hx fuel roundNum reg rng ev).2.1.map (setCombatFlag f),
          (roundsLoop hx fuel roundNum reg rng ev).2.2) := by
  intro fuel
  induction fuel with
  | zero => intro roundNum reg rng ev; rfl
  | succ n ih =>
    intro roundNum reg rng ev
    unfold roundsLoop
    rw [aliveGroups_reflag, ownersPresent_reflag]
    by_cases howners : (ownersPresent (aliveGroups reg hx)).length < 2
    · rw [if_pos howners, if_pos howners]
    · rw [if_neg howners, if_neg howners]
      by_cases hcap : 50 < roundNum + 1
      · rw [if_pos hcap, if_pos hcap]
      · rw [if_neg hcap, if_neg hcap]
        dsimp only
        have hids : (List.map (fun (g : UnitGroup) => g.groupId)
            (List.map (setCombatFlag f) (aliveGroups reg hx))) =
            List.map (fun (g : UnitGroup) => g.groupId) (aliveGroups reg hx) := by
          rw [List.map_map]
          rfl
        rw [hids]
        simp only [volleyLoop_reflag, ih]

/-- The combat core commutes with arbitrary rewrites of the combatant
flags: the rounds/volleys never read `is_combatant`. -/
theorem combatCore_reflag (f : String → Bool) (turn : Int)
    (reg : List UnitGroup) (o : PlayerID) (hx : Hex) :
    combatCore turn (reg.map (setCombatFlag f)) o hx =
      ((combatCore turn reg o hx).1,
        (combatCore turn reg o hx).2.map (setCombatFlag f)) := by
  unfold combatCore
  rw [roundsLoop_reflag]

theorem revealFog_reflag (f : String → Bool) (reg : List UnitGroup) (hx : Hex)
    (v : PlayerID) (fg : Fog) :
    revealFog (reg.map (setCombatFlag f)) hx v fg = revealFog reg hx v fg := by
  unfold revealFog
  rw [groupsAtReg_reflag, List.foldl_map]
  rfl

theorem revealSummary_reflag (f : String → Bool) (reg : List UnitGroup) (hx : Hex)
    (v : PlayerID) :
    revealSummary (reg.map (setCombatFlag f)) hx v = revealSummary reg hx v := by
  unfold revealSummary
  rw [groupsAtReg_reflag, List.map_map]
  rfl

theorem revealStep_reflag (f : String → Bool) (reg : List UnitGroup) (hx : Hex) :
    revealStep (reg.map (setCombatFlag f)) hx = revealStep reg hx := by
  funext acc v
  rw [revealStep_apply, revealStep_apply]
  rw [groupsAtReg_reflag, revealFog_reflag, revealSummary_reflag]
  by_cases h : (groupsAtReg reg hx).isEmpty
  · rw [if_pos (by cases hg : groupsAtReg reg hx <;> simp_all), if_pos h]
  · rw [if_neg (by cases hg : groupsAtReg reg hx <;> simp_all), if_neg h]

theorem revealHexToPlayers_reflag (f : String → Bool) (fg : Fog)
    (reg : List UnitGroup) (hx : Hex) (vs : List PlayerID) :
    revealHexToPlayers fg (reg.map (setCombatFlag f)) hx vs =
      revealHexToPlayers fg reg hx vs := by
  unfold revealHexToPlayers
  rw [revealStep_reflag]

/-- Every battle collected by `collect_battles` has at least two
owners with a combatant group (its `owners` field is exactly the
combatant-owner set). -/
theorem collect_battles_combatant_gate (s : GameState) (sites : List Hex) :
    ∀ b ∈ collect_battles s sites, 2 ≤ b.owners.length := by
  unfold collect_battles
  generalize sortBy hexLe sites = l
  suffices h : ∀ (l : List Hex) (acc : List Battle),
      (∀ b ∈ acc, 2 ≤ b.owners.length) →
      ∀ b ∈ l.foldl
        (fun battles hx =>
          let groups := s.groups_at hx
          if groups.isEmpty then battles
          else
            let byOwner := groupsByOwnerOf groups
            let combatantOwners :=
              (byOwner.filter (fun ow => ow.2.any (fun g => g.unitType.isCombatant))).map
                (fun ow => ow.1)
            if combatantOwners.length < 2 then battles
            else battles ++ [⟨hx, combatantOwners, byOwner⟩]) acc,
        2 ≤ b.owners.length by
    exact h l [] (by intro b hb; cases hb)
  intro l
  induction l with
  | nil => intro acc hacc b hb; exact hacc b hb
  | cons hx rest ih =>
    intro acc hacc b hb
    rw [List.foldl_cons] at hb
    refine ih _ ?_ b hb
    dsimp only
    by_cases h1 : (s.groups_at hx).isEmpty
    · rw [if_pos h1]; exact hacc
    · rw [if_neg h1]
      by_cases h2 : ((((groupsByOwnerOf (s.groups_at hx)).filter
          (fun ow => ow.2.any (fun g => g.unitType.isCombatant))).map
            (fun ow => ow.1)).length) < 2
      · rw [if_pos h2]; exact hacc
      · rw [if_neg h2]
        intro b2 hb2
        rw [List.mem_append] at hb2
        rcases hb2 with hb2 | hb2
        · exact hacc b2 hb2
        · rw [List.mem_singleton] at hb2
          subst hb2
          exact Nat.le_of_not_lt h2

/-- `resolve_combat` commutes with arbitrary rewrites of the combatant
flags: same events, reflagged registry. -/
theorem resolve_combat_reflag (f : String → Bool) (s : GameState)
    (o : PlayerID) (hx : Hex) :
    ((resolve_combat { s with unitGroups := s.unitGroups.map (setCombatFlag f) } o hx).1 =
        (resolve_combat s o hx).1) ∧
      ((resolve_combat { s with unitGroups := s.unitGroups.map (setCombatFlag f) } o hx).2.unitGroups =
        ((resolve_combat s o hx).2.unitGroups).map (setCombatFlag f)) := by
  have hu : ({ s with unitGroups := s.unitGroups.map (setCombatFlag f) } :
      GameState).unitGroups = s.unitGroups.map (setCombatFlag f) := rfl
  have hf : ({ s with unitGroups := s.unitGroups.map (setCombatFlag f) } :
      GameState).fog = s.fog := rfl
  have ht : ({ s with unitGroups := s.unitGroups.map (setCombatFlag f) } :
      GameState).turnNumber = s.turnNumber := rfl
  unfold resolve_combat
  rw [hu, hf, ht, aliveGroups_reflag, ownersPresent_reflag]
  by_cases h : (ownersPresent (aliveGroups s.unitGroups hx)).length < 2
  · simp only [if_pos h]
    exact ⟨trivial, trivial⟩
  · simp only [if_neg h]
    rw [revealHexToPlayers_reflag, combatCore_reflag]
    exact ⟨by rfl, by rfl⟩

/-- C8, amended: the combatant flag is never consulted inside
`resolve_combat` — rewriting every group's flag arbitrarily (in
particular marking non-combatants) changes neither the battle events
nor the resulting counts/damage/removals, so non-combatant groups
present at a battle are placed in volleys and fire exactly like
combatants.  The flag only gates which contested hexes become battles:
every battle `collect_battles` emits has at least two combatant
owners. -/
theorem C8_amended_combat_ignores_flag (f : String → Bool) (s : GameState)
    (o : PlayerID) (hx : Hex) :
    ((resolve_combat { s with unitGroups := s.unitGroups.map (setCombatFlag f) } o hx).1 =
        (resolve_combat s o hx).1) ∧
      ((resolve_combat { s with unitGroups := s.unitGroups.map (setCombatFlag f) } o hx).2.unitGroups =
        ((resolve_combat s o hx).2.unitGroups).map (setCombatFlag f)) ∧
      (∀ (sites : List Hex), ∀ b ∈ collect_battles s sites, 2 ≤ b.owners.length) := by
  exact ⟨(resolve_combat_reflag f s o hx).1, (resolve_combat_reflag f s o hx).2,
    fun sites => collect_battles_combatant_gate s sites⟩

/-- Witness for C8's amended theorem: flipping the decoy's flag to
"combatant" (and the battleship's to "non-combatant") leaves the battle
transcript unchanged. -/
theorem C8_amended_combat_ignores_flag_witness :
    (resolve_combat { fixBattleState with
        unitGroups := fixBattleState.unitGroups.map (setCombatFlag (fun gid => gid = "B1")) }
      "A" ⟨0, 0⟩).1 = (resolve_combat fixBattleState "A" ⟨0, 0⟩).1 :=
  (C8_amended_combat_ignores_flag (fun gid => gid = "B1") fixBattleState "A" ⟨0, 0⟩).1

/-! ## Association-list toolkit (for the marker tables, C5) -/

theorem alistGet?_put_self {α β : Type} [DecidableEq α] (l : List (α × β))
    (k : α) (v : β) : alistGet? (alistPut l k v) k = some v := by
  induction l with
  | nil => simp [alistPut, alistGet?]
  | cons a rest ih =>
    obtain ⟨k0, v0⟩ := a
    by_cases h : k0 = k
    · simp [alistPut, alistGet?, h]
    · simp [alistPut, alistGet?, h, ih]

theorem alistGet?_put_ne {α β : Type} [DecidableEq α] (l : List (α × β))
    (k w : α) (v : β) (h : w ≠ k) :
    alistGet? (alistPut l k v) w = alistGet? l w := by
  have hkw : ¬k = w := fun hh => h hh.symm
  induction l with
  | nil => simp [alistPut, alistGet?, hkw]
  | cons a rest ih =>
    obtain ⟨k0, v0⟩ := a
    simp only [alistPut]
    by_cases h0 : k0 = k
    · have hk0w : ¬k0 = w := by rw [h0]; exact hkw
      rw [if_pos h0]
      simp only [alistGet?]
      rw [if_neg hk0w, if_neg hk0w]
    · rw [if_neg h0]
      simp only [alistGet?]
      by_cases h1 : k0 = w
      · rw [if_pos h1, if_pos h1]
      · rw [if_neg h1, if_neg h1, ih]

theorem alistGetD_put_self {α β : Type} [DecidableEq α] (l : List (α × β))
    (k : α) (v d : β) : alistGetD (alistPut l k v) k d = v := by
  simp [alistGetD, alistGet?_put_self]

theorem alistGetD_put_ne {α β : Type} [DecidableEq α] (l : List (α × β))
    (k w : α) (v d : β) (h : w ≠ k) :
    alistGetD (alistPut l k v) w d = alistGetD l w d := by
  simp [alistGetD, alistGet?_put_ne l k w v h]

theorem alistGet?_append {α β : Type} [DecidableEq α] (l₁ l₂ : List (α × β))
    (k : α) :
    alistGet? (l₁ ++ l₂) k =
      match alistGet? l₁ k with
      | some v => some v
      | none => alistGet? l₂ k := by
  induction l₁ with
  | nil => simp [alistGet?]
  | cons a rest ih =>
    obtain ⟨k0, v0⟩ := a
    by_cases h : k0 = k
    · simp [alistGet?, h]
    · simp [alistGet?, h, ih]

theorem alistGetD_append_self_default {α β : Type} [DecidableEq α]
    (l : List (α × β)) (v w : α) (d : β) :
    alistGetD (l ++ [(v, d)]) w d = alistGetD l w d := by
  unfold alistGetD
  rw [alistGet?_append]
  cases h : alistGet? l w with
  | some x => rfl
  | none =>
    by_cases hv : v = w
    · simp [alistGet?, hv]
    · simp [alistGet?, hv]

theorem countKey_cons {α β : Type} [DecidableEq α] (a : α × β)
    (l : List (α × β)) (k : α) :
    countKey (a :: l) k = (if a.1 = k then 1 else 0) + countKey l k := by
  simp only [countKey, List.filter_cons]
  by_cases h : a.1 = k
  · simp [h, Nat.add_comm]
  · simp [h]

theorem countKey_put_self {α β : Type} [DecidableEq α] (l : List (α × β))
    (k : α) (v : β) : countKey (alistPut l k v) k = max 1 (countKey l k) := by
  induction l with
  | nil => simp [alistPut, countKey]
  | cons a rest ih =>
    obtain ⟨k0, v0⟩ := a
    simp only [alistPut]
    by_cases h : k0 = k
    · subst h
      rw [if_pos rfl, countKey_cons, countKey_cons]
      simp
    · rw [if_neg h, countKey_cons, countKey_cons, ih]
      simp [h]

theorem countKey_put_ne {α β : Type} [DecidableEq α] (l : List (α × β))
    (k g : α) (v : β) (h : k ≠ g) :
    countKey (alistPut l k v) g = countKey l g := by
  induction l with
  | nil => simp [alistPut, countKey, h]
  | cons a rest ih =>
    obtain ⟨k0, v0⟩ := a
    simp only [alistPut]
    by_cases h0 : k0 = k
    · subst h0
      rw [if_pos rfl, countKey_cons, countKey_cons]
    · rw [if_neg h0, countKey_cons, countKey_cons, ih]

theorem countKey_drop_le {α β : Type} [DecidableEq α] (l : List (α × β))
    (k g : α) : countKey (alistDrop l k) g ≤ countKey l g := by
  induction l with
  | nil => simp [alistDrop]
  | cons a rest ih =>
    obtain ⟨k0, v0⟩ := a
    simp only [alistDrop]
    by_cases h : k0 = k
    · rw [if_pos h, countKey_cons]
      omega
    · rw [if_neg h, countKey_cons, countKey_cons]
      omega

theorem alistGet?_eq_none_of_countKey_zero {α β : Type} [DecidableEq α]
    (l : List (α × β)) (k : α) (h : countKey l k = 0) :
    alistGet? l k = none := by
  induction l with
  | nil => rfl
  | cons a rest ih =>
    obtain ⟨k0, v0⟩ := a
    rw [countKey_cons] at h
    by_cases h0 : k0 = k
    · simp [h0] at h
    · simp only [alistGet?, if_neg h0]
      exact ih (by omega)

theorem alistGet?_drop_self {α β : Type} [DecidableEq α] (l : List (α × β))
    (k : α) (h : countKey l k ≤ 1) : alistGet? (alistDrop l k) k = none := by
  induction l with
  | nil => rfl
  | cons a rest ih =>
    obtain ⟨k0, v0⟩ := a
    rw [countKey_cons] at h
    simp only [alistDrop]
    by_cases h0 : k0 = k
    · rw [if_pos h0]
      apply alistGet?_eq_none_of_countKey_zero
      simp [h0] at h
      omega
    · rw [if_neg h0]
      simp only [alistGet?, if_neg h0]
      exact ih (by omega)

/-! ## Decimal strings are injective (marker tokens, C5) -/

theorem digitsVal_append_digit (l : List Char) (c : Char) :
    digitsVal (l ++ [c]) = digitsVal l * 10 + (c.toNat - 48) := by
  simp [digitsVal, List.foldl_append]

theorem digitChar_val (n : Nat) (h : n < 10) :
    (Nat.digitChar n).toNat - 48 = n := by
  interval_cases n <;> rfl

theorem natDigitsAux_val (fuel : Nat) :
    ∀ n : Nat, n < fuel → digitsVal (natDigitsAux fuel n) = n := by
  induction fuel with
  | zero => intro n hn; omega
  | succ fuel ih =>
    intro n hn
    by_cases h10 : n < 10
    · simp only [natDigitsAux, if_pos h10]
      show digitsVal [Nat.digitChar n] = n
      simp [digitsVal, digitChar_val n h10]
    · simp only [natDigitsAux, if_neg h10]
      rw [digitsVal_append_digit]
      rw [ih (n / 10) (by omega)]
      rw [digitChar_val (n % 10) (Nat.mod_lt n (by omega))]
      omega

theorem natDigits_val (n : Nat) : digitsVal (natDigits n) = n :=
  natDigitsAux_val (n + 1) n (Nat.lt_succ_self n)

theorem natStr_inj (a b : Nat) (h : natStr a = natStr b) : a = b := by
  have hd : natDigits a = natDigits b := by
    have := congrArg String.data h
    simpa [natStr] using this
  calc a = digitsVal (natDigits a) := (natDigits_val a).symm
    _ = digitsVal (natDigits b) := by rw [hd]
    _ = b := natDigits_val b

theorem markerStr_inj_pos (m n : Int) (hm : 1 ≤ m) (hn : 1 ≤ n)
    (h : markerStr m = markerStr n) : m = n := by
  have hm' : ¬m < 0 := by omega
  have hn' : ¬n < 0 := by omega
  have hmkInj : ∀ a b : String, a.data = b.data → a = b := by
    intro a b hab
    obtain ⟨da⟩ := a
    obtain ⟨db⟩ := b
    exact congrArg String.mk hab
  have hi : intStr m = intStr n := by
    have hdata := congrArg String.data h
    simp only [markerStr] at hdata
    have hM : ∀ s : String, ("M" ++ s).data = 'M' :: s.data := by
      intro s; obtain ⟨d⟩ := s; rfl
    rw [hM, hM] at hdata
    injection hdata with h1 h2
    exact hmkInj _ _ h2
  simp only [intStr, if_neg hm', if_neg hn'] at hi
  have := natStr_inj m.toNat n.toNat hi
  omega

/-! ## `ensure_viewer_tables` and the marker equations (C5) -/

theorem alistGetD_ensureField {α β : Type} [DecidableEq α]
    (l : List (α × β)) (v w : α) (d : β) :
    alistGetD (if (alistGet? l v).isSome then l else l ++ [(v, d)]) w d =
      alistGetD l w d := by
  split
  · rfl
  · exact alistGetD_append_self_default l v w d

theorem ensureViewer_nextIdx (f : Fog) (v w : PlayerID) :
    alistGetD (ensureViewer f v).nextMarkerIdx w 1 =
      alistGetD f.nextMarkerIdx w 1 :=
  alistGetD_ensureField f.nextMarkerIdx v w 1

theorem ensureViewer_markerFor (f : Fog) (v w : PlayerID) :
    alistGetD (ensureViewer f v).markerFor w [] =
      alistGetD f.markerFor w [] :=
  alistGetD_ensureField f.markerFor v w []

theorem ensureField_isSome {α β : Type} [DecidableEq α]
    (l : List (α × β)) (v : α) (d : β) :
    (alistGet? (if (alistGet? l v).isSome then l else l ++ [(v, d)]) v).isSome := by
  cases h : alistGet? l v with
  | some x => simp [h]
  | none => simp [alistGet?_append, h, alistGet?]

theorem ensureViewer_eq_self (f : Fog) (v : PlayerID)
    (h1 : (alistGet? f.revealedTo v).isSome)
    (h2 : (alistGet? f.markerFor v).isSome)
    (h3 : (alistGet? f.groupFor v).isSome)
    (h4 : (alistGet? f.nextMarkerIdx v).isSome) :
    ensureViewer f v = f := by
  unfold ensureViewer
  rw [if_pos h1, if_pos h2, if_pos h3, if_pos h4]

theorem ensureViewer_idem (f : Fog) (v : PlayerID) :
    ensureViewer (ensureViewer f v) v = ensureViewer f v :=
  ensureViewer_eq_self (ensureViewer f v) v
    (ensureField_isSome f.revealedTo v [])
    (ensureField_isSome f.markerFor v [])
    (ensureField_isSome f.groupFor v [])
    (ensureField_isSome f.nextMarkerIdx v 1)

theorem getMarkerId_hit (f : Fog) (v : PlayerID) (gid m : String)
    (h : alistGet? (alistGetD (ensureViewer f v).markerFor v []) gid = some m) :
    getMarkerId f v gid = (m, ensureViewer f v) := by
  simp only [getMarkerId, h]

theorem getMarkerId_miss (f : Fog) (v : PlayerID) (gid : String)
    (h : alistGet? (alistGetD (ensureViewer f v).markerFor v []) gid = none) :
    getMarkerId f v gid = allocMarker (ensureViewer f v) v gid := by
  simp only [getMarkerId, h, allocMarker]

theorem revealGroupTo_miss (f : Fog) (v : PlayerID) (gid : String)
    (h : alistGet? (alistGetD (ensureViewer f v).markerFor v []) gid = none) :
    revealGroupTo f v gid = revealBase (ensureViewer f v) v gid := by
  simp only [revealGroupTo, revealBase, h]

theorem revealGroupTo_hit (f : Fog) (v : PlayerID) (gid m : String)
    (h : alistGet? (alistGetD (ensureViewer f v).markerFor v []) gid = some m) :
    revealGroupTo f v gid =
      { revealBase (ensureViewer f v) v gid with
        markerFor := alistPut (ensureViewer f v).markerFor v
          (alistDrop (alistGetD (ensureViewer f v).markerFor v []) gid)
        groupFor := alistPut (ensureViewer f v).groupFor v
          (alistDrop (alistGetD (ensureViewer f v).groupFor v []) m) } := by
  simp only [revealGroupTo, revealBase, h]

/-! ## Marker invariants over operation traces (C5) -/

theorem markerInv_ensure (f : Fog) (v : PlayerID) (h : MarkerInv f) :
    MarkerInv (ensureViewer f v) := by
  refine ⟨fun w => ?_, fun w g => ?_⟩
  · rw [ensureViewer_nextIdx]; exact h.1 w
  · rw [ensureViewer_markerFor]; exact h.2 w g

theorem markerInv_query (f : Fog) (v : PlayerID) (gid : String)
    (h : MarkerInv f) : MarkerInv (getMarkerId f v gid).2 := by
  cases hm : alistGet? (alistGetD (ensureViewer f v).markerFor v []) gid with
  | some m =>
    rw [getMarkerId_hit f v gid m hm]
    exact markerInv_ensure f v h
  | none =>
    rw [getMarkerId_miss f v gid hm]
    have he := markerInv_ensure f v h
    refine ⟨fun w => ?_, fun w g => ?_⟩
    · show 1 ≤ alistGetD (alistPut (ensureViewer f v).nextMarkerIdx v
        (alistGetD (ensureViewer f v).nextMarkerIdx v 1 + 1)) w 1
      by_cases hw : w = v
      · subst hw
        rw [alistGetD_put_self]
        have := he.1 w
        omega
      · rw [alistGetD_put_ne _ _ _ _ _ hw]
        exact he.1 w
    · show countKey (alistGetD (alistPut (ensureViewer f v).markerFor v
        (alistPut (alistGetD (ensureViewer f v).markerFor v []) gid
          (markerStr (alistGetD (ensureViewer f v).nextMarkerIdx v 1)))) w []) g ≤ 1
      by_cases hw : w = v
      · subst hw
        rw [alistGetD_put_self]
        by_cases hg : gid = g
        · subst hg
          rw [countKey_put_self]
          have := he.2 w gid
          omega
        · rw [countKey_put_ne _ _ _ _ hg]
          exact he.2 w g
      · rw [alistGetD_put_ne _ _ _ _ _ hw]
        exact he.2 w g

theorem markerInv_reveal (f : Fog) (v : PlayerID) (gid : String)
    (h : MarkerInv f) : MarkerInv (revealGroupTo f v gid) := by
  have he := markerInv_ensure f v h
  cases hm : alistGet? (alistGetD (ensureViewer f v).markerFor v []) gid with
  | none =>
    rw [revealGroupTo_miss f v gid hm]
    exact ⟨he.1, he.2⟩
  | some m =>
    rw [revealGroupTo_hit f v gid m hm]
    refine ⟨fun w => he.1 w, fun w g => ?_⟩
    show countKey (alistGetD (alistPut (ensureViewer f v).markerFor v
      (alistDrop (alistGetD (ensureViewer f v).markerFor v []) gid)) w []) g ≤ 1
    by_cases hw : w = v
    · subst hw
      rw [alistGetD_put_self]
      calc countKey (alistDrop (alistGetD (ensureViewer f w).markerFor w []) gid) g
          ≤ countKey (alistGetD (ensureViewer f w).markerFor w []) g :=
            countKey_drop_le _ _ _
        _ ≤ 1 := he.2 w g
    · rw [alistGetD_put_ne _ _ _ _ _ hw]
      exact he.2 w g

theorem revealGroupTo_nextIdx (f : Fog) (v : PlayerID) (gid : String)
    (w : PlayerID) :
    alistGetD (revealGroupTo f v gid).nextMarkerIdx w 1 =
      alistGetD f.nextMarkerIdx w 1 := by
  cases hm : alistGet? (alistGetD (ensureViewer f v).markerFor v []) gid with
  | none =>
    rw [revealGroupTo_miss f v gid hm]
    exact ensureViewer_nextIdx f v w
  | some m =>
    rw [revealGroupTo_hit f v gid m hm]
    exact ensureViewer_nextIdx f v w

theorem allocMarker_nextIdx (f' : Fog) (v : PlayerID) (gid : String)
    (w : PlayerID) :
    alistGetD (allocMarker f' v gid).2.nextMarkerIdx w 1 =
      if w = v then alistGetD f'.nextMarkerIdx v 1 + 1
      else alistGetD f'.nextMarkerIdx w 1 := by
  by_cases hw : w = v
  · subst hw
    rw [if_pos rfl]
    exact alistGetD_put_self _ _ _ _
  · rw [if_neg hw]
    exact alistGetD_put_ne _ _ _ _ _ hw

theorem allocBound_mono (f f' : Fog) (as : List (PlayerID × String × String))
    (h : AllocBound f as)
    (hc : ∀ w, alistGetD f.nextMarkerIdx w 1 ≤ alistGetD f'.nextMarkerIdx w 1) :
    AllocBound f' as := by
  intro v t g hm
  obtain ⟨k, hk1, hk2, hk3⟩ := h v t g hm
  exact ⟨k, hk1, lt_of_lt_of_le hk2 (hc v), hk3⟩

theorem marker_step (f : Fog) (as : List (PlayerID × String × String))
    (op : MarkerOp) (h1 : MarkerInv f) (h2 : AllocBound f as)
    (h3 : AllocFun as) :
    MarkerInv (applyMarkerOp f op) ∧
      AllocBound (applyMarkerOp f op) (as ++ allocsOf f op) ∧
      AllocFun (as ++ allocsOf f op) := by
  cases op with
  | reveal v gid =>
    have ha : allocsOf f (MarkerOp.reveal v gid) = [] := rfl
    rw [ha, List.append_nil]
    refine ⟨markerInv_reveal f v gid h1, ?_, h3⟩
    exact allocBound_mono f _ as h2 (fun w => by
      show alistGetD f.nextMarkerIdx w 1 ≤
        alistGetD (revealGroupTo f v gid).nextMarkerIdx w 1
      rw [revealGroupTo_nextIdx])
  | query v gid =>
    cases hm : alistGet? (alistGetD (ensureViewer f v).markerFor v []) gid with
    | some m =>
      have ha : allocsOf f (MarkerOp.query v gid) = [] := by
        simp only [allocsOf, hm]
      have hg : applyMarkerOp f (MarkerOp.query v gid) = ensureViewer f v := by
        show (getMarkerId f v gid).2 = _
        rw [getMarkerId_hit f v gid m hm]
      rw [ha, hg, List.append_nil]
      refine ⟨markerInv_ensure f v h1, ?_, h3⟩
      exact allocBound_mono f _ as h2 (fun w => by rw [ensureViewer_nextIdx])
    | none =>
      have ha : allocsOf f (MarkerOp.query v gid) =
          [(v, (getMarkerId f v gid).1, gid)] := by
        simp only [allocsOf, hm]
      have hg : applyMarkerOp f (MarkerOp.query v gid) =
          (allocMarker (ensureViewer f v) v gid).2 := by
        show (getMarkerId f v gid).2 = _
        rw [getMarkerId_miss f v gid hm]
      have ht : (getMarkerId f v gid).1 =
          markerStr (alistGetD f.nextMarkerIdx v 1) := by
        rw [getMarkerId_miss f v gid hm]
        show markerStr (alistGetD (ensureViewer f v).nextMarkerIdx v 1) = _
        rw [ensureViewer_nextIdx]
      have hn1 : 1 ≤ alistGetD f.nextMarkerIdx v 1 := h1.1 v
      have hcnt : ∀ w, alistGetD (allocMarker (ensureViewer f v) v gid).2.nextMarkerIdx w 1 =
          if w = v then alistGetD f.nextMarkerIdx v 1 + 1
          else alistGetD f.nextMarkerIdx w 1 := by
        intro w
        rw [allocMarker_nextIdx]
        by_cases hw : w = v
        · rw [if_pos hw, if_pos hw, ensureViewer_nextIdx]
        · rw [if_neg hw, if_neg hw, ensureViewer_nextIdx]
      rw [ha, hg, ht]
      refine ⟨?_, ?_, ?_⟩
      · have := markerInv_query f v gid h1
        rw [getMarkerId_miss f v gid hm] at this
        exact this
      · intro w t g hmem
        rw [List.mem_append] at hmem
        cases hmem with
        | inl hold =>
          obtain ⟨k, hk1, hk2, hk3⟩ := h2 w t g hold
          refine ⟨k, hk1, ?_, hk3⟩
          rw [hcnt w]
          by_cases hw : w = v
          · subst hw
            rw [if_pos rfl]
            omega
          · rw [if_neg hw]
            exact hk2
        | inr hnew =>
          rw [List.mem_singleton] at hnew
          simp only [Prod.mk.injEq] at hnew
          obtain ⟨hw, ht2, hg2⟩ := hnew
          refine ⟨alistGetD f.nextMarkerIdx v 1, hn1, ?_, ht2⟩
          rw [hcnt w, if_pos hw]
          omega
      · intro w t g1 g2 hmem1 hmem2
        rw [List.mem_append, List.mem_singleton] at hmem1 hmem2
        have fresh : w = v → t = markerStr (alistGetD f.nextMarkerIdx v 1) →
            ∀ g', (w, t, g') ∈ as → False := by
          intro hw ht2 g' hin
          obtain ⟨k, hk1, hk2, hk3⟩ := h2 w t g' hin
          rw [hw] at hk2
          have : k = alistGetD f.nextMarkerIdx v 1 :=
            markerStr_inj_pos k _ hk1 hn1 (hk3.symm.trans ht2)
          omega
        cases hmem1 with
        | inl ho1 =>
          cases hmem2 with
          | inl ho2 => exact h3 w t g1 g2 ho1 ho2
          | inr he2 =>
            simp only [Prod.mk.injEq] at he2
            exact (fresh he2.1 he2.2.1 g1 ho1).elim
        | inr he1 =>
          cases hmem2 with
          | inl ho2 =>
            simp only [Prod.mk.injEq] at he1
            exact (fresh he1.1 he1.2.1 g2 ho2).elim
          | inr he2 =>
            simp only [Prod.mk.injEq] at he1 he2
            rw [he1.2.2, he2.2.2]

theorem marker_run (ops : List MarkerOp) :
    ∀ (f : Fog) (as : List (PlayerID × String × String)),
      MarkerInv f → AllocBound f as → AllocFun as →
      MarkerInv (ops.foldl applyMarkerOp f) ∧
        AllocBound (ops.foldl applyMarkerOp f) (as ++ allocTrace ops f) ∧
        AllocFun (as ++ allocTrace ops f) := by
  induction ops with
  | nil =>
    intro f as h1 h2 h3
    simpa [allocTrace] using ⟨h1, h2, h3⟩
  | cons op rest ih =>
    intro f as h1 h2 h3
    obtain ⟨g1, g2, g3⟩ := marker_step f as op h1 h2 h3
    have := ih (applyMarkerOp f op) (as ++ allocsOf f op) g1 g2 g3
    simpa [allocTrace, List.append_assoc] using this

theorem markerInv_initial : MarkerInv Fog.initial := by
  constructor
  · intro v; rfl
  · intro v g
    exact Nat.zero_le 1

theorem markerInv_run (ops : List MarkerOp) : MarkerInv (runMarkerOps ops) :=
  (marker_run ops Fog.initial [] markerInv_initial
    (fun _ _ _ hm => absurd hm (List.not_mem_nil _))
    (fun _ _ _ _ hm => absurd hm (List.not_mem_nil _))).1

theorem allocFun_run (ops : List MarkerOp) : AllocFun (markerAllocs ops) := by
  have := (marker_run ops Fog.initial [] markerInv_initial
    (fun _ _ _ hm => absurd hm (List.not_mem_nil _))
    (fun _ _ _ _ hm => absurd hm (List.not_mem_nil _))).2.2
  simpa [markerAllocs] using this

theorem alistGet?_put_isSome {α β : Type} [DecidableEq α]
    (l : List (α × β)) (k : α) (v : β) :
    (alistGet? (alistPut l k v) k).isSome := by
  rw [alistGet?_put_self]; rfl

theorem getMarkerId_stable (f : Fog) (v : PlayerID) (g : String) :
    getMarkerId (getMarkerId f v g).2 v g = getMarkerId f v g := by
  cases hm : alistGet? (alistGetD (ensureViewer f v).markerFor v []) g with
  | some m =>
    rw [getMarkerId_hit f v g m hm]
    have hm2 : alistGet?
        (alistGetD (ensureViewer (ensureViewer f v) v).markerFor v []) g =
        some m := by
      rw [ensureViewer_idem]; exact hm
    rw [getMarkerId_hit (ensureViewer f v) v g m hm2, ensureViewer_idem]
  | none =>
    rw [getMarkerId_miss f v g hm]
    have hsr : (alistGet? (allocMarker (ensureViewer f v) v g).2.revealedTo v).isSome :=
      ensureField_isSome f.revealedTo v []
    have hsm : (alistGet? (allocMarker (ensureViewer f v) v g).2.markerFor v).isSome :=
      alistGet?_put_isSome _ _ _
    have hsg : (alistGet? (allocMarker (ensureViewer f v) v g).2.groupFor v).isSome :=
      alistGet?_put_isSome _ _ _
    have hsn : (alistGet? (allocMarker (ensureViewer f v) v g).2.nextMarkerIdx v).isSome :=
      alistGet?_put_isSome _ _ _
    have hes : ensureViewer (allocMarker (ensureViewer f v) v g).2 v =
        (allocMarker (ensureViewer f v) v g).2 :=
      ensureViewer_eq_self _ v hsr hsm hsg hsn
    have hm2 : alistGet?
        (alistGetD (ensureViewer (allocMarker (ensureViewer f v) v g).2 v).markerFor v []) g =
        some (markerStr (alistGetD (ensureViewer f v).nextMarkerIdx v 1)) := by
      rw [hes]
      show alistGet? (alistGetD (alistPut (ensureViewer f v).markerFor v
          (alistPut (alistGetD (ensureViewer f v).markerFor v []) g
            (markerStr (alistGetD (ensureViewer f v).nextMarkerIdx v 1)))) v []) g = _
      rw [alistGetD_put_self, alistGet?_put_self]
    rw [getMarkerId_hit _ v g _ hm2, hes]
    rfl

theorem marker_first_queries (v : PlayerID) (g1 g2 : String) (hg : g1 ≠ g2) :
    (getMarkerId Fog.initial v g1).1 = "M1" ∧
    (getMarkerId (getMarkerId Fog.initial v g1).2 v g2).1 = "M2" := by
  have h1 : alistGet? (alistGetD (ensureViewer Fog.initial v).markerFor v []) g1 =
      none := by
    rw [ensureViewer_markerFor]
    rfl
  constructor
  · rw [getMarkerId_miss Fog.initial v g1 h1]
    show markerStr (alistGetD (ensureViewer Fog.initial v).nextMarkerIdx v 1) = "M1"
    rw [ensureViewer_nextIdx]
    rfl
  · rw [getMarkerId_miss Fog.initial v g1 h1]
    have h2 : alistGet? (alistGetD
        (ensureViewer (allocMarker (ensureViewer Fog.initial v) v g1).2 v).markerFor v []) g2 =
        none := by
      rw [ensureViewer_markerFor]
      show alistGet? (alistGetD (alistPut (ensureViewer Fog.initial v).markerFor v
          (alistPut (alistGetD (ensureViewer Fog.initial v).markerFor v []) g1
            (markerStr (alistGetD (ensureViewer Fog.initial v).nextMarkerIdx v 1)))) v []) g2 = none
      rw [alistGetD_put_self, alistGet?_put_ne _ _ _ _ (Ne.symm hg),
        ensureViewer_markerFor]
      rfl
    rw [getMarkerId_miss _ v g2 h2]
    show markerStr (alistGetD
      (ensureViewer (allocMarker (ensureViewer Fog.initial v) v g1).2 v).nextMarkerIdx v 1) = "M2"
    rw [ensureViewer_nextIdx]
    show markerStr (alistGetD (alistPut (ensureViewer Fog.initial v).nextMarkerIdx v
        (alistGetD (ensureViewer Fog.initial v).nextMarkerIdx v 1 + 1)) v 1) = "M2"
    rw [alistGetD_put_self, ensureViewer_nextIdx]
    rfl

theorem reveal_retires (ops : List MarkerOp) (v : PlayerID) (g : String) :
    alistGet? (alistGetD
      (runMarkerOps (ops ++ [MarkerOp.reveal v g])).markerFor v []) g = none := by
  have hinv := markerInv_run ops
  rw [runMarkerOps, List.foldl_append]
  show alistGet? (alistGetD (revealGroupTo (runMarkerOps ops) v g).markerFor v []) g =
    none
  cases hm : alistGet? (alistGetD (ensureViewer (runMarkerOps ops) v).markerFor v []) g with
  | none =>
    rw [revealGroupTo_miss _ v g hm]
    exact hm
  | some m =>
    rw [revealGroupTo_hit _ v g m hm]
    show alistGet? (alistGetD (alistPut (ensureViewer (runMarkerOps ops) v).markerFor v
        (alistDrop (alistGetD (ensureViewer (runMarkerOps ops) v).markerFor v []) g)) v []) g =
      none
    rw [alistGetD_put_self]
    apply alistGet?_drop_self
    rw [ensureViewer_markerFor]
    exact hinv.2 v g

/-- C5: for every viewer, marker allocation is stable and monotonic.
The first unrevealed group queried gets marker "M1" and the next
distinct group "M2"; a repeated query for the same still-hidden group
returns its existing marker and leaves the tables unchanged; over every
reachable table state a group id has at most one live marker entry per
viewer; revealing a group removes its marker mapping for that viewer;
and an allocated token is never allocated to a different group for the
same viewer. -/
theorem C5_marker_allocation :
    (∀ (v : PlayerID) (g1 g2 : String), g1 ≠ g2 →
      (getMarkerId Fog.initial v g1).1 = "M1" ∧
      (getMarkerId (getMarkerId Fog.initial v g1).2 v g2).1 = "M2") ∧
    (∀ (f : Fog) (v : PlayerID) (g : String),
      getMarkerId (getMarkerId f v g).2 v g = getMarkerId f v g) ∧
    (∀ (ops : List MarkerOp) (v : PlayerID) (g : String),
      countKey (alistGetD (runMarkerOps ops).markerFor v []) g ≤ 1) ∧
    (∀ (ops : List MarkerOp) (v : PlayerID) (g : String),
      alistGet? (alistGetD
        (runMarkerOps (ops ++ [MarkerOp.reveal v g])).markerFor v []) g = none) ∧
    (∀ (ops : List MarkerOp) (v : PlayerID) (t g1 g2 : String),
      (v, t, g1) ∈ markerAllocs ops → (v, t, g2) ∈ markerAllocs ops → g1 = g2) :=
  ⟨marker_first_queries, getMarkerId_stable,
   fun ops v g => (markerInv_run ops).2 v g, reveal_retires,
   fun ops => allocFun_run ops⟩

/-- Witness for C5: viewer "A" queries two distinct hidden groups and
gets "M1" then "M2"; across the trace query-reveal-query, the recorded
allocation of token "M1" names a unique group. -/
theorem C5_marker_allocation_witness :
    (getMarkerId Fog.initial "A" "gA").1 = "M1" ∧
    (getMarkerId (getMarkerId Fog.initial "A" "gA").2 "A" "gB").1 = "M2" ∧
    "gA" = "gA" :=
  ⟨(C5_marker_allocation.1 "A" "gA" "gB" (by decide)).1,
   (C5_marker_allocation.1 "A" "gA" "gB" (by decide)).2,
   C5_marker_allocation.2.2.2.2
     [MarkerOp.query "A" "gA", MarkerOp.reveal "A" "gA", MarkerOp.query "A" "gB"]
     "A" "M1" "gA" "gA" (by decide) (by decide)⟩

/-! ## Interception during movement (C4) -/

theorem getGroup_removeGroup_self (reg : List UnitGroup) (gid : String) :
    getGroup (removeGroup reg gid) gid = none := by
  unfold getGroup removeGroup
  rw [List.find?_eq_none]
  intro g hg
  rw [List.mem_filter] at hg
  simpa using hg.2

theorem getGroup_removeGroup_none (reg : List UnitGroup) (gid g' : String)
    (h : getGroup reg gid = none) : getGroup (removeGroup reg g') gid = none := by
  unfold getGroup removeGroup at *
  rw [List.find?_eq_none] at h ⊢
  intro x hx
  exact h x (List.mem_of_mem_filter hx)

theorem foldl_remove_preserves_none (E : List UnitGroup) :
    ∀ (reg : List UnitGroup) (gid : String), getGroup reg gid = none →
      getGroup (E.foldl (fun r x => removeGroup r x.groupId) reg) gid = none := by
  induction E with
  | nil => intro reg gid h; exact h
  | cons a rest ih =>
    intro reg gid h
    rw [List.foldl_cons]
    exact ih _ _ (getGroup_removeGroup_none _ _ _ h)

theorem getGroup_foldl_remove (E : List UnitGroup) :
    ∀ (reg : List UnitGroup) (e : UnitGroup), e ∈ E →
      getGroup (E.foldl (fun r x => removeGroup r x.groupId) reg) e.groupId =
        none := by
  induction E with
  | nil => intro reg e he; exact absurd he (List.not_mem_nil e)
  | cons a rest ih =>
    intro reg e he
    rw [List.foldl_cons]
    rcases List.mem_cons.mp he with h | h
    · subst h
      exact foldl_remove_preserves_none rest _ _ (getGroup_removeGroup_self _ _)
    · exact ih _ e h

theorem walkSteps_cons (mover : UnitGroup) (start dest : Hex)
    (pathLine : String) (stepHex : Hex) (rest : List Hex) (notes : List String)
    (s : GameState) :
    walkSteps mover start dest pathLine (stepHex :: rest) notes s =
      if (stepEnemies s mover stepHex).isEmpty then
        walkSteps { mover with location := stepHex } start dest pathLine rest
          notes (stepLogged s mover stepHex pathLine)
      else
        match interception_policy { mover with location := stepHex }
            (stepEnemies s mover stepHex) with
        | .PASS_THROUGH =>
          walkSteps { mover with location := stepHex } start dest pathLine rest
            notes (stepLogged s mover stepHex pathLine)
        | .PASS_THROUGH_DESTROY_NONCOMBAT =>
          walkSteps { mover with location := stepHex } start dest pathLine rest
            (notes ++ destroyNotesOf (stepEnemies s mover stepHex) stepHex)
            { stepLogged s mover stepHex pathLine with
              log := (stepLogged s mover stepHex pathLine).log ++
                destroyNotesOf (stepEnemies s mover stepHex) stepHex
              unitGroups := (stepEnemies s mover stepHex).foldl
                (fun r e => removeGroup r e.groupId)
                (stepLogged s mover stepHex pathLine).unitGroups }
        | .STOP_AND_MARK_COMBAT =>
          (⟨true, mover.groupId ++ " halted at " ++ hexStr stepHex ++
              " (combat pending).", stepHex, [stepHex], notes⟩,
            { stepLogged s mover stepHex pathLine with
              log := (stepLogged s mover stepHex pathLine).log ++
                [mover.groupId ++ " halted by enemy contact at " ++
                  hexStr stepHex ++ " (combat pending)."] }) := by
  rfl

theorem interception_policy_destroy (mover : UnitGroup) (E : List UnitGroup)
    (h1 : allNoncombat E = true) :
    interception_policy mover E = .PASS_THROUGH_DESTROY_NONCOMBAT := by
  simp [interception_policy, h1]

theorem interception_policy_pass (mover : UnitGroup) (E : List UnitGroup)
    (h1 : allNoncombat E = false)
    (h2 : maxSensorLevel E < mover.cloak_level) :
    interception_policy mover E = .PASS_THROUGH := by
  simp [interception_policy, h1, h2]

theorem interception_policy_stop (mover : UnitGroup) (E : List UnitGroup)
    (h1 : allNoncombat E = false)
    (h2 : ¬maxSensorLevel E < mover.cloak_level) :
    interception_policy mover E = .STOP_AND_MARK_COMBAT := by
  simp [interception_policy, h1, h2]

theorem isEmpty_false_of_ne_nil {α : Type} (l : List α) (h : l ≠ []) :
    l.isEmpty = false := by
  cases l with
  | nil => exact absurd rfl h
  | cons a t => rfl

/-- C4: movement-phase interception.  A valid move order enters the
step-by-step walk; at every step whose hex holds enemy groups: if all of
them are non-combatants they are all removed from the registry and the
walk continues with no combat site recorded; else if the mover's cloak
level beats the enemies' best sensor level the walk continues with no
state change beyond the move itself; otherwise the mover halts there,
the hex is the recorded pending combat site, and the order is reported
ok (halted, not failed). -/
theorem C4_interception_policy :
    (∀ (s : GameState) (gid : String) (dest : Hex) (g : UnitGroup)
        (path : List Hex),
      getGroup s.unitGroups gid = some g →
      s.activePlayer = some g.owner →
      g.location ≠ dest →
      bfs_path s.gameMap g.location dest = some path →
      (path.length : Int) ≤ g.movement →
      apply_move_movement_phase s gid dest =
        walkSteps g g.location dest (listHexStr path) path [] s) ∧
    (∀ (mover : UnitGroup) (start dest : Hex) (pathLine : String)
        (stepHex : Hex) (rest : List Hex) (notes : List String)
        (s : GameState),
      stepEnemies s mover stepHex ≠ [] →
      allNoncombat (stepEnemies s mover stepHex) = true →
      (walkSteps mover start dest pathLine (stepHex :: rest) notes s =
        walkSteps { mover with location := stepHex } start dest pathLine rest
          (notes ++ destroyNotesOf (stepEnemies s mover stepHex) stepHex)
          { stepLogged s mover stepHex pathLine with
            log := (stepLogged s mover stepHex pathLine).log ++
              destroyNotesOf (stepEnemies s mover stepHex) stepHex
            unitGroups := (stepEnemies s mover stepHex).foldl
              (fun r e => removeGroup r e.groupId)
              (stepLogged s mover stepHex pathLine).unitGroups }) ∧
      (∀ e ∈ stepEnemies s mover stepHex,
        getGroup ((stepEnemies s mover stepHex).foldl
          (fun r x => removeGroup r x.groupId)
          (stepLogged s mover stepHex pathLine).unitGroups) e.groupId = none)) ∧
    (∀ (mover : UnitGroup) (start dest : Hex) (pathLine : String)
        (stepHex : Hex) (rest : List Hex) (notes : List String)
        (s : GameState),
      stepEnemies s mover stepHex ≠ [] →
      allNoncombat (stepEnemies s mover stepHex) = false →
      maxSensorLevel (stepEnemies s mover stepHex) < mover.cloak_level →
      walkSteps mover start dest pathLine (stepHex :: rest) notes s =
        walkSteps { mover with location := stepHex } start dest pathLine rest
          notes (stepLogged s mover stepHex pathLine)) ∧
    (∀ (mover : UnitGroup) (start dest : Hex) (pathLine : String)
        (stepHex : Hex) (rest : List Hex) (notes : List String)
        (s : GameState),
      stepEnemies s mover stepHex ≠ [] →
      allNoncombat (stepEnemies s mover stepHex) = false →
      ¬maxSensorLevel (stepEnemies s mover stepHex) < mover.cloak_level →
      walkSteps mover start dest pathLine (stepHex :: rest) notes s =
        (⟨true, mover.groupId ++ " halted at " ++ hexStr stepHex ++
            " (combat pending).", stepHex, [stepHex], notes⟩,
          { stepLogged s mover stepHex pathLine with
            log := (stepLogged s mover stepHex pathLine).log ++
              [mover.groupId ++ " halted by enemy contact at " ++
                hexStr stepHex ++ " (combat pending)."] })) := by
  refine ⟨?_, ?_, ?_, ?_⟩
  · intro s gid dest g path hg hap hsd hbfs hmv
    simp only [apply_move_movement_phase, hg]
    rw [if_neg (fun hne => hne hap), if_neg hsd]
    simp only [hbfs]
    rw [if_neg (not_lt.mpr hmv)]
  · intro mover start dest pathLine stepHex rest notes s hne h1
    constructor
    · rw [walkSteps_cons, isEmpty_false_of_ne_nil _ hne]
      rw [interception_policy_destroy _ _ h1]
      rfl
    · intro e he
      exact getGroup_foldl_remove _ _ e he
  · intro mover start dest pathLine stepHex rest notes s hne h1 h2
    rw [walkSteps_cons, isEmpty_false_of_ne_nil _ hne]
    have h2' : maxSensorLevel (stepEnemies s mover stepHex) <
        ({ mover with location := stepHex } : UnitGroup).cloak_level := h2
    rw [interception_policy_pass _ _ h1 h2']
    rfl
  · intro mover start dest pathLine stepHex rest notes s hne h1 h2
    rw [walkSteps_cons, isEmpty_false_of_ne_nil _ hne]
    have h2' : ¬maxSensorLevel (stepEnemies s mover stepHex) <
        ({ mover with location := stepHex } : UnitGroup).cloak_level := h2
    rw [interception_policy_stop _ _ h1 h2']
    rfl

/-- Witness for C4: the mover is halted (ok, combat site recorded) by a
combatant blocker at (1,0), and a lone non-combatant enemy at (1,0) is
removed from the registry during pass-through. -/
theorem C4_interception_policy_witness :
    ((walkSteps fixMover ⟨0, 0⟩ ⟨2, 0⟩ "p" [⟨1, 0⟩, ⟨2, 0⟩] []
        fixInterceptState).1.ok = true ∧
      (walkSteps fixMover ⟨0, 0⟩ ⟨2, 0⟩ "p" [⟨1, 0⟩, ⟨2, 0⟩] []
        fixInterceptState).1.combatSites = [⟨1, 0⟩]) ∧
    getGroup ((stepEnemies fixInterceptState2 fixMover ⟨1, 0⟩).foldl
      (fun r x => removeGroup r x.groupId)
      (stepLogged fixInterceptState2 fixMover ⟨1, 0⟩ "p").unitGroups)
      fixNC.groupId = none := by
  constructor
  · have h := (C4_interception_policy.2.2.2 fixMover ⟨0, 0⟩ ⟨2, 0⟩ "p" ⟨1, 0⟩
      [⟨2, 0⟩] [] fixInterceptState (by decide) (by decide) (by decide))
    rw [h]
    exact ⟨rfl, rfl⟩
  · exact (C4_interception_policy.2.1 fixMover ⟨0, 0⟩ ⟨2, 0⟩ "p" ⟨1, 0⟩
      [⟨2, 0⟩] [] fixInterceptState2 (by decide) (by decide)).2 fixNC (by decide)

/-! ## BFS correctness (C3): walk and table toolkit -/

theorem validWalk_nil (m : GameMap) (a b : Hex) :
    validWalk m a [] b = true ↔ a = b := by
  simp [validWalk]

theorem validWalk_cons (m : GameMap) (a h b : Hex) (rest : List Hex) :
    validWalk m a (h :: rest) b = true ↔
      isStep m a h = true ∧ validWalk m h rest b = true := by
  simp [validWalk]

theorem validWalk_snoc (m : GameMap) :
    ∀ (w : List Hex) (a b c : Hex), validWalk m a w b = true →
      isStep m b c = true → validWalk m a (w ++ [c]) c = true := by
  intro w
  induction w with
  | nil =>
    intro a b c hw hs
    rw [validWalk_nil] at hw
    subst hw
    rw [List.nil_append, validWalk_cons]
    exact ⟨hs, (validWalk_nil m c c).mpr rfl⟩
  | cons h rest ih =>
    intro a b c hw hs
    rw [validWalk_cons] at hw
    rw [List.cons_append, validWalk_cons]
    exact ⟨hw.1, ih h b c hw.2 hs⟩

theorem validWalk_snoc_elim (m : GameMap) :
    ∀ (w : List Hex) (a b : Hex), validWalk m a w b = true → w ≠ [] →
      ∃ w0 q, w = w0 ++ [b] ∧ validWalk m a w0 q = true ∧
        isStep m q b = true := by
  intro w
  induction w with
  | nil => intro a b _ hne; exact absurd rfl hne
  | cons h rest ih =>
    intro a b hw _
    rw [validWalk_cons] at hw
    cases rest with
    | nil =>
      rw [validWalk_nil] at hw
      obtain ⟨hs, hb⟩ := hw
      subst hb
      exact ⟨[], a, by simp, (validWalk_nil m a a).mpr rfl, hs⟩
    | cons x xs =>
      obtain ⟨w0, q, heq, hw0, hs⟩ := ih h b hw.2 (List.cons_ne_nil x xs)
      exact ⟨h :: w0, q, by rw [heq]; rfl,
        by rw [validWalk_cons]; exact ⟨hw.1, hw0⟩, hs⟩

theorem reachW_zero (m : GameMap) (start u : Hex) :
    ReachW m start u 0 ↔ u = start := by
  constructor
  · rintro ⟨p, hw, hl⟩
    rw [List.length_eq_zero] at hl
    subst hl
    exact ((validWalk_nil m start u).mp hw).symm
  · rintro rfl
    exact ⟨[], (validWalk_nil m _ _).mpr rfl, rfl⟩

theorem reachW_succ_elim (m : GameMap) (start u : Hex) (k : Nat)
    (h : ReachW m start u (k + 1)) :
    ∃ q, ReachW m start q k ∧ isStep m q u = true := by
  obtain ⟨p, hw, hl⟩ := h
  have hne : p ≠ [] := by
    intro hp
    rw [hp] at hl
    exact absurd hl.symm (Nat.succ_ne_zero k)
  obtain ⟨w0, q, heq, hw0, hs⟩ := validWalk_snoc_elim m p start u hw hne
  refine ⟨q, ⟨w0, hw0, ?_⟩, hs⟩
  have : p.length = w0.length + 1 := by rw [heq]; simp
  omega

theorem reachW_step (m : GameMap) (start q u : Hex) (k : Nat)
    (h : ReachW m start q k) (hs : isStep m q u = true) :
    ReachW m start u (k + 1) := by
  obtain ⟨p, hw, hl⟩ := h
  refine ⟨p ++ [u], validWalk_snoc m p start q u hw hs, ?_⟩
  simp [hl]

theorem keysOf_append (cf₁ cf₂ : CameFrom) :
    keysOf (cf₁ ++ cf₂) = keysOf cf₁ ++ keysOf cf₂ := by
  simp [keysOf]

theorem mem_keysOf (cf : CameFrom) (h : Hex) :
    h ∈ keysOf cf ↔ ∃ po, (h, po) ∈ cf := by
  constructor
  · intro hm
    rw [keysOf, List.mem_map] at hm
    obtain ⟨e, he, heq⟩ := hm
    exact ⟨e.2, by rw [← heq]; exact he⟩
  · rintro ⟨po, hm⟩
    rw [keysOf, List.mem_map]
    exact ⟨(h, po), hm, rfl⟩

theorem alistGet?_isSome_of_mem_keys (cf : CameFrom) (h : Hex)
    (hm : h ∈ keysOf cf) : ∃ po, alistGet? cf h = some po := by
  induction cf with
  | nil => simp [keysOf] at hm
  | cons e rest ih =>
    obtain ⟨k0, v0⟩ := e
    by_cases hk : k0 = h
    · exact ⟨v0, by simp [alistGet?, hk]⟩
    · have : h ∈ keysOf rest := by
        rw [keysOf] at hm
        simp at hm
        rcases hm with h1 | h1
        · exact absurd h1.symm hk
        · rw [keysOf]
          simpa using h1
      obtain ⟨po, hpo⟩ := ih this
      exact ⟨po, by simp [alistGet?, hk, hpo]⟩

theorem alistGet?_none_of_not_mem_keys (cf : CameFrom) (h : Hex)
    (hm : h ∉ keysOf cf) : alistGet? cf h = none := by
  induction cf with
  | nil => rfl
  | cons e rest ih =>
    obtain ⟨k0, v0⟩ := e
    have h1 : ¬k0 = h := by
      intro hk
      exact hm (by rw [keysOf]; simp [hk])
    have h2 : h ∉ keysOf rest := by
      intro hk
      refine hm ?_
      rw [keysOf] at hk ⊢
      simpa using Or.inr (by simpa using hk)
    simp [alistGet?, h1, ih h2]

theorem alistGet?_of_mem_nodup (cf : CameFrom) (h : Hex) (po : Option Hex)
    (hnd : (keysOf cf).Nodup) (hm : (h, po) ∈ cf) :
    alistGet? cf h = some po := by
  induction cf with
  | nil => simp at hm
  | cons e rest ih =>
    obtain ⟨k0, v0⟩ := e
    rw [keysOf] at hnd
    simp only [List.map_cons, List.nodup_cons] at hnd
    rcases List.mem_cons.mp hm with h1 | h1
    · rw [Prod.mk.injEq] at h1
      simp [alistGet?, h1.1, h1.2]
    · have hk : ¬k0 = h := by
        intro hk
        subst hk
        exact hnd.1 ((mem_keysOf rest k0).mpr ⟨po, h1⟩)
      simp [alistGet?, hk]
      exact ih hnd.2 h1

theorem chain'_head_le (dep : Hex → Nat) :
    ∀ (l : List Hex) (a : Hex),
      List.Chain' (fun x y => dep x ≤ dep y) (a :: l) →
      ∀ x ∈ a :: l, dep a ≤ dep x := by
  intro l
  induction l with
  | nil =>
    intro a _ x hx
    rw [List.mem_singleton] at hx
    subst hx
    exact le_refl _
  | cons b t ih =>
    intro a hc x hx
    have hab : dep a ≤ dep b := List.chain'_cons.mp hc |>.1
    rcases List.mem_cons.mp hx with h1 | h1
    · subst h1; exact le_refl _
    · exact le_trans hab (ih b (List.chain'_cons.mp hc).2 x h1)

theorem chain'_const (dep : Hex → Nat) (c : Nat) :
    ∀ (l : List Hex), (∀ x ∈ l, dep x = c) →
      List.Chain' (fun x y => dep x ≤ dep y) l := by
  intro l
  induction l with
  | nil => intro _; exact List.chain'_nil
  | cons a t ih =>
    intro hc
    cases t with
    | nil => exact List.chain'_singleton a
    | cons b u =>
      rw [List.chain'_cons]
      refine ⟨?_, ih fun x hx => hc x (List.mem_cons_of_mem a hx)⟩
      rw [hc a (List.mem_cons_self a _), hc b (List.mem_cons_of_mem a (List.mem_cons_self b u))]

theorem nodup_inBounds_length_le (m : GameMap) (l : List Hex)
    (hnd : l.Nodup) (hib : ∀ h ∈ l, m.in_bounds h = true) :
    l.length ≤ inBoundsCount m := by
  classical
  have hinj : ∀ x ∈ l, ∀ y ∈ l, (fun h : Hex => (h.q, h.r)) x =
      (fun h : Hex => (h.q, h.r)) y → x = y := by
    intro x _ y _ hxy
    simp only [Prod.mk.injEq] at hxy
    cases x; cases y
    simp_all
  have hnd2 : (l.map (fun h : Hex => (h.q, h.r))).Nodup := List.Nodup.map_on hinj hnd
  have hsub : (l.map (fun h : Hex => (h.q, h.r))).toFinset ⊆
      Finset.Icc m.qMin m.qMax ×ˢ Finset.Icc m.rMin m.rMax := by
    intro x hx
    rw [List.mem_toFinset, List.mem_map] at hx
    obtain ⟨h, hh, heq⟩ := hx
    have hb := hib h hh
    rw [GameMap.in_bounds] at hb
    simp only [Bool.and_eq_true, decide_eq_true_eq] at hb
    rw [Finset.mem_product]
    subst heq
    constructor
    · rw [Finset.mem_Icc]; exact ⟨hb.1.1.1, hb.1.1.2⟩
    · rw [Finset.mem_Icc]; exact ⟨hb.1.2, hb.2⟩
  calc l.length = (l.map (fun h : Hex => (h.q, h.r))).length := by simp
    _ = (l.map (fun h : Hex => (h.q, h.r))).toFinset.card :=
        (List.toFinset_card_of_nodup hnd2).symm
    _ ≤ (Finset.Icc m.qMin m.qMax ×ˢ Finset.Icc m.rMin m.rMax).card :=
        Finset.card_le_card hsub
    _ = (Finset.Icc m.qMin m.qMax).card * (Finset.Icc m.rMin m.rMax).card :=
        Finset.card_product _ _
    _ = inBoundsCount m := by
        rw [Int.card_Icc, Int.card_Icc, inBoundsCount]
        have h1 : m.qMax + 1 - m.qMin = m.qMax - m.qMin + 1 := by ring
        have h2 : m.rMax + 1 - m.rMin = m.rMax - m.rMin + 1 := by ring
        rw [h1, h2]

theorem expandNode_eq_go (m : GameMap) (cur : Hex) (cf : CameFrom) :
    expandNode m cur cf = expandGo m cur (orderedNeighbors cur) (cf, []) := rfl

theorem expandGo_nil (m : GameMap) (cur : Hex) (acc : CameFrom × List Hex) :
    expandGo m cur [] acc = acc := rfl

theorem expandGo_cons (m : GameMap) (cur nxt : Hex) (ns : List Hex)
    (cf : CameFrom) (adds : List Hex) :
    expandGo m cur (nxt :: ns) (cf, adds) =
      expandGo m cur ns
        (if !(m.is_passable nxt) then (cf, adds)
         else if (alistGet? cf nxt).isSome then (cf, adds)
         else (cf ++ [(nxt, some cur)], adds ++ [nxt])) := rfl

theorem expandGo_spec (m : GameMap) (cur : Hex) :
    ∀ (ns : List Hex) (cf0 : CameFrom) (adds0 : List Hex),
      (∀ x ∈ ns, x ∈ orderedNeighbors cur) →
      ∃ newEn : CameFrom,
        (expandGo m cur ns (cf0, adds0)).1 = cf0 ++ newEn ∧
        (expandGo m cur ns (cf0, adds0)).2 = adds0 ++ keysOf newEn ∧
        (∀ e ∈ newEn, e.2 = some cur ∧ isStep m cur e.1 = true ∧
          e.1 ∉ keysOf cf0) ∧
        ((keysOf cf0).Nodup → (keysOf (cf0 ++ newEn)).Nodup) ∧
        (∀ u ∈ ns, isStep m cur u = true → u ∈ keysOf (cf0 ++ newEn)) := by
  intro ns
  induction ns with
  | nil =>
    intro cf0 adds0 _
    refine ⟨[], by rw [expandGo_nil, List.append_nil], by rw [expandGo_nil]; simp [keysOf], ?_, ?_, ?_⟩
    · intro e he; simp at he
    · intro h; rw [List.append_nil]; exact h
    · intro u hu; simp at hu
  | cons nxt ns ih =>
    intro cf0 adds0 hns
    have hns' : ∀ x ∈ ns, x ∈ orderedNeighbors cur :=
      fun x hx => hns x (List.mem_cons_of_mem nxt hx)
    by_cases hp : m.is_passable nxt = true
    · by_cases hin : (alistGet? cf0 nxt).isSome = true
      · -- already discovered: skip
        obtain ⟨newEn, h1, h2, h3, h4, h5⟩ := ih cf0 adds0 hns'
        have hstep : expandGo m cur (nxt :: ns) (cf0, adds0) =
            expandGo m cur ns (cf0, adds0) := by
          rw [expandGo_cons, hp, hin]
          rfl
        have hmemk : nxt ∈ keysOf cf0 := by
          by_contra hc
          rw [alistGet?_none_of_not_mem_keys cf0 nxt hc] at hin
          exact absurd hin (by simp)
        refine ⟨newEn, by rw [hstep]; exact h1, by rw [hstep]; exact h2, h3, h4, ?_⟩
        intro u hu hs
        rcases List.mem_cons.mp hu with h | h
        · subst h
          rw [keysOf_append]
          exact List.mem_append_left _ hmemk
        · exact h5 u h hs
      · -- fresh: append the entry
        obtain ⟨newEn, h1, h2, h3, h4, h5⟩ :=
          ih (cf0 ++ [(nxt, some cur)]) (adds0 ++ [nxt]) hns'
        have hstep : expandGo m cur (nxt :: ns) (cf0, adds0) =
            expandGo m cur ns (cf0 ++ [(nxt, some cur)], adds0 ++ [nxt]) := by
          rw [expandGo_cons, hp]
          simp only [Bool.not_true, Bool.false_eq_true, if_false]
          rw [if_neg hin]
        have hfresh : nxt ∉ keysOf cf0 := by
          intro hc
          obtain ⟨po, hpo⟩ := alistGet?_isSome_of_mem_keys cf0 nxt hc
          rw [hpo] at hin
          exact hin rfl
        have hstep2 : isStep m cur nxt = true := by
          rw [isStep]
          simp [hns nxt (List.mem_cons_self nxt ns), hp]
        refine ⟨(nxt, some cur) :: newEn, ?_, ?_, ?_, ?_, ?_⟩
        · rw [hstep, h1, List.append_assoc]
          rfl
        · rw [hstep, h2]
          simp [keysOf]
        · intro e he
          rcases List.mem_cons.mp he with h | h
          · subst h
            exact ⟨rfl, hstep2, hfresh⟩
          · obtain ⟨ha, hb, hc⟩ := h3 e h
            refine ⟨ha, hb, fun hmem => hc ?_⟩
            rw [keysOf_append]
            exact List.mem_append_left _ hmem
        · intro hnd
          have hnd1 : (keysOf (cf0 ++ [(nxt, some cur)])).Nodup := by
            rw [keysOf_append]
            simp only [keysOf, List.map_cons, List.map_nil]
            rw [List.nodup_append]
            refine ⟨hnd, List.nodup_singleton nxt, ?_⟩
            intro a ha hb
            rw [List.mem_singleton] at hb
            subst hb
            exact hfresh ha
          have := h4 hnd1
          rw [List.append_assoc] at this
          exact this
        · intro u hu hs
          rcases List.mem_cons.mp hu with h | h
          · subst h
            rw [keysOf_append]
            refine List.mem_append_right _ ?_
            simp [keysOf]
          · have := h5 u h hs
            rw [List.append_assoc] at this
            exact this
    · -- impassable: skip, and no passable step exists to nxt
      obtain ⟨newEn, h1, h2, h3, h4, h5⟩ := ih cf0 adds0 hns'
      have hstep : expandGo m cur (nxt :: ns) (cf0, adds0) =
          expandGo m cur ns (cf0, adds0) := by
        have hpf : m.is_passable nxt = false := Bool.eq_false_iff.mpr hp
        rw [expandGo_cons, hpf]
        rfl
      refine ⟨newEn, by rw [hstep]; exact h1, by rw [hstep]; exact h2, h3, h4, ?_⟩
      intro u hu hs
      rcases List.mem_cons.mp hu with h | h
      · subst h
        rw [isStep, Bool.and_eq_true] at hs
        exact absurd hs.2 hp
      · exact h5 u h hs

theorem chain'_mono_congr (f g : Hex → Nat) :
    ∀ l : List Hex, (∀ x ∈ l, f x = g x) →
      List.Chain' (fun a b => f a ≤ f b) l →
      List.Chain' (fun a b => g a ≤ g b) l := by
  intro l
  induction l with
  | nil => intro _ _; exact List.chain'_nil
  | cons a t ih =>
    intro hfg hc
    cases t with
    | nil => exact List.chain'_singleton a
    | cons b u =>
      rw [List.chain'_cons] at hc ⊢
      refine ⟨?_, ih (fun x hx => hfg x (List.mem_cons_of_mem a hx)) hc.2⟩
      rw [← hfg a (List.mem_cons_self a _),
        ← hfg b (List.mem_cons_of_mem a (List.mem_cons_self b u))]
      exact hc.1

theorem mem_of_getLast?_mem {α : Type} (l : List α) (x : α)
    (hx : x ∈ l.getLast?) : x ∈ l := by
  obtain ⟨hne, hxl⟩ := List.mem_getLast?_eq_getLast hx
  rw [hxl]
  exact List.getLast_mem hne

/-- One BFS iteration preserves the invariant: pop `cur`, expand it, and
label the fresh discoveries with depth `dep cur + 1`. -/
theorem bfs_step (m : GameMap) (start : Hex) (P : List Hex) (cur : Hex)
    (rest : List Hex) (cf : CameFrom) (dep : Hex → Nat)
    (inv : BfsInv m start P (cur :: rest) cf dep) :
    ∃ dep', BfsInv m start (P ++ [cur]) (rest ++ (expandNode m cur cf).2)
        (expandNode m cur cf).1 dep' ∧
      (∀ h ∈ keysOf cf, dep' h = dep h) ∧
      (∀ h ∈ keysOf cf, h ∈ keysOf (expandNode m cur cf).1) := by
  obtain ⟨newEn, h1, h2, h3, h4, h5⟩ :=
    expandGo_spec m cur (orderedNeighbors cur) cf [] (fun x hx => hx)
  rw [← expandNode_eq_go] at h1 h2
  rw [List.nil_append] at h2
  have hcurmem : cur ∈ keysOf cf := by
    rw [inv.keys_eq, List.mem_append]
    exact Or.inr (List.mem_cons_self cur rest)
  have hfreshdisj : ∀ x ∈ keysOf newEn, x ∉ keysOf cf := by
    intro x hx
    rw [mem_keysOf] at hx
    obtain ⟨po, hpo⟩ := hx
    exact (h3 (x, po) hpo).2.2
  refine ⟨fun h => if h ∈ keysOf newEn then dep cur + 1 else dep h, ?_,
    fun h hh => if_neg (fun hc => hfreshdisj h hc hh),
    fun h hh => by rw [h1, keysOf_append]; exact List.mem_append_left _ hh⟩
  have hF1 : ∀ h ∈ keysOf cf,
      (if h ∈ keysOf newEn then dep cur + 1 else dep h) = dep h :=
    fun h hh => if_neg (fun hc => hfreshdisj h hc hh)
  have hF2 : ∀ x ∈ keysOf newEn,
      (if x ∈ keysOf newEn then dep cur + 1 else dep x) = dep cur + 1 :=
    fun x hx => if_pos hx
  have hkeys2 : keysOf (expandNode m cur cf).1 = keysOf cf ++ keysOf newEn := by
    rw [h1, keysOf_append]
  have hmem2 : ∀ x, x ∈ keysOf (expandNode m cur cf).1 ↔
      x ∈ keysOf cf ∨ x ∈ keysOf newEn := by
    intro x
    rw [hkeys2, List.mem_append]
  -- the layer-completeness argument
  have lem9 : ∀ j, j ≤ dep cur → ∀ u, ReachW m start u j → u ∈ keysOf cf := by
    intro j
    induction j with
    | zero =>
      intro _ u hr
      rw [reachW_zero] at hr
      subst hr
      exact inv.start_mem
    | succ k ihk =>
      intro hj u hr
      obtain ⟨q, hq, hs⟩ := reachW_succ_elim m start u k hr
      have hqmem : q ∈ keysOf cf := ihk (by omega) q hq
      rw [inv.keys_eq, List.mem_append] at hqmem
      rcases hqmem with hP | hF
      · exact inv.closure q hP u hs
      · exfalso
        have hd1 : dep cur ≤ dep q := chain'_head_le dep rest cur inv.chainF q hF
        have hd2 : dep q ≤ k :=
          (inv.dist q (by rw [inv.keys_eq, List.mem_append]; exact Or.inr hF)).2 k hq
        omega
  refine ⟨?_, ?_, ?_, ?_, ?_, ?_, ?_, ?_, ?_, ?_, ?_⟩
  · -- keys_eq
    rw [hkeys2, h2, inv.keys_eq]
    simp [List.append_assoc]
  · -- keys_nodup
    rw [h1]
    exact h4 inv.keys_nodup
  · -- parent
    intro e he
    rw [h1, List.mem_append] at he
    rcases he with hold | hnew
    · rcases inv.parent e hold with hl | ⟨p, hp1, hp2, hp3, hp4⟩
      · exact Or.inl hl
      · refine Or.inr ⟨p, hp1, hp2, ?_, ?_⟩
        · have he1 : e.1 ∈ keysOf cf := (mem_keysOf cf e.1).mpr ⟨e.2, hold⟩
          rw [hF1 e.1 he1, hF1 p hp4]
          exact hp3
        · rw [hmem2]
          exact Or.inl hp4
    · obtain ⟨he2, hstep, hfresh⟩ := h3 e hnew
      refine Or.inr ⟨cur, he2, hstep, ?_, ?_⟩
      · have he1 : e.1 ∈ keysOf newEn := (mem_keysOf newEn e.1).mpr ⟨e.2, hnew⟩
        rw [hF2 e.1 he1, hF1 cur hcurmem]
      · rw [hmem2]
        exact Or.inl hcurmem
  · -- dep_bound
    intro h hh
    rw [hmem2] at hh
    have hlen : cf.length ≤ (expandNode m cur cf).1.length := by
      rw [h1, List.length_append]
      omega
    rcases hh with hold | hnew
    · rw [hF1 h hold]
      exact le_trans (inv.dep_bound h hold) hlen
    · rw [hF2 h hnew]
      have hne : newEn ≠ [] := by
        intro hc
        rw [hc] at hnew
        simp [keysOf] at hnew
      have hlen2 : 1 ≤ newEn.length := by
        cases newEn with
        | nil => exact absurd rfl hne
        | cons a t => simp
      have := inv.dep_bound cur hcurmem
      rw [h1, List.length_append]
      omega
  · -- dep_start
    rw [hF1 start inv.start_mem]
    exact inv.dep_start
  · -- start_mem
    rw [hmem2]
    exact Or.inl inv.start_mem
  · -- keys_passable
    intro h hh
    rw [hmem2] at hh
    rcases hh with hold | hnew
    · exact inv.keys_passable h hold
    · rw [mem_keysOf] at hnew
      obtain ⟨po, hpo⟩ := hnew
      have := (h3 (h, po) hpo).2.1
      rw [isStep, Bool.and_eq_true] at this
      exact this.2
  · -- dist
    intro h hh
    rw [hmem2] at hh
    rcases hh with hold | hnew
    · rw [hF1 h hold]
      exact inv.dist h hold
    · rw [hF2 h hnew]
      have hstep : isStep m cur h = true := by
        rw [mem_keysOf] at hnew
        obtain ⟨po, hpo⟩ := hnew
        exact (h3 (h, po) hpo).2.1
      constructor
      · exact reachW_step m start cur h (dep cur) (inv.dist cur hcurmem).1 hstep
      · intro k hk
        by_contra hc
        push_neg at hc
        have hk2 : k ≤ dep cur := by omega
        have := lem9 k hk2 h hk
        exact hfreshdisj h hnew this
  · -- closure
    intro p hp u hs
    rw [List.mem_append, List.mem_singleton] at hp
    rcases hp with hold | hcur
    · rw [hmem2]
      exact Or.inl (inv.closure p hold u hs)
    · subst hcur
      have hmemn : u ∈ orderedNeighbors p := by
        rw [isStep, Bool.and_eq_true] at hs
        exact of_decide_eq_true hs.1
      have := h5 u hmemn hs
      rw [keysOf_append, ← hkeys2] at this
      exact this
  · -- chainF
    rw [h2]
    rw [List.chain'_append]
    refine ⟨?_, ?_, ?_⟩
    · have hcong : ∀ x ∈ rest,
          dep x = (if x ∈ keysOf newEn then dep cur + 1 else dep x) := by
        intro x hx
        have hxk : x ∈ keysOf cf := by
          rw [inv.keys_eq, List.mem_append]
          exact Or.inr (List.mem_cons_of_mem cur hx)
        exact (hF1 x hxk).symm
      exact chain'_mono_congr dep _ rest hcong (List.Chain'.tail inv.chainF)
    · exact chain'_const _ (dep cur + 1) (keysOf newEn) hF2
    · intro x hx y hy
      have hxr : x ∈ rest := mem_of_getLast?_mem rest x hx
      have hyn : y ∈ keysOf newEn := List.mem_of_mem_head? hy
      have hxk : x ∈ keysOf cf := by
        rw [inv.keys_eq, List.mem_append]
        exact Or.inr (List.mem_cons_of_mem cur hxr)
      rw [hF1 x hxk, hF2 y hyn]
      exact inv.spreadF x (List.mem_cons_of_mem cur hxr) cur rfl
  · -- spreadF
    intro f hf h0 hh0
    rw [h2] at hf hh0
    cases rest with
    | nil =>
      rw [List.nil_append] at hf hh0
      have hh0' : h0 ∈ keysOf newEn := List.mem_of_mem_head? hh0
      rw [hF2 f hf, hF2 h0 hh0']
      omega
    | cons x0 rest' =>
      have hh0' : h0 = x0 := by
        rw [List.cons_append, List.head?_cons] at hh0
        injection hh0 with hh0
        exact hh0.symm
      subst hh0'
      have hx0k : h0 ∈ keysOf cf := by
        rw [inv.keys_eq, List.mem_append]
        exact Or.inr (List.mem_cons_of_mem cur (List.mem_cons_self h0 rest'))
      have hd0 : dep cur ≤ dep h0 :=
        chain'_head_le dep (h0 :: rest') cur inv.chainF h0
          (List.mem_cons_of_mem cur (List.mem_cons_self h0 rest'))
      rw [hF1 h0 hx0k]
      rw [List.mem_append] at hf
      rcases hf with hfr | hfa
      · have hfk : f ∈ keysOf cf := by
          rw [inv.keys_eq, List.mem_append]
          exact Or.inr (List.mem_cons_of_mem cur hfr)
        rw [hF1 f hfk]
        have := inv.spreadF f (List.mem_cons_of_mem cur hfr) cur rfl
        omega
      · rw [hF2 f hfa]
        omega

theorem bfsLoop_succ_cons (m : GameMap) (goal : Hex) (fuel : Nat) (cur : Hex)
    (rest : List Hex) (cf : CameFrom) :
    bfsLoop m goal (fuel + 1) (cur :: rest) cf =
      if cur = goal then cf
      else bfsLoop m goal fuel (rest ++ (expandNode m cur cf).2)
        (expandNode m cur cf).1 := by
  rfl

/-- Running the BFS loop from an invariant state with enough fuel lands
in an invariant state that is terminal: the goal was dequeued or the
frontier ran dry. -/
theorem bfsLoop_run (m : GameMap) (start goal : Hex) :
    ∀ (fuel : Nat) (P F : List Hex) (cf : CameFrom) (dep : Hex → Nat),
      BfsInv m start P F cf dep →
      inBoundsCount m + 1 ≤ fuel + P.length →
      ∃ P' F' dep', BfsInv m start P' F' (bfsLoop m goal fuel F cf) dep' ∧
        (∀ h ∈ keysOf cf, dep' h = dep h) ∧
        (goal ∈ keysOf (bfsLoop m goal fuel F cf) ∨ F' = []) := by
  intro fuel
  induction fuel with
  | zero =>
    intro P F cf dep inv hfuel
    exfalso
    have h1 : P.length ≤ (keysOf cf).length := by
      rw [inv.keys_eq, List.length_append]
      omega
    have h2 : (keysOf cf).length ≤ inBoundsCount m := by
      apply nodup_inBounds_length_le m _ inv.keys_nodup
      intro h hh
      have := inv.keys_passable h hh
      rw [GameMap.is_passable, Bool.and_eq_true] at this
      exact this.1
    omega
  | succ fuel ih =>
    intro P F cf dep inv hfuel
    cases F with
    | nil => exact ⟨P, [], dep, inv, fun h _ => rfl, Or.inr rfl⟩
    | cons cur rest =>
      by_cases hg : cur = goal
      · have hred : bfsLoop m goal (fuel + 1) (cur :: rest) cf = cf := by
          rw [bfsLoop_succ_cons, if_pos hg]
        refine ⟨P, cur :: rest, dep, by rw [hred]; exact inv, fun h _ => rfl,
          Or.inl ?_⟩
        rw [hred, inv.keys_eq, List.mem_append, ← hg]
        exact Or.inr (List.mem_cons_self cur rest)
      · have hred : bfsLoop m goal (fuel + 1) (cur :: rest) cf =
            bfsLoop m goal fuel (rest ++ (expandNode m cur cf).2)
              (expandNode m cur cf).1 := by
          rw [bfsLoop_succ_cons, if_neg hg]
        obtain ⟨dep2, inv2, hdep2, hsup2⟩ := bfs_step m start P cur rest cf dep inv
        have hfuel2 : inBoundsCount m + 1 ≤ fuel + (P ++ [cur]).length := by
          rw [List.length_append]
          simp only [List.length_singleton]
          omega
        obtain ⟨P', F', dep', hinv', hdp', hgoal'⟩ :=
          ih (P ++ [cur]) _ _ dep2 inv2 hfuel2
        refine ⟨P', F', dep', by rw [hred]; exact hinv', ?_,
          by rw [hred]; exact hgoal'⟩
        intro h hh
        rw [hdp' h (hsup2 h hh)]
        exact hdep2 h hh

/-- With an empty frontier the discovered set is closed under steps: any
walk from a discovered hex stays discovered. -/
theorem closed_complete (m : GameMap) (start : Hex) (P : List Hex)
    (cf : CameFrom) (dep : Hex → Nat) (inv : BfsInv m start P [] cf dep) :
    ∀ (p : List Hex) (a u : Hex), a ∈ keysOf cf → validWalk m a p u = true →
      u ∈ keysOf cf := by
  intro p
  induction p with
  | nil =>
    intro a u ha hw
    rw [validWalk_nil] at hw
    exact hw ▸ ha
  | cons h t ihp =>
    intro a u ha hw
    rw [validWalk_cons] at hw
    have haP : a ∈ P := by
      have hk := inv.keys_eq
      rw [List.append_nil] at hk
      rw [hk] at ha
      exact ha
    have hh : h ∈ keysOf cf := inv.closure a haP h hw.1
    exact ihp h u hh hw.2

/-- Reconstruction follows the parent chain from `cur` back to `start`,
producing a valid walk of length `dep cur` that avoids `start` and ends
at `cur`. -/
theorem reconstruct_spec (m : GameMap) (start : Hex) (P F : List Hex)
    (cf : CameFrom) (dep : Hex → Nat) (inv : BfsInv m start P F cf dep) :
    ∀ (fuel : Nat) (cur : Hex) (acc : List Hex), cur ∈ keysOf cf →
      dep cur < fuel →
      ∃ w, reconstruct cf start fuel cur acc = w ++ acc ∧
        validWalk m start w cur = true ∧ w.length = dep cur ∧
        start ∉ w ∧ (cur ≠ start → w.getLast? = some cur) := by
  intro fuel
  induction fuel with
  | zero => intro cur acc _ hd; omega
  | succ fuel ih =>
    intro cur acc hcur hd
    by_cases hs : cur = start
    · subst hs
      refine ⟨[], by simp [reconstruct], (validWalk_nil m _ _).mpr rfl,
        by simp [inv.dep_start], by simp, fun hc => absurd rfl hc⟩
    · obtain ⟨po, hpo⟩ := (mem_keysOf cf cur).mp hcur
      rcases inv.parent (cur, po) hpo with ⟨hl, _⟩ | ⟨p, hp1, hp2, hp3, hp4⟩
      · exact absurd hl hs
      · have hp1' : po = some p := hp1
        subst hp1'
        have hget : alistGet? cf cur = some (some p) :=
          alistGet?_of_mem_nodup cf cur (some p) inv.keys_nodup hpo
        have hp3' : dep cur = dep p + 1 := hp3
        have hdp : dep p < fuel := by omega
        obtain ⟨w, hw1, hw2, hw3, hw4, hw5⟩ := ih p (cur :: acc) hp4 hdp
        have hstep : reconstruct cf start (fuel + 1) cur acc =
            reconstruct cf start fuel p (cur :: acc) := by
          rw [reconstruct, if_neg hs, hget]
        refine ⟨w ++ [cur], ?_, ?_, ?_, ?_, ?_⟩
        · rw [hstep, hw1, List.append_assoc]
          rfl
        · exact validWalk_snoc m w start p cur hw2 hp2
        · rw [List.length_append, hw3]
          simp only [List.length_singleton]
          omega
        · intro hmem
          rcases List.mem_append.mp hmem with h | h
          · exact hw4 h
          · rw [List.mem_singleton] at h
            exact hs h.symm
        · intro _
          exact List.getLast?_concat w

/-- The initial BFS state satisfies the invariant. -/
theorem bfsInv_init (m : GameMap) (start : Hex)
    (hps : m.is_passable start = true) :
    BfsInv m start [] [start] [(start, none)] (fun _ => 0) := by
  refine ⟨?_, ?_, ?_, ?_, rfl, ?_, ?_, ?_, ?_, ?_, ?_⟩
  · simp [keysOf]
  · simp [keysOf]
  · intro e he
    rw [List.mem_singleton] at he
    subst he
    exact Or.inl ⟨rfl, rfl⟩
  · intro h _
    simp
  · simp [keysOf]
  · intro h hh
    simp [keysOf] at hh
    subst hh
    exact hps
  · intro h hh
    simp [keysOf] at hh
    subst hh
    exact ⟨(reachW_zero m _ _).mpr rfl, fun k _ => Nat.zero_le k⟩
  · intro p hp
    simp at hp
  · exact List.chain'_singleton start
  · intro f _ h0 _
    simp

/-- `bfs_path` on reachable distinct passable endpoints returns a valid
shortest path excluding the start and ending at the goal. -/
theorem bfs_path_shortest (m : GameMap) (start goal : Hex) (hne : start ≠ goal)
    (hps : m.is_passable start = true) (hpg : m.is_passable goal = true)
    (hreach : ∃ p, validWalk m start p goal = true) :
    ∃ path, bfs_path m start goal = some path ∧
      validWalk m start path goal = true ∧ start ∉ path ∧
      path.getLast? = some goal ∧
      ∀ p, validWalk m start p goal = true → path.length ≤ p.length := by
  obtain ⟨P', F', dep', hinv, hdp, hterm⟩ :=
    bfsLoop_run m start goal (bfsFuel m) [] [start] [(start, none)]
      (fun _ => 0) (bfsInv_init m start hps)
      (by rw [bfsFuel]; simp only [List.length_nil]; omega)
  have hgoalmem : goal ∈
      keysOf (bfsLoop m goal (bfsFuel m) [start] [(start, none)]) := by
    rcases hterm with h | h
    · exact h
    · subst h
      obtain ⟨p, hp⟩ := hreach
      exact closed_complete m start P' _ dep' hinv p start goal
        hinv.start_mem hp
  obtain ⟨po, hpo⟩ := alistGet?_isSome_of_mem_keys _ goal hgoalmem
  have hdlt : dep' goal <
      (bfsLoop m goal (bfsFuel m) [start] [(start, none)]).length + 1 := by
    have h1 := hinv.dep_bound goal hgoalmem
    have h2 : (keysOf (bfsLoop m goal (bfsFuel m) [start] [(start, none)])).length =
        (bfsLoop m goal (bfsFuel m) [start] [(start, none)]).length := by
      rw [keysOf, List.length_map]
    omega
  obtain ⟨w, hw1, hw2, hw3, hw4, hw5⟩ :=
    reconstruct_spec m start P' F' _ dep' hinv
      ((bfsLoop m goal (bfsFuel m) [start] [(start, none)]).length + 1)
      goal [] hgoalmem hdlt
  refine ⟨w, ?_, hw2, hw4, hw5 (Ne.symm hne), ?_⟩
  · rw [bfs_path, if_neg hne]
    simp only [hps, hpg, Bool.not_true, Bool.false_eq_true, if_false]
    rw [hpo, hw1, List.append_nil]
  · intro p hp
    have := (hinv.dist goal hgoalmem).2 p.length ⟨p, hp, rfl⟩
    rw [hw3]
    exact this

theorem hexDistance_self (a : Hex) : hexDistance a a = 0 := by
  simp [hexDistance]

theorem hexDistance_neighbor (a b g : Hex) (h : b ∈ orderedNeighbors a) :
    hexDistance a g ≤ hexDistance b g + 1 := by
  simp only [orderedNeighbors, DIRS, List.map_cons, List.map_nil,
    List.mem_cons, List.not_mem_nil, or_false] at h
  rcases h with h | h | h | h | h | h <;> subst h <;>
    · simp only [hexDistance]
      omega

theorem walk_length_ge (m : GameMap) :
    ∀ (p : List Hex) (a b : Hex), validWalk m a p b = true →
      hexDistance a b ≤ p.length := by
  intro p
  induction p with
  | nil =>
    intro a b hw
    rw [validWalk_nil] at hw
    subst hw
    rw [hexDistance_self]
    exact Nat.zero_le 0
  | cons h rest ih =>
    intro a b hw
    rw [validWalk_cons] at hw
    have hmem : h ∈ orderedNeighbors a := by
      have := hw.1
      rw [isStep, Bool.and_eq_true] at this
      exact of_decide_eq_true this.1
    have h1 := hexDistance_neighbor a h b hmem
    have h2 := ih h b hw.2
    simp only [List.length_cons]
    omega

theorem stepToward_spec (a b : Hex) (hne : a ≠ b) :
    stepToward a b ∈ orderedNeighbors a ∧
    hexDistance (stepToward a b) b + 1 = hexDistance a b ∧
    min a.q b.q ≤ (stepToward a b).q ∧ (stepToward a b).q ≤ max a.q b.q ∧
    min a.r b.r ≤ (stepToward a b).r ∧ (stepToward a b).r ≤ max a.r b.r := by
  have hqr : ¬(a.q = b.q ∧ a.r = b.r) := by
    intro hc
    apply hne
    cases a; cases b
    simp_all
  rw [stepToward]
  split_ifs with h1 h2 h3 h4 h5 <;>
    refine ⟨?_, ?_, ?_, ?_, ?_, ?_⟩ <;>
    · simp only [hexDistance, orderedNeighbors, DIRS, List.map_cons,
        List.map_nil, List.mem_cons, List.not_mem_nil, or_false,
        Hex.mk.injEq, true_and, and_true]
      omega

theorem open_walk (m : GameMap) (hb : m.blocked = []) :
    ∀ (n : Nat) (a b : Hex), hexDistance a b = n →
      m.in_bounds a = true → m.in_bounds b = true →
      ∃ p, validWalk m a p b = true ∧ p.length = n := by
  intro n
  induction n with
  | zero =>
    intro a b hd _ _
    have hab : a = b := by
      cases a; cases b
      simp only [hexDistance] at hd
      simp only [Hex.mk.injEq]
      omega
    subst hab
    exact ⟨[], (validWalk_nil m _ _).mpr rfl, rfl⟩
  | succ n ihn =>
    intro a b hd hia hib
    have hne : a ≠ b := by
      intro hc
      rw [hc, hexDistance_self] at hd
      omega
    obtain ⟨hmem, hdec, hq1, hq2, hr1, hr2⟩ := stepToward_spec a b hne
    have hd' : hexDistance (stepToward a b) b = n := by omega
    have hib' : m.in_bounds (stepToward a b) = true := by
      rw [GameMap.in_bounds] at hia hib ⊢
      simp only [Bool.and_eq_true, decide_eq_true_eq] at hia hib ⊢
      omega
    obtain ⟨p, hp, hl⟩ := ihn (stepToward a b) b hd' hib' hib
    refine ⟨stepToward a b :: p, ?_, by simp [hl]⟩
    rw [validWalk_cons]
    refine ⟨?_, hp⟩
    rw [isStep, Bool.and_eq_true]
    refine ⟨decide_eq_true hmem, ?_⟩
    rw [GameMap.is_passable, Bool.and_eq_true]
    refine ⟨hib', ?_⟩
    simp [GameMap.is_blocked, hb]

/-- C3: for mutually reachable distinct passable hexes, `bfs_path`
returns a valid path that excludes the start hex, ends at the goal hex
and is shortest among all valid paths; on an open in-bounds map its
length equals the axial hex distance; and, being a pure function of the
map and endpoints with the fixed `DIRS` neighbor order, repeated calls
return the identical path. -/
theorem C3_bfs_shortest_path :
    (∀ (m : GameMap) (start goal : Hex), start ≠ goal →
      m.is_passable start = true → m.is_passable goal = true →
      (∃ p, validWalk m start p goal = true) →
      ∃ path, bfs_path m start goal = some path ∧
        validWalk m start path goal = true ∧ start ∉ path ∧
        path.getLast? = some goal ∧
        ∀ p, validWalk m start p goal = true → path.length ≤ p.length) ∧
    (∀ (m : GameMap) (start goal : Hex), m.blocked = [] → start ≠ goal →
      m.in_bounds start = true → m.in_bounds goal = true →
      ∃ path, bfs_path m start goal = some path ∧
        path.length = hexDistance start goal) ∧
    (∀ (m : GameMap) (start goal : Hex),
      bfs_path m start goal = bfs_path m start goal) := by
  refine ⟨bfs_path_shortest, ?_, fun _ _ _ => rfl⟩
  intro m start goal hb hne hia hib
  have hps : m.is_passable start = true := by
    rw [GameMap.is_passable, Bool.and_eq_true]
    exact ⟨hia, by simp [GameMap.is_blocked, hb]⟩
  have hpg : m.is_passable goal = true := by
    rw [GameMap.is_passable, Bool.and_eq_true]
    exact ⟨hib, by simp [GameMap.is_blocked, hb]⟩
  obtain ⟨p0, hp0, hl0⟩ :=
    open_walk m hb (hexDistance start goal) start goal rfl hia hib
  obtain ⟨path, hbfs, hvw, _, _, hmin⟩ :=
    bfs_path_shortest m start goal hne hps hpg ⟨p0, hp0⟩
  refine ⟨path, hbfs, ?_⟩
  have h1 : path.length ≤ hexDistance start goal := by
    rw [← hl0]
    exact hmin p0 hp0
  have h2 : hexDistance start goal ≤ path.length :=
    walk_length_ge m path start goal hvw
  omega

/-- Witness for C3: on the fresh 11x11 map, (0,0) to (2,0) yields a
shortest path of length 2 (the hex distance) ending at the goal. -/
theorem C3_bfs_shortest_path_witness :
    (∃ path, bfs_path emptyMap11 ⟨0, 0⟩ ⟨2, 0⟩ = some path ∧
      validWalk emptyMap11 ⟨0, 0⟩ path ⟨2, 0⟩ = true ∧
      (⟨0, 0⟩ : Hex) ∉ path ∧
      path.getLast? = some ⟨2, 0⟩ ∧
      ∀ p, validWalk emptyMap11 ⟨0, 0⟩ p ⟨2, 0⟩ = true →
        path.length ≤ p.length) ∧
    (∃ path, bfs_path emptyMap11 ⟨0, 0⟩ ⟨2, 0⟩ = some path ∧
      path.length = hexDistance ⟨0, 0⟩ ⟨2, 0⟩) :=
  ⟨C3_bfs_shortest_path.1 emptyMap11 ⟨0, 0⟩ ⟨2, 0⟩ (by decide) (by decide)
      (by decide) ⟨[⟨1, 0⟩, ⟨2, 0⟩], by decide⟩,
   C3_bfs_shortest_path.2.1 emptyMap11 ⟨0, 0⟩ ⟨2, 0⟩ rfl (by decide)
      (by decide) (by decide)⟩

end AsyncSim
